import Mathlib

/-!
# SlidesTransformation: the slide-ornament engine

A shallow embedding of `SlidesTransformation.cpp` and the properties of its
ornament transformation engine (`handleMeter*`, `applySlideVariants`).

Conventions of the embedding:

* a C++ `int` is a Lean `Int` between `INT_MIN` and `INT_MAX`; `/` on `int` truncates
  toward zero and is `Int.tdiv`. Where a value read from a file can take a result out of
  that range, the result is reduced to 32 bits by `wrapInt`, as the compiled program does
  (in ISO C++ signed overflow is undefined): the product `durPi * 3` of the dotted
  routines, the cursor `trackPosition + duration` of the sequencing loop and the delta
  time `startTime - lastTime` of the writer. The other operations stay in range for every
  `int` they can receive; the pitch sums `pi + offset` are taken over the integers (the
  callers pass pitches from 12 to 131);
* `std::vector<std::pair<int, int>>` is `List (Int × Int)`, a pair being
  `(pitch, duration)`; `push_back` appends at the end; a routine that mutates
  its `EmbRet&` argument takes the list and returns the extended list;
* a function that throws returns `Except`, the error value recording which
  `throw` statement was reached.
-/

namespace SlidesTransformation

/-- Largest value of a C++ `int` (32 bits). -/
def INT_MAX : Int := 2147483647

/-- Smallest value of a C++ `int` (32 bits). -/
def INT_MIN : Int := -2147483648

/-- The `int` that the program holds after an operation whose result over the integers is `x`:
the number between `INT_MIN` and `INT_MAX` that differs from `x` by a multiple of 2^32. -/
def wrapInt (x : Int) : Int := (x + 2147483648) % 4294967296 - 2147483648

/-- Time meter, the C++ `enum TimeMeter`. -/
inductive TimeMeter where
  | DUPLE
  | TRIPLE
  deriving DecidableEq, Repr

/-- The `std::invalid_argument` exceptions thrown by `applySlideVariants`, one constructor per
`throw` statement. -/
inductive SlideError where
  /-- Thrown with "Duration (durPi) must be greater than 0". -/
  | invalidDuration
  /-- Thrown with "Invalid TimeMeter". -/
  | invalidTimeMeter
  /-- Thrown with "Unknown slide variant: " followed by the variant string. -/
  | unknownVariant (variant : String)
  deriving DecidableEq, Repr

/-- The message carried by each exception. -/
def SlideError.what : SlideError → String
  | .invalidDuration => "Duration (durPi) must be greater than 0"
  | .invalidTimeMeter => "Invalid TimeMeter"
  | .unknownVariant variant => "Unknown slide variant: " ++ variant

/-- Base two-ornament routine `handleMeter`. -/
def handleMeter (EmbRet : List (Int × Int)) (pre1 pre2 pi durPi : Int) (meter : TimeMeter) :
    List (Int × Int) :=
  if meter = .DUPLE then
    let segment := durPi.tdiv 4
    EmbRet ++ [(pre1, segment), (pre2, segment), (pi, segment * 2)]
  else if meter = .TRIPLE then
    let segment := durPi.tdiv 3
    EmbRet ++ [(pre1, segment), (pre2, segment), (pi, segment)]
  else EmbRet

/-- Dotted two-ornament routine `handleMeter4`; the product `durPi * 3` is an `int`. -/
def handleMeter4 (EmbRet : List (Int × Int)) (pre1 pre2 pi durPi : Int) (meter : TimeMeter) :
    List (Int × Int) :=
  if meter = .DUPLE then
    let segment1 := (wrapInt (durPi * 3)).tdiv 8
    let segment2 := durPi.tdiv 8
    EmbRet ++ [(pre1, segment1), (pre2, segment2), (pi, durPi.tdiv 2)]
  else if meter = .TRIPLE then
    let segment1 := durPi.tdiv 3
    let segment2 := durPi.tdiv 6
    EmbRet ++ [(pre1, segment1), (pre2, segment2), (pi, durPi.tdiv 2)]
  else EmbRet

/-- Dotted two-ornament routine `handleMeter5`; in duple meter it emits `pre2` before `pre1`,
and the product `durPi * 3` is an `int`. -/
def handleMeter5 (EmbRet : List (Int × Int)) (pre1 pre2 pi durPi : Int) (meter : TimeMeter) :
    List (Int × Int) :=
  if meter = .DUPLE then
    let segment1 := durPi.tdiv 4
    let segment2 := (wrapInt (durPi * 3)).tdiv 8
    EmbRet ++ [(pre2, segment1), (pre1, segment2), (pi, durPi.tdiv 2)]
  else if meter = .TRIPLE then
    let segment1 := durPi.tdiv 6
    let segment2 := durPi.tdiv 3
    EmbRet ++ [(pre1, segment1), (pre2, segment2), (pi, durPi.tdiv 2)]
  else EmbRet

/-- Three-ornament routine `handleMeter3`: three equal segments, the principal note takes the rest. -/
def handleMeter3 (EmbRet : List (Int × Int)) (pre1 pre2 pre3 pi durPi : Int)
    (meter : TimeMeter) : List (Int × Int) :=
  if meter = .DUPLE then
    let segment := durPi.tdiv 6
    EmbRet ++ [(pre1, segment), (pre2, segment), (pre3, segment), (pi, durPi - 3 * segment)]
  else if meter = .TRIPLE then
    let segment := durPi.tdiv 8
    EmbRet ++ [(pre1, segment), (pre2, segment), (pre3, segment), (pi, durPi - 3 * segment)]
  else EmbRet

/-- Three-ornament routine `handleMeter6`: the first ornament is dotted. -/
def handleMeter6 (EmbRet : List (Int × Int)) (pre1 pre2 pre3 pi durPi : Int)
    (meter : TimeMeter) : List (Int × Int) :=
  if meter = .DUPLE then
    let segment1 := durPi.tdiv 4
    let segment2 := durPi.tdiv 8
    let segment3 := durPi.tdiv 8
    EmbRet ++ [(pre1, segment1), (pre2, segment2), (pre3, segment3),
      (pi, durPi - (segment1 + segment2 + segment3))]
  else if meter = .TRIPLE then
    let segment := durPi.tdiv 8
    EmbRet ++ [(pre1, segment * 2), (pre2, segment), (pre3, segment), (pi, durPi - 4 * segment)]
  else EmbRet

/-- Three-ornament routine `handleMeter7`: the second ornament is dotted. -/
def handleMeter7 (EmbRet : List (Int × Int)) (pre1 pre2 pre3 pi durPi : Int)
    (meter : TimeMeter) : List (Int × Int) :=
  if meter = .DUPLE then
    let segment1 := durPi.tdiv 8
    let segment2 := durPi.tdiv 4
    let segment3 := durPi.tdiv 8
    EmbRet ++ [(pre1, segment1), (pre2, segment2), (pre3, segment3),
      (pi, durPi - (segment1 + segment2 + segment3))]
  else if meter = .TRIPLE then
    let segment := durPi.tdiv 8
    EmbRet ++ [(pre1, segment), (pre2, segment * 2), (pre3, segment), (pi, durPi - (segment * 4))]
  else EmbRet

/-- Three-ornament routine `handleMeter8`: the third ornament is dotted. -/
def handleMeter8 (EmbRet : List (Int × Int)) (pre1 pre2 pre3 pi durPi : Int)
    (meter : TimeMeter) : List (Int × Int) :=
  if meter = .DUPLE then
    let segment1 := durPi.tdiv 8
    let segment2 := durPi.tdiv 8
    let segment3 := durPi.tdiv 4
    EmbRet ++ [(pre1, segment1), (pre2, segment2), (pre3, segment3),
      (pi, durPi - (segment1 + segment2 + segment3))]
  else if meter = .TRIPLE then
    let segment := durPi.tdiv 12
    EmbRet ++ [(pre1, segment * 2), (pre2, segment * 2), (pre3, segment * 4),
      (pi, durPi - (segment * 8))]
  else EmbRet

/-- Main routine `applySlideVariants`: the duration and meter guards, then the chain of
string comparisons on the variant name, in source order. -/
def applySlideVariants (pi durPi : Int) (meter : TimeMeter) (variant : String) :
    Except SlideError (List (Int × Int)) :=
  if durPi ≤ 0 then .error .invalidDuration
  else if meter ≠ .DUPLE ∧ meter ≠ .TRIPLE then .error .invalidTimeMeter
  else
  let EmbRet : List (Int × Int) := []
  if variant = "STTM2m" then
    let pre1 := pi - 3
    let pre2 := pre1 + 2
    .ok (handleMeter EmbRet pre1 pre2 pi durPi meter)
  else if variant = "STTm2M" then
    let pre1 := pi - 3
    let pre2 := pre1 + 1
    .ok (handleMeter EmbRet pre1 pre2 pi durPi meter)
  else if variant = "STTm3m" then
    let pre1 := pi - 4
    let pre2 := pre1 + 3
    .ok (handleMeter EmbRet pre1 pre2 pi durPi meter)
  else if variant = "STTM2M" then
    let pre1 := pi - 4
    let pre2 := pre1 + 2
    .ok (handleMeter EmbRet pre1 pre2 pi durPi meter)
  else if variant = "DSTTM2m" then
    let pre1 := pi - 3
    let pre2 := pre1 + 2
    .ok (handleMeter4 EmbRet pre1 pre2 pi durPi meter)
  else if variant = "DSTTm2M" then
    let pre1 := pi - 3
    let pre2 := pre1 + 1
    .ok (handleMeter4 EmbRet pre1 pre2 pi durPi meter)
  else if variant = "DSTTm3m" then
    let pre1 := pi - 4
    let pre2 := pre1 + 3
    .ok (handleMeter4 EmbRet pre1 pre2 pi durPi meter)
  else if variant = "DSTTM2M" then
    let pre1 := pi - 4
    let pre2 := pre1 + 2
    .ok (handleMeter4 EmbRet pre1 pre2 pi durPi meter)
  else if variant = "ISTTM2m" then
    let pre1 := pi + 4
    let pre2 := pre1 - 2
    .ok (handleMeter EmbRet pre1 pre2 pi durPi meter)
  else if variant = "ISTTm2M" then
    let pre1 := pi + 3
    let pre2 := pre1 - 1
    .ok (handleMeter EmbRet pre1 pre2 pi durPi meter)
  else if variant = "ISTTM3m" then
    let pre1 := pi + 4
    let pre2 := pre1 - 3
    .ok (handleMeter EmbRet pre1 pre2 pi durPi meter)
  else if variant = "ISTTM2M" then
    let pre1 := pi + 3
    let pre2 := pre1 - 2
    .ok (handleMeter EmbRet pre1 pre2 pi durPi meter)
  else if variant = "DISTTM2m" then
    let pre1 := pi + 4
    let pre2 := pre1 - 2
    .ok (handleMeter4 EmbRet pre1 pre2 pi durPi meter)
  else if variant = "DISTTm2M" then
    let pre1 := pi + 3
    let pre2 := pre1 - 1
    .ok (handleMeter4 EmbRet pre1 pre2 pi durPi meter)
  else if variant = "DISTTm3m" then
    let pre1 := pi + 4
    let pre2 := pre1 - 3
    .ok (handleMeter4 EmbRet pre1 pre2 pi durPi meter)
  else if variant = "DISTTM2M" then
    let pre1 := pi + 3
    let pre2 := pre1 - 2
    .ok (handleMeter4 EmbRet pre1 pre2 pi durPi meter)
  else if variant = "TTSM2m2M" then
    let pre1 := pi - 5
    let pre2 := pre1 + 2
    let pre3 := pre2 + 1
    .ok (handleMeter3 EmbRet pre1 pre2 pre3 pi durPi meter)
  else if variant = "TTSm3M2M" then
    let pre1 := pi - 6
    let pre2 := pre1 + 3
    let pre3 := pre2 + 1
    .ok (handleMeter3 EmbRet pre1 pre2 pre3 pi durPi meter)
  else if variant = "TTSm2M2M" then
    let pre1 := pi - 5
    let pre2 := pre1 + 1
    let pre3 := pre2 + 2
    .ok (handleMeter3 EmbRet pre1 pre2 pre3 pi durPi meter)
  else if variant = "TTSM2M2m" then
    let pre1 := pi - 5
    let pre2 := pre1 + 2
    let pre3 := pre2 + 2
    .ok (handleMeter3 EmbRet pre1 pre2 pre3 pi durPi meter)
  else if variant = "TTSM2M2M" then
    let pre1 := pi - 6
    let pre2 := pre1 + 2
    let pre3 := pre2 + 2
    .ok (handleMeter3 EmbRet pre1 pre2 pre3 pi durPi meter)
  else if variant = "TTSm2m3m" then
    let pre1 := pi - 5
    let pre2 := pre1 + 1
    let pre3 := pre2 + 3
    .ok (handleMeter3 EmbRet pre1 pre2 pre3 pi durPi meter)
  else if variant = "TTSm3M2m" then
    let pre1 := pi - 6
    let pre2 := pre1 + 3
    let pre3 := pre2 + 2
    .ok (handleMeter3 EmbRet pre1 pre2 pre3 pi durPi meter)
  else if variant = "TTSM2m3m" then
    let pre1 := pi - 6
    let pre2 := pre1 + 2
    let pre3 := pre2 + 3
    .ok (handleMeter3 EmbRet pre1 pre2 pre3 pi durPi meter)
  else if variant = "TTSd1M2m2M" then
    let pre1 := pi - 5
    let pre2 := pre1 + 2
    let pre3 := pre2 + 1
    .ok (handleMeter6 EmbRet pre1 pre2 pre3 pi durPi meter)
  else if variant = "TTSd1m3M2M" then
    let pre1 := pi - 6
    let pre2 := pre1 + 3
    let pre3 := pre2 + 1
    .ok (handleMeter6 EmbRet pre1 pre2 pre3 pi durPi meter)
  else if variant = "TTSd1m2M2M" then
    let pre1 := pi - 5
    let pre2 := pre1 + 1
    let pre3 := pre2 + 2
    .ok (handleMeter6 EmbRet pre1 pre2 pre3 pi durPi meter)
  else if variant = "TTSd1M2M2m" then
    let pre1 := pi - 5
    let pre2 := pre1 + 2
    let pre3 := pre2 + 2
    .ok (handleMeter6 EmbRet pre1 pre2 pre3 pi durPi meter)
  else if variant = "TTSd1M2M2M" then
    let pre1 := pi - 6
    let pre2 := pre1 + 2
    let pre3 := pre2 + 2
    .ok (handleMeter6 EmbRet pre1 pre2 pre3 pi durPi meter)
  else if variant = "TTSd1m2m3m" then
    let pre1 := pi - 5
    let pre2 := pre1 + 1
    let pre3 := pre2 + 3
    .ok (handleMeter6 EmbRet pre1 pre2 pre3 pi durPi meter)
  else if variant = "TTSd1m3M2m" then
    let pre1 := pi - 6
    let pre2 := pre1 + 3
    let pre3 := pre2 + 2
    .ok (handleMeter6 EmbRet pre1 pre2 pre3 pi durPi meter)
  else if variant = "TTSd1M2m3m" then
    let pre1 := pi - 6
    let pre2 := pre1 + 2
    let pre3 := pre2 + 3
    .ok (handleMeter6 EmbRet pre1 pre2 pre3 pi durPi meter)
  else if variant = "TTSd2M2m2M" then
    let pre1 := pi - 5
    let pre2 := pre1 + 2
    let pre3 := pre2 + 1
    .ok (handleMeter7 EmbRet pre1 pre2 pre3 pi durPi meter)
  else if variant = "TTSd2m3M2M" then
    let pre1 := pi - 6
    let pre2 := pre1 + 3
    let pre3 := pre2 + 1
    .ok (handleMeter7 EmbRet pre1 pre2 pre3 pi durPi meter)
  else if variant = "TTSd2m2M2M" then
    let pre1 := pi - 5
    let pre2 := pre1 + 1
    let pre3 := pre2 + 2
    .ok (handleMeter7 EmbRet pre1 pre2 pre3 pi durPi meter)
  else if variant = "TTSd2M2M2m" then
    let pre1 := pi - 5
    let pre2 := pre1 + 2
    let pre3 := pre2 + 2
    .ok (handleMeter7 EmbRet pre1 pre2 pre3 pi durPi meter)
  else if variant = "TTSd2M2M2M" then
    let pre1 := pi - 6
    let pre2 := pre1 + 2
    let pre3 := pre2 + 2
    .ok (handleMeter7 EmbRet pre1 pre2 pre3 pi durPi meter)
  else if variant = "TTSd2m2m3m" then
    let pre1 := pi - 5
    let pre2 := pre1 + 1
    let pre3 := pre2 + 3
    .ok (handleMeter7 EmbRet pre1 pre2 pre3 pi durPi meter)
  else if variant = "TTSd2m3M2m" then
    let pre1 := pi - 6
    let pre2 := pre1 + 3
    let pre3 := pre2 + 2
    .ok (handleMeter7 EmbRet pre1 pre2 pre3 pi durPi meter)
  else if variant = "TTSd2M2m3m" then
    let pre1 := pi - 6
    let pre2 := pre1 + 2
    let pre3 := pre2 + 3
    .ok (handleMeter7 EmbRet pre1 pre2 pre3 pi durPi meter)
  else if variant = "TTSd3M2m2M" then
    let pre1 := pi - 5
    let pre2 := pre1 + 2
    let pre3 := pre2 + 1
    .ok (handleMeter8 EmbRet pre1 pre2 pre3 pi durPi meter)
  else if variant = "TTSd3m3M2M" then
    let pre1 := pi - 6
    let pre2 := pre1 + 3
    let pre3 := pre2 + 1
    .ok (handleMeter8 EmbRet pre1 pre2 pre3 pi durPi meter)
  else if variant = "TTSd3m2M2M" then
    let pre1 := pi - 5
    let pre2 := pre1 + 1
    let pre3 := pre2 + 2
    .ok (handleMeter8 EmbRet pre1 pre2 pre3 pi durPi meter)
  else if variant = "TTSd3M2M2m" then
    let pre1 := pi - 5
    let pre2 := pre1 + 2
    let pre3 := pre2 + 2
    .ok (handleMeter8 EmbRet pre1 pre2 pre3 pi durPi meter)
  else if variant = "TTSd3M2M2M" then
    let pre1 := pi - 6
    let pre2 := pre1 + 2
    let pre3 := pre2 + 2
    .ok (handleMeter8 EmbRet pre1 pre2 pre3 pi durPi meter)
  else if variant = "TTSd3m2m3m" then
    let pre1 := pi - 5
    let pre2 := pre1 + 1
    let pre3 := pre2 + 3
    .ok (handleMeter8 EmbRet pre1 pre2 pre3 pi durPi meter)
  else if variant = "TTSd3m3M2m" then
    let pre1 := pi - 6
    let pre2 := pre1 + 3
    let pre3 := pre2 + 2
    .ok (handleMeter8 EmbRet pre1 pre2 pre3 pi durPi meter)
  else if variant = "TTSd3M2m3m" then
    let pre1 := pi - 6
    let pre2 := pre1 + 2
    let pre3 := pre2 + 3
    .ok (handleMeter8 EmbRet pre1 pre2 pre3 pi durPi meter)
  else if variant = "TTITM2M2M" then
    let pre1 := pi - 2
    let pre2 := pre1 + 2
    let pre3 := pre2 + 2
    .ok (handleMeter3 EmbRet pre1 pre2 pre3 pi durPi meter)
  else if variant = "TTITM2M2m" then
    let pre1 := pi - 3
    let pre2 := pre1 + 2
    let pre3 := pre2 + 2
    .ok (handleMeter3 EmbRet pre1 pre2 pre3 pi durPi meter)
  else if variant = "TTITM2m3M" then
    let pre1 := pi - 3
    let pre2 := pre1 + 2
    let pre3 := pre2 + 3
    .ok (handleMeter3 EmbRet pre1 pre2 pre3 pi durPi meter)
  else if variant = "TTITm2M2m" then
    let pre1 := pi - 2
    let pre2 := pre1 + 1
    let pre3 := pre2 + 2
    .ok (handleMeter3 EmbRet pre1 pre2 pre3 pi durPi meter)
  else if variant = "TTITm3M2M" then
    let pre1 := pi - 3
    let pre2 := pre1 + 3
    let pre3 := pre2 + 2
    .ok (handleMeter3 EmbRet pre1 pre2 pre3 pi durPi meter)
  else if variant = "TTITm3m2m" then
    let pre1 := pi - 3
    let pre2 := pre1 + 3
    let pre3 := pre2 + 1
    .ok (handleMeter3 EmbRet pre1 pre2 pre3 pi durPi meter)
  else if variant = "TTITM2m2m" then
    let pre1 := pi - 2
    let pre2 := pre1 + 2
    let pre3 := pre2 + 1
    .ok (handleMeter3 EmbRet pre1 pre2 pre3 pi durPi meter)
  else if variant = "ITTITM2M2M" then
    let pre1 := pi + 2
    let pre2 := pre1 - 2
    let pre3 := pre2 - 2
    .ok (handleMeter3 EmbRet pre1 pre2 pre3 pi durPi meter)
  else if variant = "ITTITm2M3m" then
    let pre1 := pi + 2
    let pre2 := pre1 - 1
    let pre3 := pre2 - 4
    .ok (handleMeter3 EmbRet pre1 pre2 pre3 pi durPi meter)
  else if variant = "ITTITm3m2M" then
    let pre1 := pi + 2
    let pre2 := pre1 - 3
    let pre3 := pre2 - 1
    .ok (handleMeter3 EmbRet pre1 pre2 pre3 pi durPi meter)
  else if variant = "ITTITm3m2m" then
    let pre1 := pi + 3
    let pre2 := pre1 - 3
    let pre3 := pre2 - 1
    .ok (handleMeter3 EmbRet pre1 pre2 pre3 pi durPi meter)
  else if variant = "ITTITM2M3m" then
    let pre1 := pi + 3
    let pre2 := pre1 - 2
    let pre3 := pre2 - 4
    .ok (handleMeter3 EmbRet pre1 pre2 pre3 pi durPi meter)
  else if variant = "ITTITM2m2M" then
    let pre1 := pi + 1
    let pre2 := pre1 - 2
    let pre3 := pre2 - 1
    .ok (handleMeter3 EmbRet pre1 pre2 pre3 pi durPi meter)
  else if variant = "ITTITM2m2m" then
    let pre1 := pi + 2
    let pre2 := pre1 - 2
    let pre3 := pre2 - 1
    .ok (handleMeter3 EmbRet pre1 pre2 pre3 pi durPi meter)
  else if variant = "ITTITM2m3m" then
    let pre1 := pi + 2
    let pre2 := pre1 - 2
    let pre3 := pre2 - 3
    .ok (handleMeter3 EmbRet pre1 pre2 pre3 pi durPi meter)
  else if variant = "ITTITm2M2M" then
    let pre1 := pi + 1
    let pre2 := pre1 - 1
    let pre3 := pre2 - 2
    .ok (handleMeter3 EmbRet pre1 pre2 pre3 pi durPi meter)
  else if variant = "ITTITm2m3M" then
    let pre1 := pi + 2
    let pre2 := pre1 - 1
    let pre3 := pre2 - 3
    .ok (handleMeter3 EmbRet pre1 pre2 pre3 pi durPi meter)
  else if variant = "ITTITm3M2M" then
    let pre1 := pi + 3
    let pre2 := pre1 - 3
    let pre3 := pre2 - 2
    .ok (handleMeter3 EmbRet pre1 pre2 pre3 pi durPi meter)
  else if variant = "ITTSM2M2m" then
    let pre1 := pi + 5
    let pre2 := pre1 - 2
    let pre3 := pre2 - 2
    .ok (handleMeter3 EmbRet pre1 pre2 pre3 pi durPi meter)
  else if variant = "ITTSm2M2M" then
    let pre1 := pi + 5
    let pre2 := pre1 - 1
    let pre3 := pre2 - 2
    .ok (handleMeter3 EmbRet pre1 pre2 pre3 pi durPi meter)
  else if variant = "ITTSm2m3m" then
    let pre1 := pi + 5
    let pre2 := pre1 - 1
    let pre3 := pre2 - 3
    .ok (handleMeter3 EmbRet pre1 pre2 pre3 pi durPi meter)
  else if variant = "ITTSm3M2m" then
    let pre1 := pi + 6
    let pre2 := pre1 - 3
    let pre3 := pre2 - 2
    .ok (handleMeter3 EmbRet pre1 pre2 pre3 pi durPi meter)
  else if variant = "ITTSm3m2M" then
    let pre1 := pi + 6
    let pre2 := pre1 - 3
    let pre3 := pre2 - 1
    .ok (handleMeter3 EmbRet pre1 pre2 pre3 pi durPi meter)
  else if variant = "ITTSM2M2M" then
    let pre1 := pi + 6
    let pre2 := pre1 - 2
    let pre3 := pre2 - 2
    .ok (handleMeter3 EmbRet pre1 pre2 pre3 pi durPi meter)
  else if variant = "ITTSM2m2m" then
    let pre1 := pi + 4
    let pre2 := pre1 - 2
    let pre3 := pre2 - 1
    .ok (handleMeter3 EmbRet pre1 pre2 pre3 pi durPi meter)
  else if variant = "ITTSM2m3m" then
    let pre1 := pi + 6
    let pre2 := pre1 - 2
    let pre3 := pre2 - 3
    .ok (handleMeter3 EmbRet pre1 pre2 pre3 pi durPi meter)
  else .error (.unknownVariant variant)

/-- The partition routines that the branch chain of `applySlideVariants` calls
(`handleMeter5` is called by no branch). -/
inductive Routine where
  | handleMeter
  | handleMeter4
  | handleMeter3
  | handleMeter6
  | handleMeter7
  | handleMeter8
  deriving DecidableEq, Repr

/-- One branch of the chain in closed form: the name it tests, the routine it calls and the
ornament pitches it passes, as offsets from the principal pitch. -/
structure Branch where
  name : String
  routine : Routine
  offsets : List Int
  deriving DecidableEq, Repr

/-- What a branch computes: the routine applied to the empty vector and the offset pitches. -/
def Branch.run (b : Branch) (pi durPi : Int) (meter : TimeMeter) : List (Int × Int) :=
  match b.routine, b.offsets with
  | .handleMeter, [o1, o2] =>
    SlidesTransformation.handleMeter [] (pi + o1) (pi + o2) pi durPi meter
  | .handleMeter4, [o1, o2] =>
    SlidesTransformation.handleMeter4 [] (pi + o1) (pi + o2) pi durPi meter
  | .handleMeter3, [o1, o2, o3] =>
    SlidesTransformation.handleMeter3 [] (pi + o1) (pi + o2) (pi + o3) pi durPi meter
  | .handleMeter6, [o1, o2, o3] =>
    SlidesTransformation.handleMeter6 [] (pi + o1) (pi + o2) (pi + o3) pi durPi meter
  | .handleMeter7, [o1, o2, o3] =>
    SlidesTransformation.handleMeter7 [] (pi + o1) (pi + o2) (pi + o3) pi durPi meter
  | .handleMeter8, [o1, o2, o3] =>
    SlidesTransformation.handleMeter8 [] (pi + o1) (pi + o2) (pi + o3) pi durPi meter
  | _, _ => []

/-- The 74 branches of `applySlideVariants` in source order, each in closed form. That this
table describes the chain is `applySlideVariants_branch`. -/
def branchTable : List Branch :=
  [Branch.mk "STTM2m" Routine.handleMeter [-3, -1],
   Branch.mk "STTm2M" Routine.handleMeter [-3, -2],
   Branch.mk "STTm3m" Routine.handleMeter [-4, -1],
   Branch.mk "STTM2M" Routine.handleMeter [-4, -2],
   Branch.mk "DSTTM2m" Routine.handleMeter4 [-3, -1],
   Branch.mk "DSTTm2M" Routine.handleMeter4 [-3, -2],
   Branch.mk "DSTTm3m" Routine.handleMeter4 [-4, -1],
   Branch.mk "DSTTM2M" Routine.handleMeter4 [-4, -2],
   Branch.mk "ISTTM2m" Routine.handleMeter [4, 2],
   Branch.mk "ISTTm2M" Routine.handleMeter [3, 2],
   Branch.mk "ISTTM3m" Routine.handleMeter [4, 1],
   Branch.mk "ISTTM2M" Routine.handleMeter [3, 1],
   Branch.mk "DISTTM2m" Routine.handleMeter4 [4, 2],
   Branch.mk "DISTTm2M" Routine.handleMeter4 [3, 2],
   Branch.mk "DISTTm3m" Routine.handleMeter4 [4, 1],
   Branch.mk "DISTTM2M" Routine.handleMeter4 [3, 1],
   Branch.mk "TTSM2m2M" Routine.handleMeter3 [-5, -3, -2],
   Branch.mk "TTSm3M2M" Routine.handleMeter3 [-6, -3, -2],
   Branch.mk "TTSm2M2M" Routine.handleMeter3 [-5, -4, -2],
   Branch.mk "TTSM2M2m" Routine.handleMeter3 [-5, -3, -1],
   Branch.mk "TTSM2M2M" Routine.handleMeter3 [-6, -4, -2],
   Branch.mk "TTSm2m3m" Routine.handleMeter3 [-5, -4, -1],
   Branch.mk "TTSm3M2m" Routine.handleMeter3 [-6, -3, -1],
   Branch.mk "TTSM2m3m" Routine.handleMeter3 [-6, -4, -1],
   Branch.mk "TTSd1M2m2M" Routine.handleMeter6 [-5, -3, -2],
   Branch.mk "TTSd1m3M2M" Routine.handleMeter6 [-6, -3, -2],
   Branch.mk "TTSd1m2M2M" Routine.handleMeter6 [-5, -4, -2],
   Branch.mk "TTSd1M2M2m" Routine.handleMeter6 [-5, -3, -1],
   Branch.mk "TTSd1M2M2M" Routine.handleMeter6 [-6, -4, -2],
   Branch.mk "TTSd1m2m3m" Routine.handleMeter6 [-5, -4, -1],
   Branch.mk "TTSd1m3M2m" Routine.handleMeter6 [-6, -3, -1],
   Branch.mk "TTSd1M2m3m" Routine.handleMeter6 [-6, -4, -1],
   Branch.mk "TTSd2M2m2M" Routine.handleMeter7 [-5, -3, -2],
   Branch.mk "TTSd2m3M2M" Routine.handleMeter7 [-6, -3, -2],
   Branch.mk "TTSd2m2M2M" Routine.handleMeter7 [-5, -4, -2],
   Branch.mk "TTSd2M2M2m" Routine.handleMeter7 [-5, -3, -1],
   Branch.mk "TTSd2M2M2M" Routine.handleMeter7 [-6, -4, -2],
   Branch.mk "TTSd2m2m3m" Routine.handleMeter7 [-5, -4, -1],
   Branch.mk "TTSd2m3M2m" Routine.handleMeter7 [-6, -3, -1],
   Branch.mk "TTSd2M2m3m" Routine.handleMeter7 [-6, -4, -1],
   Branch.mk "TTSd3M2m2M" Routine.handleMeter8 [-5, -3, -2],
   Branch.mk "TTSd3m3M2M" Routine.handleMeter8 [-6, -3, -2],
   Branch.mk "TTSd3m2M2M" Routine.handleMeter8 [-5, -4, -2],
   Branch.mk "TTSd3M2M2m" Routine.handleMeter8 [-5, -3, -1],
   Branch.mk "TTSd3M2M2M" Routine.handleMeter8 [-6, -4, -2],
   Branch.mk "TTSd3m2m3m" Routine.handleMeter8 [-5, -4, -1],
   Branch.mk "TTSd3m3M2m" Routine.handleMeter8 [-6, -3, -1],
   Branch.mk "TTSd3M2m3m" Routine.handleMeter8 [-6, -4, -1],
   Branch.mk "TTITM2M2M" Routine.handleMeter3 [-2, 0, 2],
   Branch.mk "TTITM2M2m" Routine.handleMeter3 [-3, -1, 1],
   Branch.mk "TTITM2m3M" Routine.handleMeter3 [-3, -1, 2],
   Branch.mk "TTITm2M2m" Routine.handleMeter3 [-2, -1, 1],
   Branch.mk "TTITm3M2M" Routine.handleMeter3 [-3, 0, 2],
   Branch.mk "TTITm3m2m" Routine.handleMeter3 [-3, 0, 1],
   Branch.mk "TTITM2m2m" Routine.handleMeter3 [-2, 0, 1],
   Branch.mk "ITTITM2M2M" Routine.handleMeter3 [2, 0, -2],
   Branch.mk "ITTITm2M3m" Routine.handleMeter3 [2, 1, -3],
   Branch.mk "ITTITm3m2M" Routine.handleMeter3 [2, -1, -2],
   Branch.mk "ITTITm3m2m" Routine.handleMeter3 [3, 0, -1],
   Branch.mk "ITTITM2M3m" Routine.handleMeter3 [3, 1, -3],
   Branch.mk "ITTITM2m2M" Routine.handleMeter3 [1, -1, -2],
   Branch.mk "ITTITM2m2m" Routine.handleMeter3 [2, 0, -1],
   Branch.mk "ITTITM2m3m" Routine.handleMeter3 [2, 0, -3],
   Branch.mk "ITTITm2M2M" Routine.handleMeter3 [1, 0, -2],
   Branch.mk "ITTITm2m3M" Routine.handleMeter3 [2, 1, -2],
   Branch.mk "ITTITm3M2M" Routine.handleMeter3 [3, 0, -2],
   Branch.mk "ITTSM2M2m" Routine.handleMeter3 [5, 3, 1],
   Branch.mk "ITTSm2M2M" Routine.handleMeter3 [5, 4, 2],
   Branch.mk "ITTSm2m3m" Routine.handleMeter3 [5, 4, 1],
   Branch.mk "ITTSm3M2m" Routine.handleMeter3 [6, 3, 1],
   Branch.mk "ITTSm3m2M" Routine.handleMeter3 [6, 3, 2],
   Branch.mk "ITTSM2M2M" Routine.handleMeter3 [6, 4, 2],
   Branch.mk "ITTSM2m2m" Routine.handleMeter3 [4, 2, 1],
   Branch.mk "ITTSM2m3m" Routine.handleMeter3 [6, 4, 1]]

/-- The 8 names whose branch calls the base routine `handleMeter` (STT, ISTT). -/
def baseVariants : List String :=
  ["STTM2m", "STTm2M", "STTm3m", "STTM2M",
   "ISTTM2m", "ISTTm2M", "ISTTM3m", "ISTTM2M"]

/-- The 8 names whose branch calls the dotted routine `handleMeter4` (DSTT, DISTT). -/
def dottedVariants : List String :=
  ["DSTTM2m", "DSTTm2M", "DSTTm3m", "DSTTM2M",
   "DISTTM2m", "DISTTm2M", "DISTTm3m", "DISTTM2M"]

/-- The 16 names whose branch passes two ornament pitches (STT, DSTT, ISTT, DISTT). -/
def twoNoteVariants : List String :=
  ["STTM2m", "STTm2M", "STTm3m", "STTM2M", "DSTTM2m", "DSTTm2M",
   "DSTTm3m", "DSTTM2M", "ISTTM2m", "ISTTm2M", "ISTTM3m", "ISTTM2M",
   "DISTTM2m", "DISTTm2M", "DISTTm3m", "DISTTM2M"]

/-- The 58 names whose branch passes three ornament pitches
(TTS, TTSd1, TTSd2, TTSd3, TTIT, ITTIT, ITTS). -/
def threeNoteVariants : List String :=
  ["TTSM2m2M", "TTSm3M2M", "TTSm2M2M", "TTSM2M2m", "TTSM2M2M", "TTSm2m3m",
   "TTSm3M2m", "TTSM2m3m", "TTSd1M2m2M", "TTSd1m3M2M", "TTSd1m2M2M", "TTSd1M2M2m",
   "TTSd1M2M2M", "TTSd1m2m3m", "TTSd1m3M2m", "TTSd1M2m3m", "TTSd2M2m2M", "TTSd2m3M2M",
   "TTSd2m2M2M", "TTSd2M2M2m", "TTSd2M2M2M", "TTSd2m2m3m", "TTSd2m3M2m", "TTSd2M2m3m",
   "TTSd3M2m2M", "TTSd3m3M2M", "TTSd3m2M2M", "TTSd3M2M2m", "TTSd3M2M2M", "TTSd3m2m3m",
   "TTSd3m3M2m", "TTSd3M2m3m", "TTITM2M2M", "TTITM2M2m", "TTITM2m3M", "TTITm2M2m",
   "TTITm3M2M", "TTITm3m2m", "TTITM2m2m", "ITTITM2M2M", "ITTITm2M3m", "ITTITm3m2M",
   "ITTITm3m2m", "ITTITM2M3m", "ITTITM2m2M", "ITTITM2m2m", "ITTITM2m3m", "ITTITm2M2M",
   "ITTITm2m3M", "ITTITm3M2M", "ITTSM2M2m", "ITTSm2M2M", "ITTSm2m3m", "ITTSm3M2m",
   "ITTSm3m2M", "ITTSM2M2M", "ITTSM2m2m", "ITTSM2m3m"]

/-- All 74 names tested by the chain, in source order. -/
def catalogNames : List String := twoNoteVariants ++ threeNoteVariants

/-- Durations of a note sequence. -/
def durations (notes : List (Int × Int)) : List Int := notes.map Prod.snd

/-- Pitches of a note sequence. -/
def pitches (notes : List (Int × Int)) : List Int := notes.map Prod.fst


/-! ## Note names

`std::string` is `String`, a `char` being a `Char`; the functions below only look at
the last character and compare whole strings, so they do the same on every byte string. -/

/-- The table `noteNames` declared in `getNoteName` and again, identically, in
`getNoteNumber`. -/
def noteNames : List String :=
  "C" :: "C#" :: "D" :: "D#" :: "E" :: "F" :: "F#" :: "G" :: "G#" :: "A" :: "A#" :: "B" :: []

/-- Helper `getNoteName`. The result is `none` where the index `noteNumber % 12` falls outside
the table, which is undefined behaviour in C++; `std::to_string` on an `int` is the decimal
rendering `toString`. -/
def getNoteName (noteNumber : Int) : Option String :=
  let octave := noteNumber.tdiv 12 - 1
  let noteIndex := noteNumber.tmod 12
  if noteIndex < 0 then none
  else (noteNames[noteIndex.toNat]?).map (fun name => name ++ toString octave)

/-- The exceptions `getNoteNumber` can end with, one constructor per origin. -/
inductive NoteError where
  /-- The `std::out_of_range` of `std::string::substr` (position beyond the size). -/
  | substrOutOfRange
  /-- The `std::invalid_argument` of `std::stoi` (no conversion could be performed). -/
  | stoiInvalidArgument
  /-- The `std::out_of_range` of `std::stoi` (value outside the range of `int`). -/
  | stoiOutOfRange
  /-- Thrown with "Invalid note name: " followed by the note name. -/
  | invalidNoteName (noteName : String)
  deriving DecidableEq, Repr

/-- Largest `size_t`, also the value of `std::string::npos` (64-bit). -/
def SIZE_MAX : Nat := 18446744073709551615

/-- Library function `std::string::substr(pos, count)`: throws when `pos` exceeds the size,
otherwise the characters from `pos` on, at most `count` of them. -/
def substr (s : String) (pos count : Nat) : Except NoteError String :=
  if s.length < pos then .error .substrOutOfRange
  else .ok (String.mk ((s.data.drop pos).take count))

/-- The `size_t` expression `noteName.size() - 1`, which wraps to `SIZE_MAX` on the empty
string. -/
def sizeMinusOne (s : String) : Nat :=
  if s.length = 0 then SIZE_MAX else s.length - 1

/-- The ten decimal digit characters. -/
def decimalDigits : List Char := "0123456789".data

/-- Library predicate `isspace` in the C locale. -/
def isspace (c : Char) : Bool :=
  c = ' ' || c = '\t' || c = '\n' || c = '\x0b' || c = '\x0c' || c = '\r'

/-- Library function `std::stoi` in base 10: skips leading white space, reads an optional sign
and then the longest run of decimal digits, ignoring whatever follows; throws when there is
no digit or when the value does not fit an `int`. -/
def stoi (str : String) : Except NoteError Int :=
  let s := str.data.dropWhile isspace
  let negative := s.head? = some '-'
  let s := if s.head? = some '-' ∨ s.head? = some '+' then s.tail else s
  let digits := s.takeWhile Char.isDigit
  if digits = [] then .error .stoiInvalidArgument
  else
    let magnitude : Int := digits.foldl (fun acc c => acc * 10 + ((c.toNat : Int) - 48)) 0
    let value := if negative then -magnitude else magnitude
    if value < -2147483648 ∨ 2147483647 < value then .error .stoiOutOfRange
    else .ok value

/-- Helper `getNoteNumber`: the text without its last character is looked up in the table
(`std::find`, the index `noteNames.length` standing for the end iterator) and the last
character is converted by `std::stoi`. -/
def getNoteNumber (noteName : String) : Except NoteError Int := do
  let baseNote ← substr noteName 0 (sizeMinusOne noteName)
  let octaveText ← substr noteName (sizeMinusOne noteName) SIZE_MAX
  let octave ← stoi octaveText
  let it := noteNames.indexOf baseNote
  if it = noteNames.length then .error (.invalidNoteName noteName)
  else
    let noteIndex : Int := it
    .ok ((octave + 1) * 12 + noteIndex)

/-! ## The sequencing loop of `convertToMidi` -/

/-- The C++ `struct MidiEvent`. -/
structure MidiEvent where
  track : Int
  noteNumber : Int
  startTime : Int
  duration : Int
  isNoteOn : Bool
  deriving DecidableEq, Repr

/-- A line of the report that passed the skip tests of the loop and from which
`ss >> track >> noteName >> duration` extracted the three fields. -/
structure Row where
  track : Int
  noteName : String
  duration : Int
  deriving DecidableEq, Repr

/-- Lookup in a `std::map<int, V>`, kept as a list of pairs in ascending key order; `dflt` is
the value-initialised `V` that `operator[]` supplies for a missing key. -/
def mapGet {V : Type} (m : List (Int × V)) (key : Int) (dflt : V) : V :=
  match m with
  | [] => dflt
  | (k, v) :: rest => if k = key then v else mapGet rest key dflt

/-- Assignment through `operator[]` of a `std::map<int, V>`: replaces the value of an existing
key or inserts the key at its place in the order. -/
def mapSet {V : Type} (m : List (Int × V)) (key : Int) (value : V) : List (Int × V) :=
  match m with
  | [] => [(key, value)]
  | (k, v) :: rest =>
    if key < k then (key, value) :: (k, v) :: rest
    else if key = k then (key, value) :: rest
    else (k, v) :: mapSet rest key value

/-- The two maps of the loop, `trackEvents` and `trackPositions`. -/
structure SeqState where
  trackEvents : List (Int × List MidiEvent)
  trackPositions : List (Int × Int)
  deriving DecidableEq, Repr

/-- Both maps empty, as declared before the loop. -/
def SeqState.init : SeqState := ⟨[], []⟩

/-- One pass through the body of the loop for a parsed row: header rows are skipped, a row
whose name `getNoteNumber` rejects changes nothing (the exception is caught before any map is
touched), any other row appends a note-on at the position of its track and a note-off
`duration` later, and advances that position. The sums `trackPosition + duration` and
`trackPosition += duration` are sums of `int`. -/
def sequenceRow (st : SeqState) (row : Row) : SeqState :=
  if row.noteName = "Note" ∨ row.noteName = "Track" then st
  else
    match getNoteNumber row.noteName with
    | .error _ => st
    | .ok noteNumber =>
      let trackPosition := mapGet st.trackPositions row.track 0
      let noteOn : MidiEvent := ⟨row.track, noteNumber, trackPosition, row.duration, true⟩
      let noteOff : MidiEvent :=
        ⟨row.track, noteNumber, wrapInt (trackPosition + row.duration), 0, false⟩
      { trackEvents :=
          mapSet st.trackEvents row.track (mapGet st.trackEvents row.track [] ++ [noteOn, noteOff])
        trackPositions :=
          mapSet st.trackPositions row.track (wrapInt (trackPosition + row.duration)) }

/-- The whole loop over the parsed rows, in file order. -/
def sequenceRows (rows : List Row) : SeqState :=
  rows.foldl sequenceRow SeqState.init

/-! ## Variable-length quantities -/

/-- The `while (deltaTime > 0)` loop that fills `vlq`, least significant group first; bytes
are kept as numbers 0..255. -/
def vlqLoop (deltaTime : Nat) (vlq : List Nat) : List Nat :=
  if 0 < deltaTime then
    let byte := deltaTime &&& 0x7F
    let byte := if vlq ≠ [] then byte ||| 0x80 else byte
    vlqLoop (deltaTime >>> 7) (vlq ++ [byte])
  else vlq
termination_by deltaTime
decreasing_by
  rw [Nat.shiftRight_eq_div_pow]
  exact Nat.div_lt_self (by assumption) (by norm_num)

/-- Conversion of a delta time to a variable-length quantity as `convertToMidi` does it: the
single byte 0 for 0, otherwise the loop followed by `std::reverse` (for a negative delta the
loop does not run and nothing is produced). -/
def encodeVlq (deltaTime : Int) : List Nat :=
  if deltaTime = 0 then [0]
  else (vlqLoop deltaTime.toNat []).reverse

/-- Value of a byte sequence read as a variable-length quantity: seven low bits of each
byte, most significant group first. -/
def vlqValue (bytes : List Nat) : Nat :=
  bytes.foldl (fun acc b => acc * 128 + b % 128) 0

/-- What the loop takes from a row for track `T`: the pitch and the duration, when the row
belongs to `T`, is no header row and `getNoteNumber` accepts its name. -/
def acceptedNote (T : Int) (row : Row) : Option (Int × Int) :=
  if row.track = T ∧ ¬ (row.noteName = "Note" ∨ row.noteName = "Track") then
    match getNoteNumber row.noteName with
    | .ok noteNumber => some (noteNumber, row.duration)
    | .error _ => none
  else none

/-- The valid notes of track `T`, as (pitch, duration), in file order. -/
def trackNotes (T : Int) (rows : List Row) : List (Int × Int) :=
  rows.filterMap (acceptedNote T)

/-- Events that the loop appends for a run of notes of track `T` when the cursor of the track
stands at `start`; the cursor is an `int`. -/
def sequenceFrom (T : Int) (start : Int) : List (Int × Int) → List MidiEvent
  | [] => []
  | (p, d) :: rest =>
    ⟨T, p, start, d, true⟩ :: ⟨T, p, wrapInt (start + d), 0, false⟩
      :: sequenceFrom T (wrapInt (start + d)) rest

/-- The cursor of a track after a run of notes, when it stood at `start` before. -/
def cursorAfter (start : Int) : List (Int × Int) → Int
  | [] => start
  | (_, d) :: rest => cursorAfter (wrapInt (start + d)) rest

/-- Events of a run of notes played one after the other from tick `start`, the ticks taken
over the integers. -/
def emitFrom (T : Int) (start : Int) : List (Int × Int) → List MidiEvent
  | [] => []
  | (p, d) :: rest =>
    ⟨T, p, start, d, true⟩ :: ⟨T, p, start + d, 0, false⟩ :: emitFrom T (start + d) rest

/-- The event list the claim describes: the `i`-th note starts at the sum of the durations
before it and ends its own duration later. -/
def expectedEvents (T : Int) (notes : List (Int × Int)) : List MidiEvent :=
  (List.range notes.length).flatMap (fun i =>
    [⟨T, (notes.getD i (0, 0)).1, ((durations notes).take i).sum, (notes.getD i (0, 0)).2, true⟩,
     ⟨T, (notes.getD i (0, 0)).1, ((durations notes).take i).sum + (notes.getD i (0, 0)).2, 0,
       false⟩])

/-! ## The transformation step of `processFile` -/

/-- How the `try` block of `processFile` can end without having written its rows. -/
inductive TransformError where
  /-- An exception of `getNoteNumber`. -/
  | note (e : NoteError)
  /-- An exception of `applySlideVariants`. -/
  | slide (e : SlideError)
  /-- An index outside the table inside `getNoteName` (undefined behaviour in C++). -/
  | tableIndex
  deriving DecidableEq, Repr

/-- The `try` block of `processFile` for an eligible note that was selected for transformation,
the variant drawn for it being given: the name is converted by `getNoteNumber`, the slide is
applied in duple meter, and one row is written per returned note, its pitch rendered by
`getNoteName`. A row is kept as its three leading fields (track, note, duration), the fields
that `convertToMidi` reads back. -/
def transformNote (track : Int) (noteName : String) (duration : Int)
    (selectedVariant : String) : Except TransformError (List Row) :=
  match getNoteNumber noteName with
  | .error e => .error (.note e)
  | .ok noteIndex =>
    match applySlideVariants noteIndex duration TimeMeter.DUPLE selectedVariant with
    | .error e => .error (.slide e)
    | .ok transformed =>
      transformed.mapM (fun note =>
        match getNoteName note.1 with
        | some transNote => .ok (Row.mk track transNote note.2)
        | none => .error .tableIndex)

-- Decidable equality of results, for evaluating the functions on concrete inputs.
deriving instance DecidableEq for Except

/-! ## The MIDI writer of `convertToMidi`

The output file is the list of the bytes written so far, each a number 0..255; `tellp` is
its length, and a `seekp` followed by a `write` replaces bytes already there. -/

/-- The byte that `put(static_cast<char>(n))` writes for an `int`: its low eight bits. -/
def toByte (n : Int) : Nat := (n % 256).toNat

/-- The lambda given to `std::sort`: earlier start time first and, at equal start times, a
note-off before a note-on. -/
def eventLess (a b : MidiEvent) : Bool :=
  decide (a.startTime < b.startTime) ||
    (decide (a.startTime = b.startTime) && !a.isNoteOn && b.isNoteOn)

/-- Library function `std::sort` with the lambda `eventLess`: the events rearranged so that
none is less than an earlier one. `std::sort` leaves open in which order events come that
compare equivalent (same start time, same kind); here they keep their order. -/
def sortEvents (events : List MidiEvent) : List MidiEvent :=
  events.insertionSort (fun a b => eventLess b a = false)

/-- The three bytes written after the delta time of an event. -/
def noteBytes (event : MidiEvent) : List Nat :=
  if event.isNoteOn then [0x90, toByte event.noteNumber, 0x64]
  else [0x80, toByte event.noteNumber, 0x00]

/-- The loop over `sortedEvents`: for each event the delta time since `lastTime`, an `int`,
as a variable-length quantity, then the note bytes; `lastTime` becomes the start time of the
event. -/
def writeEvents (lastTime : Int) : List MidiEvent → List Nat
  | [] => []
  | event :: rest =>
    encodeVlq (wrapInt (event.startTime - lastTime)) ++ noteBytes event
      ++ writeEvents event.startTime rest

/-- A `write` of `bytes` after `seekp(pos)`, inside what is already written. -/
def overwrite (file : List Nat) (pos : Nat) (bytes : List Nat) : List Nat :=
  file.take pos ++ bytes ++ file.drop (pos + bytes.length)

/-- The array `trackLengthBytes`: four bytes of `trackLength`, most significant first. -/
def trackLengthBytes (trackLength : Nat) : List Nat :=
  [(trackLength >>> 24) &&& 0xFF, (trackLength >>> 16) &&& 0xFF, (trackLength >>> 8) &&& 0xFF,
    trackLength &&& 0xFF]

/-- One pass of the loop over `trackEvents`: sorts the events of the track, writes the tag
"MTrk", four placeholder bytes, the program change, the events and the end of track, then goes
back to put the measured length in place of the placeholder. -/
def writeTrack (file : List Nat) (events : List MidiEvent) : List Nat :=
  let sortedEvents := sortEvents events
  let file := file ++ [0x4D, 0x54, 0x72, 0x6B]
  let trackLengthPos := file.length
  let file := file ++ [0, 0, 0, 0]
  let trackStartPos := file.length
  let file := file ++ [0x00, 0xC0, 0x00]
  let file := file ++ writeEvents 0 sortedEvents
  let file := file ++ [0x00, 0xFF, 0x2F, 0x00]
  let trackEndPos := file.length
  let trackLength := trackEndPos - trackStartPos
  overwrite file trackLengthPos (trackLengthBytes trackLength)

/-- The header chunk: "MThd", length 6, format 1, `numTracks` in two bytes, division 1024. -/
def midiHeader (numTracks : Nat) : List Nat :=
  [0x4D, 0x54, 0x68, 0x64, 0, 0, 0, 6, 0, 1, (numTracks >>> 8) &&& 0xFF, numTracks &&& 0xFF,
    0x04, 0x00]

/-- The bytes `convertToMidi` writes for the parsed rows of the report: the sequencing loop,
the header, then one chunk per entry of `trackEvents` in the order of the map. -/
def convertToMidi (rows : List Row) : List Nat :=
  let trackEvents := (sequenceRows rows).trackEvents
  let numTracks := trackEvents.length
  trackEvents.foldl (fun file entry => writeTrack file entry.2) (midiHeader numTracks)

/-- The delta times the writer encodes for a list of events, starting from `lastTime`. -/
def deltaTimes (lastTime : Int) : List MidiEvent → List Int
  | [] => []
  | event :: rest => wrapInt (event.startTime - lastTime) :: deltaTimes event.startTime rest

/-- The body of a track chunk: program change, events in sorted order, end of track. -/
def trackBody (events : List MidiEvent) : List Nat :=
  [0x00, 0xC0, 0x00] ++ writeEvents 0 (sortEvents events) ++ [0x00, 0xFF, 0x2F, 0x00]

/-- A track chunk: the tag "MTrk", the length of the body in four bytes, the body. -/
def trackChunk (events : List MidiEvent) : List Nat :=
  [0x4D, 0x54, 0x72, 0x6B] ++ trackLengthBytes (trackBody events).length ++ trackBody events

/-- The tracks of the rows that the sequencing loop accepts, in file order. -/
def acceptedTracks (rows : List Row) : List Int :=
  rows.filterMap (fun row => (acceptedNote row.track row).map (fun _ => row.track))

/-! ## One line of `processFile` -/

/-- The labels that the condition of `processFile` tests, in source order. -/
def eligibleLabels : List String :=
  "SAN" :: "RLN" :: "SMP" :: "Mmd7" :: "I8" :: "U2R" :: "HT" :: "MmAug6" :: "RDN" :: "RN" ::
  "MmAug4" :: "Mmm3" :: "LAD" :: "DNW" :: "LNSN" :: "DBC" :: "DDN" :: "LNR" :: "LNSAS" ::
  "LNSAL" :: "DI" :: "SPCM" :: "SPDM" :: "SSN" :: "SVN" :: "ANS" :: "ANL" :: "FTB" :: "CDB" :: []

/-- A row of the report with its five columns. -/
structure ReportRow where
  track : Int
  note : String
  duration : Int
  label : String
  variant : String
  deriving DecidableEq, Repr

/-- What one pass of the `while` loop of `processFile` leaves behind: the rows written to the
report and the failures appended to `statusMessage` ("Error processing note ..."). -/
structure LineResult where
  written : List ReportRow
  logged : List TransformError
  deriving DecidableEq, Repr

/-- One pass of the `while` loop of `processFile` for a line whose three leading fields were
extracted. The two random draws are inputs: `shouldTransform` is the result of
`shouldTransformLabel` and `selectedVariant` the variant drawn for the note. -/
def processLine (track : Int) (noteName : String) (duration : Int) (label : String)
    (shouldTransform : Bool) (selectedVariant : String) : LineResult :=
  if label ∈ eligibleLabels then
    if shouldTransform then
      match transformNote track noteName duration selectedVariant with
      | .ok rows =>
        ⟨rows.map (fun r => ⟨r.track, r.noteName, r.duration, label, selectedVariant⟩), []⟩
      | .error e => ⟨[], [e]⟩
    else ⟨[⟨track, noteName, duration, label, "ORIGINAL"⟩], []⟩
  else ⟨[⟨track, noteName, duration, label, ""⟩], []⟩

/-! ## The pool of variants -/

/-- The C++ `struct SlideVariant`. -/
structure SlideVariant where
  name : String
  description : String
  deriving DecidableEq, Repr

/-- The vector `allVariants` of `generateRandomSlideVariantPool`, in source order. -/
def allVariants : List SlideVariant :=
  [SlideVariant.mk "STTM2m"
     "Slide note start m3 below principal note, then up a M2, and then resolve",
   SlideVariant.mk "STTm2M"
     "Slide note start m3 below principal note, then up a m2, and then resolve",
   SlideVariant.mk "STTm3m"
     "Slide note start M3 below principal note, then up a m3, and then resolve",
   SlideVariant.mk "STTM2M"
     "Slide note start M3 below principal note, then up a M2, and then resolve",
   SlideVariant.mk "DSTTM2m"
     "Slide note start dotted m3 below principal note, then up a M2, and then resolve",
   SlideVariant.mk "DSTTm2M"
     "Slide note start dotted m3 below principal note, then up a m2, and then resolve",
   SlideVariant.mk "DSTTm3m"
     "Slide note start dotted M3 below principal note, then up a m3, and then resolve",
   SlideVariant.mk "DSTTM2M"
     "Slide note start dotted M3 below principal note, then up a M2, and then resolve",
   SlideVariant.mk "ISTTM2m"
     "Slide note starts M3 above principal note, then down a M2, and then resolve",
   SlideVariant.mk "ISTTm2M"
     "Slide note starts m3 above principal note, then down a m2, and then resolve",
   SlideVariant.mk "ISTTM3m"
     "Slide note starts M3 above principal notes, then down a m3, and then resolve",
   SlideVariant.mk "ISTTM2M"
     "Slide note starts m3 above principal note, then down a M2, and then resolve",
   SlideVariant.mk "DISTTM2m"
     "Slide note starts dotted M3 above principal note, then down a M2, and then resolve",
   SlideVariant.mk "DISTTm2M"
     "Slide note starts dotted m3 above principal note, then down a m2, and then resolve",
   SlideVariant.mk "DISTTm3m"
     "Slide note starts dotted M3 above principal notes, then down a m3, and then resolve",
   SlideVariant.mk "DISTTM2M"
     "Slide note starts dotted m3 above principal note, then down a M2, and then resolve",
   SlideVariant.mk "TTSM2m2M"
     "Three tone Slide note starts P4 below principal note, then up a M2, then up a m2, and then resolve",
   SlideVariant.mk "TTSm3M2M"
     "Three tone Slide note starts A4 below principal note, then up a m3, then up a m2, and then resolve",
   SlideVariant.mk "TTSm2M2M"
     "Three tone Slide note starts P4 below principal note, then up a m2, then up a M2, and then resolve",
   SlideVariant.mk "TTSM2M2m"
     "Three tone Slide note starts P4 below principal note, then up M2, then up a M2, and then resolve",
   SlideVariant.mk "TTSM2M2M"
     "Three tone Slide note starts A4 below principal note, then up M2, then up a M2, and then resolve",
   SlideVariant.mk "TTSm2m3m"
     "Three tone Slide note starts P4 below principal note, then up a m2, then up a m3, and then resolve",
   SlideVariant.mk "TTSm3M2m"
     "Three tone Slide note starts A4 below principal note, then up a m3, then up a M2, and then resolve",
   SlideVariant.mk "TTSM2m3m"
     "Three tone Slide note starts A4 below principal note, then up M2, then up a m3, and then resolve",
   SlideVariant.mk "TTSd1M2m2M"
     "Three tone Slide note starts dotted P4 below principal note, then up a M2, then up a m2, and then resolve",
   SlideVariant.mk "TTSd1m3M2M"
     "Three tone Slide note starts dotted A4 below principal note, then up a m3, then up a m2, and then resolve",
   SlideVariant.mk "TTSd1m2M2M"
     "Three tone Slide note starts dotted P4 below principal note, then up a m2, then up a M2, and then resolve",
   SlideVariant.mk "TTSd1M2M2m"
     "Three tone Slide note starts dotted P4 below principal note, then up M2, then up a M2, and then resolve",
   SlideVariant.mk "TTSd1M2M2M"
     "Three tone Slide note starts dotted A4 below principal note, then up M2, then up a M2, and then resolve",
   SlideVariant.mk "TTSd1m2m3m"
     "Three tone Slide note starts dotted P4 below principal note, then up a m2, then up a m3, and then resolve",
   SlideVariant.mk "TTSd1m3M2m"
     "Three tone Slide note starts dotted A4 below principal note, then up a m3, then up a M2, and then resolve",
   SlideVariant.mk "TTSd1M2m3m"
     "Three tone Slide note starts dotted A4 below principal note, then up M2, then up a m3, and then resolve",
   SlideVariant.mk "TTSd2M2m2M"
     "Three tone Slide note starts P4 below principal note, then up a dotted M2, then up a m2, and then resolve",
   SlideVariant.mk "TTSd2m3M2M"
     "Three tone Slide note starts A4 below principal note, then up a dotted m3, then up a m2, and then resolve",
   SlideVariant.mk "TTSd2m2M2M"
     "Three tone Slide note starts P4 below principal note, then up a dotted m2, then up a M2, and then resolve",
   SlideVariant.mk "TTSd2M2M2m"
     "Three tone Slide note starts P4 below principal note, then up a dotted M2, then up a M2, and then resolve",
   SlideVariant.mk "TTSd2M2M2M"
     "Three tone Slide note starts A4 below principal note, then up a dotted M2, then up a M2, and then resolve",
   SlideVariant.mk "TTSd2m2m3m"
     "Three tone Slide note starts P4 below principal note, then up a dotted m2, then up a m3, and then resolve",
   SlideVariant.mk "TTSd2m3M2m"
     "Three tone Slide note starts A4 below principal note, then up a dotted m3, then up a M2, and then resolve",
   SlideVariant.mk "TTSd2M2m3m"
     "Three tone Slide note starts A4 below principal note, then up a dotted M2, then up a m3, and then resolve",
   SlideVariant.mk "TTSd3M2m2M"
     "Three tone Slide note starts P4 below principal note, then up a M2, then up a dotted m2, and then resolve",
   SlideVariant.mk "TTSd3m3M2M"
     "Three tone Slide note starts A4 below principal note, then up a m3, then up a dotted m2, and then resolve",
   SlideVariant.mk "TTSd3m2M2M"
     "Three tone Slide note starts P4 below principal note, then up a m2, then up a dotted M2, and then resolve",
   SlideVariant.mk "TTSd3M2M2m"
     "Three tone Slide note starts P4 below principal note, then up a M2, then up a dotted M2, and then resolve",
   SlideVariant.mk "TTSd3M2M2M"
     "Three tone Slide note starts A4 below principal note, then up a M2, then up a dotted M2, and then resolve",
   SlideVariant.mk "TTSd3m2m3m"
     "Three tone Slide note starts P4 below principal note, then up a m2, then up a dotted m3, and then resolve",
   SlideVariant.mk "TTSd3m3M2m"
     "Three tone Slide note starts A4 below principal note, then up a m3, then up a dotted M2, and then resolve",
   SlideVariant.mk "TTSd3M2m3m"
     "Three tone Slide note starts A4 below principal note, then up a M2, then up a dotted m3, and then resolve",
   SlideVariant.mk "TTITM2M2M"
     "Three tone Slide Inverted note starts M2 below principal note, then up a M2, then up a M2, and then resolve",
   SlideVariant.mk "TTITM2M2m"
     "Three tone Slide Inverted note starts m3 below principal note, then up a M2, then up a M2, and then resolve",
   SlideVariant.mk "TTITM2m3M"
     "Three tone Slide Inverted note start m3 below principal note, then up a M2, then up a m3, and then resolve",
   SlideVariant.mk "TTITm2M2m"
     "Three tone Slide Inverted note starts M2 below principal note, then up a m2, then up a M2, and then resolve",
   SlideVariant.mk "TTITm3M2M"
     "Three tone Slide Inverted note starts m3 below principal note, then up a m3, then up a M2, and then resolve",
   SlideVariant.mk "TTITm3m2m"
     "Three tone Slide Inverted note starts m3 below principal note, then up a m3, then up a m2, and then resolve",
   SlideVariant.mk "TTITM2m2m"
     "Three tone Slide Inverted note starts M2 below principal note, then up a M2, then up a m2, and then resolve",
   SlideVariant.mk "ITTITM2M2M"
     "Inverted Three tone Slide Inverted note starts M2 above principal note, then down a M2, then down a M2, and then resolve",
   SlideVariant.mk "ITTITm2M3m"
     "Inverted Three tone Slide Inverted note starts M2 above principal note, then down a m2, then down a M3, and then resolve",
   SlideVariant.mk "ITTITm3m2M"
     "Inverted Three tone Slide Inverted note starts M2 above principal note, then down a m3, then down a m2, and then resolve",
   SlideVariant.mk "ITTITm3m2m"
     "Inverted Three tone Slide Inverted note starts m3 above principal note, then down a m3, then down a m2, and then resolve",
   SlideVariant.mk "ITTITM2M3m"
     "Inverted Three tone Slide Inverted note starts m3 above principal note, then down a M2, then down a M3, and then resolve",
   SlideVariant.mk "ITTITM2m2M"
     "Inverted Three tone Slide Inverted note starts m2 above principal note, then down a M2, then down a m2, and then resolve",
   SlideVariant.mk "ITTITM2m2m"
     "Inverted Three tone Slide Inverted note starts M2 above principal note, then down a M2, then down a m2, and then resolve",
   SlideVariant.mk "ITTITM2m3m"
     "Inverted Three tone Slide Inverted note starts M2 above principal note, then down a M2, then down a m3, and then resolve",
   SlideVariant.mk "ITTITm2M2M"
     "Inverted Three tone Slide Inverted note starts m2 above principal note, then down a m2, then down a M2, and then resolve",
   SlideVariant.mk "ITTITm2m3M"
     "Inverted Three tone Slide Inverted note starts M2 above principal note, then down a m2, then down a m3, and then resolve",
   SlideVariant.mk "ITTITm3M2M"
     "Inverted Three tone Slide Inverted note starts m3 above principal note, then down a m3, then down a M2, and then resolve",
   SlideVariant.mk "ITTSM2M2m"
     "Inverted Three tone Above Slide note starts P4 above principal note, then down a M2, then down a M2, and then resolve",
   SlideVariant.mk "ITTSm2M2M"
     "Inverted Three tone Above Slide note starts P4 above principal note, then down a m2, then down a M2, and then resolve",
   SlideVariant.mk "ITTSm2m3m"
     "Inverted Three tone Above Slide note starts P4 above principal note, then down a m2, then down a m3, and then resolve",
   SlideVariant.mk "ITTSm3M2m"
     "Inverted Three tone Above Slide note starts A4 above principal note, then down a m3, then down a M2, and then resolve",
   SlideVariant.mk "ITTSm3m2M"
     "Inverted Three tone Above Slide note starts A4 above principal note, then down a m3, then down a m2, and then resolve",
   SlideVariant.mk "ITTSM2M2M"
     "Inverted Three tone Above Slide note starts A4 above principal note, then down a M2, then down a M2, and then resolve",
   SlideVariant.mk "ITTSM2m2m"
     "Inverted Three tone Above Slide note starts M3 above principal note, then down a M2, then down a m2, and then resolve",
   SlideVariant.mk "ITTSM2m3m"
     "Inverted Three tone Above Slide note starts A4 above principal note, then down a M2, then down a m3, and then resolve"]

/-- Function `generateRandomSlideVariantPool`. The result of `std::shuffle` on the copy of
`allVariants` is the input `shuffledVariants`; the loop copies its first
`min(poolSize, size)` entries, none when that bound is not positive. -/
def generateRandomSlideVariantPool (shuffledVariants : List SlideVariant) (poolSize : Int) :
    List SlideVariant :=
  shuffledVariants.take (min poolSize (shuffledVariants.length : Int)).toNat

/-! ## Reading a description

The descriptions name intervals: "starts X below principal note" places the first ornament,
"then up a Y" or "then down a Y" places the next one relative to the one before. -/

/-- Semitones of an interval name. -/
def intervalSemitones (word : String) : Option Int :=
  if word = "m2" then some 1
  else if word = "M2" then some 2
  else if word = "m3" then some 3
  else if word = "M3" then some 4
  else if word = "P4" then some 5
  else if word = "A4" then some 6
  else none

/-- Splits a text into its words at blanks and commas; `current` holds the characters of the
word being read, last one first. -/
def splitWords (current : List Char) : List Char → List String
  | [] => if current = [] then [] else [String.mk current.reverse]
  | c :: rest =>
    if c = ' ' ∨ c = ',' then
      if current = [] then splitWords [] rest
      else String.mk current.reverse :: splitWords [] rest
    else splitWords (c :: current) rest

/-- Reads the ornament offsets off the words of a description. `previous` is the word just
read, `current` the offset of the last ornament placed, `direction` the sign of a pending
"up" (+1) or "down" (-1) whose interval is still to come. -/
def readOffsets (previous : String) (current : Int) (direction : Option Int) :
    List String → Option (List Int)
  | [] => some []
  | word :: rest =>
    match direction with
    | some sign =>
      if word = "a" ∨ word = "dotted" then readOffsets word current (some sign) rest
      else
        match intervalSemitones word with
        | some k => (readOffsets word (current + sign * k) none rest).map
            (fun offsets => (current + sign * k) :: offsets)
        | none => none
    | none =>
      if word = "below" then
        match intervalSemitones previous with
        | some k => (readOffsets word (-k) none rest).map (fun offsets => (-k) :: offsets)
        | none => none
      else if word = "above" then
        match intervalSemitones previous with
        | some k => (readOffsets word k none rest).map (fun offsets => k :: offsets)
        | none => none
      else if word = "up" then readOffsets word current (some 1) rest
      else if word = "down" then readOffsets word current (some (-1)) rest
      else readOffsets word current none rest

/-- The ornament offsets that a description states, relative to the principal pitch. -/
def describedOffsets (description : String) : Option (List Int) :=
  readOffsets "" 0 none (splitWords [] description.data)

/-! ## Shared lemmas: the branch chain in closed form -/

/-- The meter guard of `applySlideVariants` never fires: the type has only the two meters. -/
theorem meter_guard (meter : TimeMeter) : ¬ (meter ≠ .DUPLE ∧ meter ≠ .TRIPLE) := by
  cases meter <;> simp

/-- Truncating division of a positive numerator by a positive constant is floor division. -/
theorem tdiv_eq_floor (a k : Int) (ha : 0 < a) (hk : 0 < k) : a.tdiv k = a / k :=
  Int.tdiv_eq_ediv (le_of_lt ha) (le_of_lt hk)

/-- Every row of `branchTable` describes the chain: with a positive duration the chain, given the
row's name, returns what the row computes. -/
theorem applySlideVariants_branch (pi durPi : Int) (meter : TimeMeter) (hD : 0 < durPi) :
    ∀ b ∈ branchTable, applySlideVariants pi durPi meter b.name = .ok (b.run pi durPi meter) := by
  have hD' : ¬ durPi ≤ 0 := not_le.mpr hD
  have hm := meter_guard meter
  simp only [branchTable, List.forall_mem_cons, Branch.run]
  and_intros
  all_goals first
    | (intro b hb; cases hb)
    | (simp only [applySlideVariants, if_neg hD', if_neg hm, if_false, if_true, String.reduceEq]
       congr 2 <;> omega)

/-- A name outside the 74 tested names falls through every comparison of the chain. -/
theorem applySlideVariants_unknown (pi durPi : Int) (meter : TimeMeter) (variant : String)
    (hD : 0 < durPi) (h : variant ∉ catalogNames) :
    applySlideVariants pi durPi meter variant = .error (.unknownVariant variant) := by
  simp only [catalogNames, twoNoteVariants, threeNoteVariants, List.mem_append, List.mem_cons,
    List.not_mem_nil, or_false, not_or] at h
  have hD' : ¬ durPi ≤ 0 := not_le.mpr hD
  have hm := meter_guard meter
  simp only [applySlideVariants, if_neg hD', if_neg hm, h, if_false]

/-- The names of the table are the tested names, in the same order. -/
theorem catalogNames_eq_table : catalogNames = branchTable.map Branch.name := by decide

/-- The two-ornament names are the base names and the dotted names. -/
theorem mem_twoNoteVariants (v : String) :
    v ∈ twoNoteVariants ↔ v ∈ baseVariants ∨ v ∈ dottedVariants := by
  simp only [twoNoteVariants, baseVariants, dottedVariants, List.mem_cons, List.not_mem_nil,
    or_false]
  tauto

/-- Membership in the catalog splits by the number of ornaments. -/
theorem mem_catalogNames (v : String) :
    v ∈ catalogNames ↔ v ∈ twoNoteVariants ∨ v ∈ threeNoteVariants := by
  simp only [catalogNames, List.mem_append]

/-- Rows of the base names. -/
theorem base_rows : ∀ v ∈ baseVariants, ∃ b ∈ branchTable,
    b.name = v ∧ b.routine = Routine.handleMeter ∧ b.offsets.length = 2 := by
  decide

/-- Rows of the dotted names. -/
theorem dotted_rows : ∀ v ∈ dottedVariants, ∃ b ∈ branchTable,
    b.name = v ∧ b.routine = Routine.handleMeter4 ∧ b.offsets.length = 2 := by
  decide

/-- Shape of a base branch: `handleMeter` on the empty vector with two fixed offsets. -/
theorem base_shape (v : String) (hv : v ∈ baseVariants) :
    ∃ o1 o2 : Int, ∀ (pi durPi : Int) (meter : TimeMeter), 0 < durPi →
      applySlideVariants pi durPi meter v
        = .ok (handleMeter [] (pi + o1) (pi + o2) pi durPi meter) := by
  obtain ⟨b, hb, rfl, hr, hl⟩ := base_rows v hv
  obtain ⟨name, routine, offsets⟩ := b
  simp only at hr hl
  subst hr
  obtain ⟨o1, o2, rfl⟩ := List.length_eq_two.mp hl
  exact ⟨o1, o2, fun pi durPi meter hD => applySlideVariants_branch pi durPi meter hD _ hb⟩

/-- Shape of a dotted branch: `handleMeter4` on the empty vector with two fixed offsets. -/
theorem dotted_shape (v : String) (hv : v ∈ dottedVariants) :
    ∃ o1 o2 : Int, ∀ (pi durPi : Int) (meter : TimeMeter), 0 < durPi →
      applySlideVariants pi durPi meter v
        = .ok (handleMeter4 [] (pi + o1) (pi + o2) pi durPi meter) := by
  obtain ⟨b, hb, rfl, hr, hl⟩ := dotted_rows v hv
  obtain ⟨name, routine, offsets⟩ := b
  simp only at hr hl
  subst hr
  obtain ⟨o1, o2, rfl⟩ := List.length_eq_two.mp hl
  exact ⟨o1, o2, fun pi durPi meter hD => applySlideVariants_branch pi durPi meter hD _ hb⟩

set_option maxRecDepth 100000 in
/-- Every row pairs two offsets with a three-part routine or three offsets with a four-part
routine. -/
theorem branch_rows_wf : ∀ b ∈ branchTable,
    (b.offsets.length = 2 ∧
      (b.routine = Routine.handleMeter ∨ b.routine = Routine.handleMeter4)) ∨
    (b.offsets.length = 3 ∧
      b.routine ≠ Routine.handleMeter ∧ b.routine ≠ Routine.handleMeter4) := by
  decide

/-- Every tested name has a row. -/
theorem catalog_row (v : String) (hv : v ∈ catalogNames) : ∃ b ∈ branchTable, b.name = v := by
  rw [catalogNames_eq_table, List.mem_map] at hv
  exact hv

/-- Every name with a row is a tested name. -/
theorem row_mem_catalog (b : Branch) (hb : b ∈ branchTable) : b.name ∈ catalogNames := by
  rw [catalogNames_eq_table]
  exact List.mem_map_of_mem _ hb

/-- Rows of the two-ornament names carry two offsets. -/
theorem two_note_row : ∀ v ∈ twoNoteVariants, ∃ b ∈ branchTable,
    b.name = v ∧ b.offsets.length = 2 := by
  decide

set_option maxRecDepth 100000 in
/-- Rows of the three-ornament names carry three offsets. -/
theorem three_note_row : ∀ v ∈ threeNoteVariants, ∃ b ∈ branchTable,
    b.name = v ∧ b.offsets.length = 3 := by
  decide

/-- The product `durPi * 3` of a positive duration is an `int` when it does not exceed
`INT_MAX`: the reduction to 32 bits leaves it as it is. -/
theorem wrapInt_mul3 (durPi : Int) (hD : 0 < durPi) (hfit : durPi * 3 ≤ INT_MAX) :
    wrapInt (durPi * 3) = durPi * 3 := by
  simp only [INT_MAX] at hfit
  unfold wrapInt
  omega

/-- The rows that call the dotted routine are the rows of the dotted names. -/
theorem dotted_routine_rows : ∀ b ∈ branchTable,
    b.routine = Routine.handleMeter4 → b.name ∈ dottedVariants := by
  decide

/-- Normal form of a successful call: for a row of the table and a positive duration, the result
pairs the pitches `pi + offset` (in order) and then `pi` with a list of durations that does not
depend on `pi`. The durations of the rows with three offsets sum to `durPi`. When the product
`durPi * 3`, which only the dotted routine forms and only in duple meter, is an `int`, the
durations are non-negative, positive from `durPi = 12` on, and sum to at least `durPi - 3` and
at most `durPi`. -/
theorem run_form (b : Branch) (hb : b ∈ branchTable) (durPi : Int) (meter : TimeMeter)
    (hD : 0 < durPi) :
    ∃ ds : List Int, ds.length = b.offsets.length + 1 ∧
      ((b.routine = Routine.handleMeter4 → meter = TimeMeter.DUPLE → durPi * 3 ≤ INT_MAX) →
        (∀ d ∈ ds, 0 ≤ d) ∧ (12 ≤ durPi → ∀ d ∈ ds, 0 < d) ∧ durPi - 3 ≤ ds.sum ∧
          ds.sum ≤ durPi) ∧
      (b.offsets.length = 3 → ds.sum = durPi) ∧
      ∀ pi : Int, ∃ notes : List (Int × Int),
        applySlideVariants pi durPi meter b.name = .ok notes ∧
        notes = List.zip (b.offsets.map (fun o => pi + o) ++ [pi]) ds ∧
        pitches notes = b.offsets.map (fun o => pi + o) ++ [pi] ∧
        durations notes = ds ∧
        notes.length = b.offsets.length + 1 := by
  have e2 := tdiv_eq_floor durPi 2 hD (by norm_num)
  have e3 := tdiv_eq_floor durPi 3 hD (by norm_num)
  have e4 := tdiv_eq_floor durPi 4 hD (by norm_num)
  have e6 := tdiv_eq_floor durPi 6 hD (by norm_num)
  have e8 := tdiv_eq_floor durPi 8 hD (by norm_num)
  have e12 := tdiv_eq_floor durPi 12 hD (by norm_num)
  have e38 := tdiv_eq_floor (durPi * 3) 8 (by omega) (by norm_num)
  have hrun := fun pi => applySlideVariants_branch pi durPi meter hD b hb
  have hwf := branch_rows_wf b hb
  obtain ⟨name, routine, offsets⟩ := b
  simp only at hwf hrun ⊢
  refine ⟨durations (Branch.run ⟨name, routine, offsets⟩ 0 durPi meter), ?_⟩
  simp only [hrun]
  rcases hwf with ⟨hl, hr⟩ | ⟨hl, hr, hr4⟩
  · obtain ⟨o1, o2, rfl⟩ := List.length_eq_two.mp hl
    rcases hr with rfl | rfl
    · cases meter <;>
        simp [Branch.run, handleMeter, durations, pitches, e3, e4] <;> omega
    · cases meter
      · by_cases hfit : durPi * 3 ≤ INT_MAX
        · have hw := wrapInt_mul3 durPi hD hfit
          simp [Branch.run, handleMeter4, durations, pitches, hfit, hw, e2, e8, e38]
          omega
        · simp [Branch.run, handleMeter4, durations, pitches, hfit]
      · simp [Branch.run, handleMeter4, durations, pitches, e2, e3, e6]
        omega
  · obtain ⟨o1, o2, o3, rfl⟩ := List.length_eq_three.mp hl
    cases routine <;> first
      | exact absurd rfl hr
      | exact absurd rfl hr4
      | (cases meter <;>
          simp [Branch.run, handleMeter3, handleMeter6, handleMeter7, handleMeter8, durations,
            pitches, e4, e6, e8, e12] <;> omega)

/-! ## Duration conservation -/

/-- C1: for a positive duration and either meter, the four durations produced by each of
`handleMeter3`, `handleMeter6`, `handleMeter7`, `handleMeter8` sum to `durPi`, and for every
three-ornament variant name `applySlideVariants` returns four notes whose durations sum to
`durPi`. -/
theorem three_note_durations_sum (pi durPi : Int) (meter : TimeMeter) (hD : 0 < durPi) :
    (∀ pre1 pre2 pre3 : Int,
      (durations (handleMeter3 [] pre1 pre2 pre3 pi durPi meter)).sum = durPi ∧
      (durations (handleMeter6 [] pre1 pre2 pre3 pi durPi meter)).sum = durPi ∧
      (durations (handleMeter7 [] pre1 pre2 pre3 pi durPi meter)).sum = durPi ∧
      (durations (handleMeter8 [] pre1 pre2 pre3 pi durPi meter)).sum = durPi) ∧
    ∀ v ∈ threeNoteVariants, ∃ notes : List (Int × Int),
      applySlideVariants pi durPi meter v = .ok notes ∧ notes.length = 4 ∧
      (durations notes).sum = durPi := by
  constructor
  · intro pre1 pre2 pre3
    have e4 := tdiv_eq_floor durPi 4 hD (by norm_num)
    have e6 := tdiv_eq_floor durPi 6 hD (by norm_num)
    have e8 := tdiv_eq_floor durPi 8 hD (by norm_num)
    have e12 := tdiv_eq_floor durPi 12 hD (by norm_num)
    cases meter <;>
      simp [handleMeter3, handleMeter6, handleMeter7, handleMeter8, durations, e4, e6, e8, e12] <;>
      omega
  · intro v hv
    obtain ⟨b, hb, rfl, hl⟩ := three_note_row v hv
    obtain ⟨ds, -, -, hsum, hok⟩ := run_form b hb durPi meter hD
    obtain ⟨notes, hn, -, -, hd, hlen⟩ := hok pi
    exact ⟨notes, hn, by omega, by rw [hd]; exact hsum hl⟩

/-- Witness for C1 at pitch 60, duration 480, triple meter. -/
theorem three_note_durations_sum_witness :
    (0 : Int) < 480 ∧
    ((∀ pre1 pre2 pre3 : Int,
      (durations (handleMeter3 [] pre1 pre2 pre3 60 480 TimeMeter.TRIPLE)).sum = 480 ∧
      (durations (handleMeter6 [] pre1 pre2 pre3 60 480 TimeMeter.TRIPLE)).sum = 480 ∧
      (durations (handleMeter7 [] pre1 pre2 pre3 60 480 TimeMeter.TRIPLE)).sum = 480 ∧
      (durations (handleMeter8 [] pre1 pre2 pre3 60 480 TimeMeter.TRIPLE)).sum = 480) ∧
    ∀ v ∈ threeNoteVariants, ∃ notes : List (Int × Int),
      applySlideVariants 60 480 TimeMeter.TRIPLE v = .ok notes ∧ notes.length = 4 ∧
      (durations notes).sum = 480) :=
  ⟨by decide, three_note_durations_sum 60 480 TimeMeter.TRIPLE (by decide)⟩

/-- C2 fails as stated: with duration 1 the dotted routines return three zero durations, whose
sum is 0, in both meters and also through `applySlideVariants` (variant DSTTM2m); and
`handleMeter5` in duple meter returns 2, 3, 4 for duration 8, whose sum is 9. -/
theorem dotted_sum_counterexample :
    applySlideVariants 60 1 TimeMeter.DUPLE "DSTTM2m" = .ok [(57, 0), (59, 0), (60, 0)] ∧
    (durations [((57 : Int), (0 : Int)), (59, 0), (60, 0)]).sum ≠ 1 ∧
    (durations (handleMeter4 [] 57 59 60 1 TimeMeter.DUPLE)).sum ≠ 1 ∧
    (durations (handleMeter4 [] 57 59 60 1 TimeMeter.TRIPLE)).sum ≠ 1 ∧
    (durations (handleMeter5 [] 57 59 60 1 TimeMeter.DUPLE)).sum ≠ 1 ∧
    (durations (handleMeter5 [] 57 59 60 1 TimeMeter.TRIPLE)).sum ≠ 1 ∧
    handleMeter5 [] 57 59 60 8 TimeMeter.DUPLE = [(59, 2), (57, 3), (60, 4)] := by
  refine ⟨rfl, ?_, ?_, ?_, ?_, ?_, rfl⟩ <;> decide

/-- C2 as amended: for a positive duration whose triple is an `int` (at most 715827882 ticks)
the three durations of `handleMeter4` (both meters) and of `handleMeter5` in triple meter are
independent truncating divisions; their sum lies between `durPi - 2` and `durPi`, and it
equals `durPi` exactly when `durPi` is a multiple of 8 (duple) or of 6 (triple). Every dotted
variant name returns the three notes of `handleMeter4`, so the same holds for
`applySlideVariants`. -/
theorem dotted_sum_bounds (pi durPi : Int) (meter : TimeMeter) (hD : 0 < durPi)
    (hfit : durPi * 3 ≤ INT_MAX) :
    (∀ pre1 pre2 : Int,
      durPi - 2 ≤ (durations (handleMeter4 [] pre1 pre2 pi durPi meter)).sum ∧
      (durations (handleMeter4 [] pre1 pre2 pi durPi meter)).sum ≤ durPi ∧
      durPi - 2 ≤ (durations (handleMeter5 [] pre1 pre2 pi durPi TimeMeter.TRIPLE)).sum ∧
      (durations (handleMeter5 [] pre1 pre2 pi durPi TimeMeter.TRIPLE)).sum ≤ durPi) ∧
    (∀ pre1 pre2 : Int,
      ((durations (handleMeter4 [] pre1 pre2 pi durPi TimeMeter.DUPLE)).sum = durPi
        ↔ durPi % 8 = 0) ∧
      ((durations (handleMeter4 [] pre1 pre2 pi durPi TimeMeter.TRIPLE)).sum = durPi
        ↔ durPi % 6 = 0) ∧
      ((durations (handleMeter5 [] pre1 pre2 pi durPi TimeMeter.TRIPLE)).sum = durPi
        ↔ durPi % 6 = 0)) ∧
    ∀ v ∈ dottedVariants, ∃ (notes : List (Int × Int)) (pre1 pre2 : Int),
      applySlideVariants pi durPi meter v = .ok notes ∧
      notes = handleMeter4 [] pre1 pre2 pi durPi meter ∧ notes.length = 3 ∧
      durPi - 2 ≤ (durations notes).sum ∧ (durations notes).sum ≤ durPi ∧
      ((if meter = TimeMeter.DUPLE then durPi % 8 else durPi % 6) = 0
        ↔ (durations notes).sum = durPi) := by
  have e2 := tdiv_eq_floor durPi 2 hD (by norm_num)
  have e3 := tdiv_eq_floor durPi 3 hD (by norm_num)
  have e6 := tdiv_eq_floor durPi 6 hD (by norm_num)
  have e8 := tdiv_eq_floor durPi 8 hD (by norm_num)
  have e38 := tdiv_eq_floor (durPi * 3) 8 (by omega) (by norm_num)
  have hw := wrapInt_mul3 durPi hD hfit
  refine ⟨fun pre1 pre2 => ?_, fun pre1 pre2 => ?_, fun v hv => ?_⟩
  · cases meter <;>
      simp [handleMeter4, handleMeter5, durations, hw, e2, e3, e6, e8, e38] <;> omega
  · simp [handleMeter4, handleMeter5, durations, hw, e2, e3, e6, e8, e38]
    omega
  · obtain ⟨o1, o2, h⟩ := dotted_shape v hv
    refine ⟨_, pi + o1, pi + o2, h pi durPi meter hD, rfl, ?_⟩
    cases meter <;> simp [handleMeter4, durations, hw, e2, e3, e6, e8, e38] <;> omega

/-- Witness for the amended C2 at pitch 60, duration 100, duple meter. -/
theorem dotted_sum_bounds_witness :
    (0 : Int) < 100 ∧ (100 : Int) * 3 ≤ INT_MAX ∧
    ∀ v ∈ dottedVariants, ∃ (notes : List (Int × Int)) (pre1 pre2 : Int),
      applySlideVariants 60 100 TimeMeter.DUPLE v = .ok notes ∧
      notes = handleMeter4 [] pre1 pre2 60 100 TimeMeter.DUPLE ∧ notes.length = 3 ∧
      100 - 2 ≤ (durations notes).sum ∧ (durations notes).sum ≤ 100 ∧
      ((if TimeMeter.DUPLE = TimeMeter.DUPLE then (100 : Int) % 8 else 100 % 6) = 0
        ↔ (durations notes).sum = 100) :=
  ⟨by decide, by decide,
    (dotted_sum_bounds 60 100 TimeMeter.DUPLE (by decide) (by decide)).2.2⟩

/-! ## The base routine -/

/-- C3 fails as stated: in duple meter with duration 6 the base variant STTM2m returns the
durations 1, 1, 2; the third is twice the first segment, not the floor of 6 / 2, which is 3. -/
theorem base_durations_counterexample :
    applySlideVariants 60 6 TimeMeter.DUPLE "STTM2m" = .ok [(57, 1), (59, 1), (60, 2)] ∧
    durations [((57 : Int), (1 : Int)), (59, 1), (60, 2)] ≠ [(6 : Int) / 4, 6 / 4, 6 / 2] := by
  refine ⟨rfl, ?_⟩
  decide

/-- C3 as amended: for a positive duration the base routine `handleMeter`, and with it every
base variant name (STT, ISTT), returns in duple meter the durations
`[durPi / 4, durPi / 4, 2 * (durPi / 4)]` (one floor division, the third part being twice the
segment, which is the floor of `durPi / 2` exactly when `durPi % 4 < 2`) and in triple meter
`[durPi / 3, durPi / 3, durPi / 3]`. -/
theorem base_durations (pi durPi : Int) (hD : 0 < durPi) :
    (∀ pre1 pre2 : Int,
      durations (handleMeter [] pre1 pre2 pi durPi TimeMeter.DUPLE)
        = [durPi / 4, durPi / 4, 2 * (durPi / 4)] ∧
      durations (handleMeter [] pre1 pre2 pi durPi TimeMeter.TRIPLE)
        = [durPi / 3, durPi / 3, durPi / 3]) ∧
    (2 * (durPi / 4) = durPi / 2 ↔ durPi % 4 < 2) ∧
    ∀ v ∈ baseVariants,
      (∃ notes : List (Int × Int),
        applySlideVariants pi durPi TimeMeter.DUPLE v = .ok notes ∧
        durations notes = [durPi / 4, durPi / 4, 2 * (durPi / 4)]) ∧
      (∃ notes : List (Int × Int),
        applySlideVariants pi durPi TimeMeter.TRIPLE v = .ok notes ∧
        durations notes = [durPi / 3, durPi / 3, durPi / 3]) := by
  have e3 := tdiv_eq_floor durPi 3 hD (by norm_num)
  have e4 := tdiv_eq_floor durPi 4 hD (by norm_num)
  have hrt : ∀ pre1 pre2 : Int,
      durations (handleMeter [] pre1 pre2 pi durPi TimeMeter.DUPLE)
        = [durPi / 4, durPi / 4, 2 * (durPi / 4)] ∧
      durations (handleMeter [] pre1 pre2 pi durPi TimeMeter.TRIPLE)
        = [durPi / 3, durPi / 3, durPi / 3] := by
    intro pre1 pre2
    simp [handleMeter, durations, e3, e4]
    omega
  refine ⟨hrt, by omega, fun v hv => ?_⟩
  obtain ⟨o1, o2, h⟩ := base_shape v hv
  exact ⟨⟨_, h pi durPi TimeMeter.DUPLE hD, (hrt _ _).1⟩,
    ⟨_, h pi durPi TimeMeter.TRIPLE hD, (hrt _ _).2⟩⟩

/-- Witness for the amended C3 at pitch 60 and duration 6. -/
theorem base_durations_witness :
    (0 : Int) < 6 ∧
    ∀ v ∈ baseVariants,
      (∃ notes : List (Int × Int),
        applySlideVariants 60 6 TimeMeter.DUPLE v = .ok notes ∧
        durations notes = [(6 : Int) / 4, 6 / 4, 2 * (6 / 4)]) ∧
      (∃ notes : List (Int × Int),
        applySlideVariants 60 6 TimeMeter.TRIPLE v = .ok notes ∧
        durations notes = [(6 : Int) / 3, 6 / 3, 6 / 3]) :=
  ⟨by decide, (base_durations 60 6 (by decide)).2.2⟩

/-! ## Shape of the result -/

/-- C4: for a positive duration, either meter and any principal pitch, `applySlideVariants`
returns exactly 3 notes for each of the 16 two-ornament names and exactly 4 notes for each of
the 58 three-ornament names; in terms of the table of branches, the length is the number of
ornament offsets plus one. The two lists together are the 74 tested names. -/
theorem result_length (pi durPi : Int) (meter : TimeMeter) (hD : 0 < durPi) :
    (∀ v ∈ twoNoteVariants, ∃ notes : List (Int × Int),
      applySlideVariants pi durPi meter v = .ok notes ∧ notes.length = 3) ∧
    (∀ v ∈ threeNoteVariants, ∃ notes : List (Int × Int),
      applySlideVariants pi durPi meter v = .ok notes ∧ notes.length = 4) ∧
    (∀ b ∈ branchTable, ∃ notes : List (Int × Int),
      applySlideVariants pi durPi meter b.name = .ok notes ∧
      notes.length = b.offsets.length + 1) ∧
    twoNoteVariants.length = 16 ∧ threeNoteVariants.length = 58 ∧
    catalogNames.length = 74 ∧ catalogNames = twoNoteVariants ++ threeNoteVariants ∧
    catalogNames = branchTable.map Branch.name := by
  have key : ∀ b ∈ branchTable, ∃ notes : List (Int × Int),
      applySlideVariants pi durPi meter b.name = .ok notes ∧
      notes.length = b.offsets.length + 1 := by
    intro b hb
    obtain ⟨ds, -, -, -, hok⟩ := run_form b hb durPi meter hD
    obtain ⟨notes, hn, -, -, -, hlen⟩ := hok pi
    exact ⟨notes, hn, hlen⟩
  refine ⟨fun v hv => ?_, fun v hv => ?_, key, by decide, by decide, by decide, rfl,
    catalogNames_eq_table⟩
  · obtain ⟨b, hb, rfl, hl⟩ := two_note_row v hv
    obtain ⟨notes, hn, hlen⟩ := key b hb
    exact ⟨notes, hn, by omega⟩
  · obtain ⟨b, hb, rfl, hl⟩ := three_note_row v hv
    obtain ⟨notes, hn, hlen⟩ := key b hb
    exact ⟨notes, hn, by omega⟩

/-- Witness for C4 at pitch 60, duration 480, duple meter. -/
theorem result_length_witness :
    (0 : Int) < 480 ∧
    (∀ v ∈ twoNoteVariants, ∃ notes : List (Int × Int),
      applySlideVariants 60 480 TimeMeter.DUPLE v = .ok notes ∧ notes.length = 3) ∧
    (∀ v ∈ threeNoteVariants, ∃ notes : List (Int × Int),
      applySlideVariants 60 480 TimeMeter.DUPLE v = .ok notes ∧ notes.length = 4) :=
  ⟨by decide, (result_length 60 480 TimeMeter.DUPLE (by decide)).1,
    (result_length 60 480 TimeMeter.DUPLE (by decide)).2.1⟩

/-- C5: for a positive duration, either meter and every tested name, the last note returned by
`applySlideVariants` carries the principal pitch `pi`. -/
theorem principal_note_last (pi durPi : Int) (meter : TimeMeter) (hD : 0 < durPi) :
    ∀ v ∈ catalogNames, ∃ notes : List (Int × Int),
      applySlideVariants pi durPi meter v = .ok notes ∧
      notes.getLast?.map Prod.fst = some pi := by
  intro v hv
  obtain ⟨b, hb, rfl⟩ := catalog_row v hv
  obtain ⟨ds, -, -, -, hok⟩ := run_form b hb durPi meter hD
  obtain ⟨notes, hn, -, hp, -, -⟩ := hok pi
  refine ⟨notes, hn, ?_⟩
  have h := congrArg List.getLast? hp
  rw [List.getLast?_concat] at h
  rw [← h, pitches, List.getLast?_map]

/-- Witness for C5 at pitch 60, duration 480, triple meter. -/
theorem principal_note_last_witness :
    (0 : Int) < 480 ∧
    ∀ v ∈ catalogNames, ∃ notes : List (Int × Int),
      applySlideVariants 60 480 TimeMeter.TRIPLE v = .ok notes ∧
      notes.getLast?.map Prod.fst = some 60 :=
  ⟨by decide, principal_note_last 60 480 TimeMeter.TRIPLE (by decide)⟩

/-! ## Pitches -/

/-- Moves every pitch of a note sequence by `k` semitones and keeps the durations. -/
theorem transpose_zip (k : Int) (ps ds : List Int) :
    List.zip (ps.map (fun p => p + k)) ds
      = (List.zip ps ds).map (fun n => (n.1 + k, n.2)) := by
  induction ps generalizing ds with
  | nil => simp
  | cons p ps ih =>
    cases ds with
    | nil => simp
    | cons d ds => simp [ih]

/-- C6: over the integers, for every tested name, either meter and a positive duration, moving
the principal pitch by `k` moves every returned pitch by `k` and changes no duration; the
returned pitches are the principal pitch plus the fixed offsets of the branch, in order,
followed by the principal pitch itself. -/
theorem pitch_translation (pi k durPi : Int) (meter : TimeMeter) (hD : 0 < durPi) :
    (∀ v ∈ catalogNames, ∃ notes : List (Int × Int),
      applySlideVariants pi durPi meter v = .ok notes ∧
      applySlideVariants (pi + k) durPi meter v
        = .ok (notes.map (fun n => (n.1 + k, n.2)))) ∧
    (∀ b ∈ branchTable, ∃ notes : List (Int × Int),
      applySlideVariants pi durPi meter b.name = .ok notes ∧
      pitches notes = b.offsets.map (fun o => pi + o) ++ [pi]) := by
  constructor
  · intro v hv
    obtain ⟨b, hb, rfl⟩ := catalog_row v hv
    obtain ⟨ds, -, -, -, hok⟩ := run_form b hb durPi meter hD
    obtain ⟨n1, h1, z1, -, -, -⟩ := hok pi
    obtain ⟨n2, h2, z2, -, -, -⟩ := hok (pi + k)
    refine ⟨n1, h1, ?_⟩
    rw [h2, z2, z1, ← transpose_zip]
    congr 2
    simp [add_right_comm]
  · intro b hb
    obtain ⟨ds, -, -, -, hok⟩ := run_form b hb durPi meter hD
    obtain ⟨notes, hn, -, hp, -, -⟩ := hok pi
    exact ⟨notes, hn, hp⟩

/-- Witness for C6 at pitch 60 moved by 7, duration 480, duple meter. -/
theorem pitch_translation_witness :
    (0 : Int) < 480 ∧
    ∀ v ∈ catalogNames, ∃ notes : List (Int × Int),
      applySlideVariants 60 480 TimeMeter.DUPLE v = .ok notes ∧
      applySlideVariants (60 + 7) 480 TimeMeter.DUPLE v
        = .ok (notes.map (fun n => (n.1 + 7, n.2))) :=
  ⟨by decide, (pitch_translation 60 7 480 TimeMeter.DUPLE (by decide)).1⟩

/-! ## Errors -/

/-- C7: for a duration that is zero or negative, `applySlideVariants` throws the
invalid-duration error whatever the pitch, the meter and the variant string are, tested names
and other strings alike: the duration guard is the first statement of the function. -/
theorem nonpositive_duration_rejected (pi durPi : Int) (meter : TimeMeter) (variant : String)
    (hD : durPi ≤ 0) :
    applySlideVariants pi durPi meter variant = .error SlideError.invalidDuration ∧
    ∀ notes : List (Int × Int), applySlideVariants pi durPi meter variant ≠ .ok notes := by
  have h : applySlideVariants pi durPi meter variant = .error SlideError.invalidDuration := by
    unfold applySlideVariants
    rw [if_pos hD]
  refine ⟨h, fun notes hn => ?_⟩
  rw [h] at hn
  cases hn

/-- Witness for C7 at duration 0 with a string that is no tested name. -/
theorem nonpositive_duration_rejected_witness :
    (0 : Int) ≤ 0 ∧
    applySlideVariants 60 0 TimeMeter.DUPLE "no such variant"
      = .error SlideError.invalidDuration ∧
    ∀ notes : List (Int × Int),
      applySlideVariants 60 0 TimeMeter.DUPLE "no such variant" ≠ .ok notes :=
  ⟨by decide, nonpositive_duration_rejected 60 0 TimeMeter.DUPLE "no such variant" (by decide)⟩

/-- C8: for a positive duration and either meter, `applySlideVariants` throws the
unknown-variant error exactly when the variant string is none of the 74 tested names (string
equality, hence case-sensitive); it throws no other error, and for each of the 74 names it
returns notes. -/
theorem unknown_variant_iff (pi durPi : Int) (meter : TimeMeter) (variant : String)
    (hD : 0 < durPi) :
    (applySlideVariants pi durPi meter variant = .error (SlideError.unknownVariant variant)
      ↔ variant ∉ catalogNames) ∧
    ((∃ e, applySlideVariants pi durPi meter variant = .error e) ↔ variant ∉ catalogNames) ∧
    ((∃ notes, applySlideVariants pi durPi meter variant = .ok notes)
      ↔ variant ∈ catalogNames) ∧
    catalogNames.length = 74 ∧ catalogNames.Nodup := by
  have hin : variant ∈ catalogNames →
      ∃ notes, applySlideVariants pi durPi meter variant = .ok notes := by
    intro hv
    obtain ⟨b, hb, rfl⟩ := catalog_row variant hv
    obtain ⟨ds, -, -, -, hok⟩ := run_form b hb durPi meter hD
    obtain ⟨notes, hn, -⟩ := hok pi
    exact ⟨notes, hn⟩
  have hout := applySlideVariants_unknown pi durPi meter variant hD
  refine ⟨⟨fun h hv => ?_, hout⟩, ⟨fun h hv => ?_, fun hv => ⟨_, hout hv⟩⟩,
    ⟨fun h => ?_, hin⟩, by decide, by decide⟩
  · obtain ⟨notes, hn⟩ := hin hv
    rw [hn] at h
    cases h
  · obtain ⟨notes, hn⟩ := hin hv
    obtain ⟨e, he⟩ := h
    rw [hn] at he
    cases he
  · by_contra hv
    obtain ⟨notes, hn⟩ := h
    rw [hout hv] at hn
    cases hn

/-- Witness for C8 with the lower-case spelling of a tested name. -/
theorem unknown_variant_iff_witness :
    (0 : Int) < 480 ∧
    (applySlideVariants 60 480 TimeMeter.DUPLE "sttm2m"
        = .error (SlideError.unknownVariant "sttm2m")
      ↔ "sttm2m" ∉ catalogNames) ∧
    ((∃ e, applySlideVariants 60 480 TimeMeter.DUPLE "sttm2m" = .error e)
      ↔ "sttm2m" ∉ catalogNames) ∧
    ((∃ notes, applySlideVariants 60 480 TimeMeter.DUPLE "sttm2m" = .ok notes)
      ↔ "sttm2m" ∈ catalogNames) ∧
    catalogNames.length = 74 ∧ catalogNames.Nodup :=
  ⟨by decide, unknown_variant_iff 60 480 TimeMeter.DUPLE "sttm2m" (by decide)⟩

/-! ## Sign of the durations -/

/-- C9 fails as stated: with duration 1 the variant STTM2m returns three notes of duration 0
in duple meter, and with duration 11 the variant TTSd3M2m2M returns three ornaments of
duration 0 in triple meter (the segment is 11 / 12 = 0). -/
theorem positive_durations_counterexample :
    applySlideVariants 60 1 TimeMeter.DUPLE "STTM2m" = .ok [(57, 0), (59, 0), (60, 0)] ∧
    ¬ (∀ d ∈ durations [((57 : Int), (0 : Int)), (59, 0), (60, 0)], 0 < d) ∧
    applySlideVariants 60 11 TimeMeter.TRIPLE "TTSd3M2m2M"
      = .ok [(55, 0), (57, 0), (58, 0), (60, 11)] := by
  refine ⟨rfl, ?_, rfl⟩
  decide

/-- C9 as amended: for every tested name, either meter and every duration of at least 12,
every duration returned by `applySlideVariants` is strictly positive; for a dotted name in
duple meter this is stated for the durations whose triple is an `int` (at most 715827882
ticks). -/
theorem durations_positive_from_12 (pi durPi : Int) (meter : TimeMeter) (hD : 12 ≤ durPi) :
    ∀ v ∈ catalogNames,
      (v ∈ dottedVariants → meter = TimeMeter.DUPLE → durPi * 3 ≤ INT_MAX) →
      ∃ notes : List (Int × Int),
        applySlideVariants pi durPi meter v = .ok notes ∧ ∀ d ∈ durations notes, 0 < d := by
  intro v hv hfit
  obtain ⟨b, hb, rfl⟩ := catalog_row v hv
  obtain ⟨ds, -, hdur, -, hok⟩ := run_form b hb durPi meter (by omega)
  obtain ⟨notes, hn, -, -, hd, -⟩ := hok pi
  have hpos := (hdur (fun hr => hfit (dotted_routine_rows b hb hr))).2.1
  exact ⟨notes, hn, by rw [hd]; exact hpos hD⟩

/-- Witness for the amended C9 at pitch 60, duration 12, duple meter. -/
theorem durations_positive_from_12_witness :
    (12 : Int) ≤ 12 ∧ (12 : Int) * 3 ≤ INT_MAX ∧
    ∀ v ∈ catalogNames, ∃ notes : List (Int × Int),
      applySlideVariants 60 12 TimeMeter.DUPLE v = .ok notes ∧
      ∀ d ∈ durations notes, 0 < d :=
  ⟨by decide, by decide, fun v hv =>
    durations_positive_from_12 60 12 TimeMeter.DUPLE (by decide) v hv (fun _ _ => by decide)⟩

/-- C10 at the input where it fails, and where it holds: in duple meter the dotted variant
DSTTM2m with the duration 1000000000 returns a first duration of -161870912, because the
product 3000000000 does not fit an `int` and is held as -1294967296; the smallest duration
at which the product leaves the range is 715827883. For every tested name, either meter and
every positive duration, no returned duration is negative as long as the product is an `int`,
which only the dotted names in duple meter require. -/
theorem durations_nonneg (pi durPi : Int) (meter : TimeMeter) (hD : 0 < durPi) :
    applySlideVariants 60 1000000000 TimeMeter.DUPLE "DSTTM2m"
      = .ok [(57, -161870912), (59, 125000000), (60, 500000000)] ∧
    wrapInt (1000000000 * 3) = -1294967296 ∧
    applySlideVariants 60 715827883 TimeMeter.DUPLE "DSTTM2m"
      = .ok [(57, -268435455), (59, 89478485), (60, 357913941)] ∧
    ∀ v ∈ catalogNames,
      (v ∈ dottedVariants → meter = TimeMeter.DUPLE → durPi * 3 ≤ INT_MAX) →
      ∃ notes : List (Int × Int),
        applySlideVariants pi durPi meter v = .ok notes ∧ ∀ d ∈ durations notes, 0 ≤ d := by
  refine ⟨by decide, by decide, by decide, fun v hv hfit => ?_⟩
  obtain ⟨b, hb, rfl⟩ := catalog_row v hv
  obtain ⟨ds, -, hdur, -, hok⟩ := run_form b hb durPi meter hD
  obtain ⟨notes, hn, -, -, hd, -⟩ := hok pi
  have hnn := (hdur (fun hr => hfit (dotted_routine_rows b hb hr))).1
  exact ⟨notes, hn, by rw [hd]; exact hnn⟩

/-- Witness for C10 at pitch 60, duration 1, duple meter. -/
theorem durations_nonneg_witness :
    (0 : Int) < 1 ∧ (1 : Int) * 3 ≤ INT_MAX ∧
    ∀ v ∈ catalogNames, ∃ notes : List (Int × Int),
      applySlideVariants 60 1 TimeMeter.DUPLE v = .ok notes ∧
      ∀ d ∈ durations notes, 0 ≤ d :=
  ⟨by decide, by decide, fun v hv =>
    (durations_nonneg 60 1 TimeMeter.DUPLE (by decide)).2.2.2 v hv (fun _ _ => by decide)⟩

/-! ## Shared lemmas: note names -/

/-- On a string with a last character, the two `substr` calls of `getNoteNumber` return the
text before the last character and the last character. -/
theorem substr_snoc (init : List Char) (c : Char) :
    substr (String.mk (init ++ [c])) 0 (sizeMinusOne (String.mk (init ++ [c])))
      = .ok (String.mk init) ∧
    substr (String.mk (init ++ [c])) (sizeMinusOne (String.mk (init ++ [c]))) SIZE_MAX
      = .ok (String.mk [c]) := by
  have hlen : (String.mk (init ++ [c])).length = init.length + 1 := by
    simp [String.length]
  simp [substr, sizeMinusOne, hlen, SIZE_MAX]

/-- On a string with a last character, `getNoteNumber` converts that character and looks up
the text before it. -/
theorem getNoteNumber_snoc (init : List Char) (c : Char) :
    getNoteNumber (String.mk (init ++ [c]))
      = (stoi (String.mk [c])).bind (fun octave =>
          if noteNames.indexOf (String.mk init) = noteNames.length
          then .error (.invalidNoteName (String.mk (init ++ [c])))
          else .ok ((octave + 1) * 12 + (noteNames.indexOf (String.mk init) : Int))) := by
  obtain ⟨h1, h2⟩ := substr_snoc init c
  simp only [getNoteNumber, h1, h2, bind, Except.bind]

/-- On the empty string the second `substr` throws. -/
theorem getNoteNumber_empty : getNoteNumber "" = .error .substrOutOfRange := by decide

/-- A string is empty or has a last character. -/
theorem string_cases (x : String) : x = "" ∨ ∃ init c, x = String.mk (init ++ [c]) := by
  obtain ⟨l⟩ := x
  rcases List.eq_nil_or_concat l with rfl | ⟨L, b, rfl⟩
  · exact Or.inl rfl
  · exact Or.inr ⟨L, b, by simp⟩

/-- The characters that `Char.isDigit` accepts. -/
theorem digit_cases (c : Char) (h : c.isDigit = true) :
    c = '0' ∨ c = '1' ∨ c = '2' ∨ c = '3' ∨ c = '4' ∨ c = '5' ∨ c = '6' ∨ c = '7' ∨ c = '8' ∨
      c = '9' := by
  have hc := Char.ofNat_toNat c
  simp only [Char.isDigit, Bool.and_eq_true, decide_eq_true_eq] at h
  have h1 : 48 ≤ c.toNat := h.1
  have h2 : c.toNat ≤ 57 := h.2
  generalize c.toNat = k at hc h1 h2
  subst hc
  interval_cases k <;> decide

/-- On a single decimal digit `std::stoi` returns its value. -/
theorem stoi_digits : ∀ d ∈ decimalDigits,
    stoi (String.mk [d]) = .ok ((d.toNat : Int) - 48) := by
  decide

/-- On a single character `std::stoi` succeeds only for a decimal digit. -/
theorem stoi_singleton (c : Char) (o : Int) (h : stoi (String.mk [c]) = .ok o) :
    c.isDigit = true ∧ o = (c.toNat : Int) - 48 := by
  by_cases hd : c.isDigit = true
  · refine ⟨hd, ?_⟩
    have hc : c ∈ decimalDigits := by
      rcases digit_cases c hd with rfl | rfl | rfl | rfl | rfl | rfl | rfl | rfl | rfl | rfl <;>
        decide
    rw [stoi_digits c hc] at h
    exact (Except.ok.inj h).symm
  · exfalso
    have : stoi (String.mk [c]) = .error .stoiInvalidArgument := by
      by_cases hs : isspace c = true
      · simp [stoi, List.dropWhile, hs]
      · by_cases hm : c = '-'
        · subst hm
          decide
        · by_cases hp : c = '+'
          · subst hp
            decide
          · simp [stoi, List.dropWhile, List.takeWhile, hs, hm, hp, hd]
    rw [this] at h
    cases h

/-- Each table entry sits at the index that `std::find` reports. -/
theorem table_lookup : ∀ base ∈ noteNames, ∃ i : Fin 12,
    noteNames[i.val]? = some base ∧ noteNames.indexOf base = i.val := by
  decide

/-- Each decimal digit character is the rendering of its value. -/
theorem digit_lookup : ∀ c ∈ decimalDigits, ∃ d : Fin 10,
    String.mk [c] = toString d.val ∧ (c.toNat : Int) - 48 = (d.val : Int) := by
  decide

/-- The strings `getNoteNumber` accepts: a table entry followed by one decimal digit. -/
theorem getNoteNumber_ok (x : String) (n : Int) (h : getNoteNumber x = .ok n) :
    ∃ (i : Fin 12) (d : Fin 10) (entry : String), noteNames[i.val]? = some entry ∧
      x = entry ++ toString d.val ∧ n = ((d.val : Int) + 1) * 12 + (i.val : Int) := by
  rcases string_cases x with rfl | ⟨init, c, rfl⟩
  · rw [getNoteNumber_empty] at h
    cases h
  · rw [getNoteNumber_snoc] at h
    cases hst : stoi (String.mk [c]) with
    | error e =>
      rw [hst] at h
      cases h
    | ok o =>
      rw [hst] at h
      obtain ⟨hd, ho⟩ := stoi_singleton c o hst
      have hc : c ∈ decimalDigits := by
        rcases digit_cases c hd with rfl | rfl | rfl | rfl | rfl | rfl | rfl | rfl | rfl | rfl <;>
          decide
      obtain ⟨d, hds, hdv⟩ := digit_lookup c hc
      by_cases hidx : noteNames.indexOf (String.mk init) = noteNames.length
      · simp [Except.bind, hidx] at h
      · have hmem : String.mk init ∈ noteNames := by
          by_contra hne
          exact hidx (List.indexOf_eq_length.mpr hne)
        obtain ⟨i, hi, hi2⟩ := table_lookup _ hmem
        refine ⟨i, d, String.mk init, hi, ?_, ?_⟩
        · rw [← hds]
          rfl
        · simp only [Except.bind, hidx, if_false] at h
          have := Except.ok.inj h
          rw [← this, ho, hdv, hi2]

/-! ## Note names: table lookups -/

/-- C11: for every note number `n ≥ 0`, `getNoteName n` is the table entry at index `n mod 12`
followed by the decimal rendering of `n / 12 - 1`; `getNoteName 60` is "C4". -/
theorem getNoteName_spec (n : Int) (hn : 0 ≤ n) :
    (∃ entry : String, noteNames[(n % 12).toNat]? = some entry ∧
      getNoteName n = some (entry ++ toString (n / 12 - 1))) ∧
    (n % 12).toNat < 12 ∧ getNoteName 60 = some "C4" := by
  have hdiv : n.tdiv 12 = n / 12 := Int.tdiv_eq_ediv hn (by norm_num)
  have hmod : n.tmod 12 = n % 12 := Int.tmod_eq_emod hn (by norm_num)
  have hlt : (n % 12).toNat < noteNames.length := by
    have : noteNames.length = 12 := by decide
    omega
  refine ⟨⟨noteNames[(n % 12).toNat], List.getElem?_eq_getElem hlt, ?_⟩, ?_, by decide⟩
  · have hnn : ¬ n % 12 < 0 := by omega
    simp only [getNoteName, hdiv, hmod, hnn, if_false, List.getElem?_eq_getElem hlt,
      Option.map_some']
  · have : noteNames.length = 12 := by decide
    omega

/-- Witness for C11 at note number 61. -/
theorem getNoteName_spec_witness :
    (0 : Int) ≤ 61 ∧
    (∃ entry : String, noteNames[((61 : Int) % 12).toNat]? = some entry ∧
      getNoteName 61 = some (entry ++ toString ((61 : Int) / 12 - 1))) ∧
    ((61 : Int) % 12).toNat < 12 ∧ getNoteName 60 = some "C4" :=
  ⟨by decide, getNoteName_spec 61 (by decide)⟩

/-- C12: for every table entry (index `i`) and every decimal digit `d`, `getNoteNumber` of the
entry followed by the digit is `(d + 1) * 12 + i`; "C4" gives 60 and "A4" gives 69. -/
theorem getNoteNumber_entry_digit :
    (∀ (i : Fin 12) (d : Fin 10),
      (noteNames[i.val]?).map (fun entry => getNoteNumber (entry ++ toString d.val))
        = some (.ok (((d.val : Int) + 1) * 12 + (i.val : Int)))) ∧
    noteNames.length = 12 ∧
    getNoteNumber "C4" = .ok 60 ∧ getNoteNumber "A4" = .ok 69 := by
  refine ⟨?_, ?_, ?_, ?_⟩
  · decide
  · decide
  · decide
  · decide

/-- C13, evaluated: `getNoteNumber` takes exactly the last character as the octave, so a name
whose octave is -1 or 10 is rejected: for every table entry the text before the last
character ("C-", "C1", ...) is no table entry. In particular "C-1" and "C10" are rejected,
although `getNoteName` writes these names for the note numbers 0 and 132. -/
theorem getNoteNumber_long_octave_rejected :
    getNoteNumber "C-1" = .error (.invalidNoteName "C-1") ∧
    getNoteNumber "C10" = .error (.invalidNoteName "C10") ∧
    getNoteName 0 = some "C-1" ∧ getNoteName 132 = some "C10" ∧
    (∀ i : Fin 12,
      (noteNames[i.val]?).map (fun entry => (getNoteNumber (entry ++ toString (-1 : Int))).toOption)
        = some none ∧
      (noteNames[i.val]?).map (fun entry => (getNoteNumber (entry ++ toString (10 : Int))).toOption)
        = some none) := by
  refine ⟨?_, ?_, ?_, ?_, ?_⟩
  · decide
  · decide
  · decide
  · decide
  · decide

/-- C14: a string whose part before the last character is not one of the 12 table spellings
makes `getNoteNumber` throw; so do the flat spelling "Db4", the lower-case "c4" and the
empty string (the latter already in `substr`). -/
theorem getNoteNumber_rejects_unknown_base (x : String)
    (h : String.mk x.data.dropLast ∉ noteNames) :
    (∃ e, getNoteNumber x = .error e) ∧
    getNoteNumber "Db4" = .error (.invalidNoteName "Db4") ∧
    getNoteNumber "c4" = .error (.invalidNoteName "c4") ∧
    getNoteNumber "" = .error .substrOutOfRange := by
  refine ⟨?_, by decide, by decide, by decide⟩
  rcases string_cases x with rfl | ⟨init, c, rfl⟩
  · exact ⟨_, getNoteNumber_empty⟩
  · have hbase : String.mk init ∉ noteNames := by simpa using h
    have hidx : noteNames.indexOf (String.mk init) = noteNames.length :=
      List.indexOf_eq_length.mpr hbase
    rw [getNoteNumber_snoc]
    cases stoi (String.mk [c]) with
    | error e => exact ⟨e, rfl⟩
    | ok o =>
      refine ⟨.invalidNoteName (String.mk (init ++ [c])), ?_⟩
      simp only [Except.bind, hidx, if_true]

/-- Witness for C14 at the flat spelling "Db4". -/
theorem getNoteNumber_rejects_unknown_base_witness :
    String.mk ("Db4" : String).data.dropLast ∉ noteNames ∧
    ∃ e, getNoteNumber "Db4" = .error e :=
  ⟨by decide, (getNoteNumber_rejects_unknown_base "Db4" (by decide)).1⟩

/-! ## Note names: round trips -/

/-- C15: whenever `getNoteNumber` accepts a string, `getNoteName` of the number it returns is
that string. -/
theorem getNoteName_getNoteNumber (x : String) (n : Int) (h : getNoteNumber x = .ok n) :
    getNoteName n = some x := by
  obtain ⟨i, d, entry, hi, rfl, rfl⟩ := getNoteNumber_ok x n h
  have key : ∀ (i : Fin 12) (d : Fin 10),
      getNoteName (((d.val : Int) + 1) * 12 + (i.val : Int))
        = (noteNames[i.val]?).map (fun entry => entry ++ toString d.val) := by
    decide
  rw [key i d, hi]
  rfl

/-- Witness for C15 at "F#3". -/
theorem getNoteName_getNoteNumber_witness :
    getNoteNumber "F#3" = .ok 54 ∧ getNoteName 54 = some "F#3" :=
  ⟨by decide, getNoteName_getNoteNumber "F#3" 54 (by decide)⟩

/-- C16, evaluated: the round trip fails on the twelve lowest MIDI pitches. `getNoteName`
writes them with the octave "-1", and `getNoteNumber`, which takes only the last character as
the octave, rejects every such name (for pitch 0: "C-1"). On the pitches 12 to 131 the round
trip returns the pitch. -/
theorem round_trip_low_pitches_fail :
    getNoteName 0 = some "C-1" ∧
    getNoteNumber "C-1" = .error (.invalidNoteName "C-1") ∧
    (∀ n : Fin 12,
      (getNoteName (n.val : Int)).map (fun s => (getNoteNumber s).toOption) = some none) ∧
    (∀ k : Fin 120,
      (getNoteName ((k.val : Int) + 12)).map getNoteNumber = some (.ok ((k.val : Int) + 12))) := by
  refine ⟨?_, ?_, ?_, ?_⟩
  · decide
  · decide
  · decide
  · decide

/-- C17, evaluated: for the note "C0" (pitch 12) and the variant STTM2m with duration 480,
`processFile` writes the rows "A-1", "B-1", "C0"; `getNoteNumber` rejects the first two, so
the sequencing loop of `convertToMidi` keeps the principal note alone, at tick 0: the two
ornament notes do not reach the MIDI sequencer. The same happens at the top of the range:
for "B9" (pitch 131) and ITTSM2M2M the ornament rows "F10", "D#10", "C#10" are rejected. -/
theorem low_ornaments_not_read_back :
    getNoteNumber "C0" = .ok 12 ∧
    applySlideVariants 12 480 TimeMeter.DUPLE "STTM2m" = .ok [(9, 120), (11, 120), (12, 240)] ∧
    transformNote 1 "C0" 480 "STTM2m"
      = .ok [⟨1, "A-1", 120⟩, ⟨1, "B-1", 120⟩, ⟨1, "C0", 240⟩] ∧
    getNoteNumber "A-1" = .error (.invalidNoteName "A-1") ∧
    getNoteNumber "B-1" = .error (.invalidNoteName "B-1") ∧
    sequenceRows [⟨1, "A-1", 120⟩, ⟨1, "B-1", 120⟩, ⟨1, "C0", 240⟩]
      = ⟨[(1, [⟨1, 12, 0, 240, true⟩, ⟨1, 12, 240, 0, false⟩])], [(1, 240)]⟩ ∧
    transformNote 1 "B9" 480 "ITTSM2M2M"
      = .ok [⟨1, "F10", 80⟩, ⟨1, "D#10", 80⟩, ⟨1, "C#10", 80⟩, ⟨1, "B9", 240⟩] ∧
    getNoteNumber "F10" = .error (.invalidNoteName "F10") := by
  refine ⟨?_, ?_, ?_, ?_, ?_, ?_, ?_, ?_⟩
  · decide
  · decide
  · decide
  · decide
  · decide
  · decide
  · decide
  · decide

/-! ## Shared lemmas: the sequencing loop -/

/-- Reading a map after one assignment. -/
theorem mapGet_mapSet {V : Type} (m : List (Int × V)) (key key2 : Int) (value dflt : V) :
    mapGet (mapSet m key value) key2 dflt = if key = key2 then value else mapGet m key2 dflt := by
  induction m with
  | nil => simp [mapSet, mapGet]
  | cons kv rest ih =>
    obtain ⟨k, v⟩ := kv
    simp only [mapSet]
    split_ifs <;> simp_all [mapGet]
    all_goals omega

/-- A number between `INT_MIN` and `INT_MAX` is the `int` it is. -/
theorem wrapInt_of_fits (x : Int) (h1 : INT_MIN ≤ x) (h2 : x ≤ INT_MAX) : wrapInt x = x := by
  simp only [INT_MIN, INT_MAX] at h1 h2
  unfold wrapInt
  omega

/-- Every `int` lies between `INT_MIN` and `INT_MAX`. -/
theorem wrapInt_fits (x : Int) : INT_MIN ≤ wrapInt x ∧ wrapInt x ≤ INT_MAX := by
  simp only [INT_MIN, INT_MAX]
  unfold wrapInt
  omega

/-- One pass of the loop body, seen from track `T`. -/
theorem sequenceRow_track (T : Int) (st : SeqState) (row : Row) :
    mapGet (sequenceRow st row).trackEvents T []
      = mapGet st.trackEvents T []
        ++ sequenceFrom T (mapGet st.trackPositions T 0) ((acceptedNote T row).toList) ∧
    mapGet (sequenceRow st row).trackPositions T 0
      = cursorAfter (mapGet st.trackPositions T 0) ((acceptedNote T row).toList) := by
  by_cases hh : row.noteName = "Note" ∨ row.noteName = "Track"
  · simp [sequenceRow, acceptedNote, hh, sequenceFrom, cursorAfter]
  · cases hg : getNoteNumber row.noteName with
    | error e => simp [sequenceRow, acceptedNote, hh, hg, sequenceFrom, cursorAfter]
    | ok p =>
      by_cases ht : row.track = T
      · subst ht
        simp [sequenceRow, acceptedNote, hh, hg, sequenceFrom, cursorAfter, mapGet_mapSet]
      · simp [sequenceRow, acceptedNote, hh, hg, sequenceFrom, cursorAfter, mapGet_mapSet, ht]

/-- Chaining two runs of notes in the loop. -/
theorem sequenceFrom_append (T start : Int) (xs ys : List (Int × Int)) :
    sequenceFrom T start (xs ++ ys)
      = sequenceFrom T start xs ++ sequenceFrom T (cursorAfter start xs) ys ∧
    cursorAfter start (xs ++ ys) = cursorAfter (cursorAfter start xs) ys := by
  induction xs generalizing start with
  | nil => simp [sequenceFrom, cursorAfter]
  | cons x xs ih =>
    obtain ⟨p, d⟩ := x
    obtain ⟨i1, i2⟩ := ih (wrapInt (start + d))
    simp [sequenceFrom, cursorAfter, i1, i2]

/-- Chaining two runs of notes. -/
theorem emitFrom_append (T start : Int) (xs ys : List (Int × Int)) :
    emitFrom T start (xs ++ ys)
      = emitFrom T start xs ++ emitFrom T (start + (durations xs).sum) ys := by
  induction xs generalizing start with
  | nil => simp [emitFrom, durations]
  | cons x xs ih =>
    obtain ⟨p, d⟩ := x
    simp [emitFrom, ih, durations, add_assoc]

/-- The loop from any state, seen from track `T`. -/
theorem foldl_sequenceRow_track (T : Int) (rows : List Row) (st : SeqState) :
    mapGet (rows.foldl sequenceRow st).trackEvents T []
      = mapGet st.trackEvents T []
        ++ sequenceFrom T (mapGet st.trackPositions T 0) (trackNotes T rows) ∧
    mapGet (rows.foldl sequenceRow st).trackPositions T 0
      = cursorAfter (mapGet st.trackPositions T 0) (trackNotes T rows) := by
  induction rows generalizing st with
  | nil => simp [trackNotes, sequenceFrom, cursorAfter]
  | cons row rows ih =>
    obtain ⟨h1, h2⟩ := sequenceRow_track T st row
    obtain ⟨i1, i2⟩ := ih (sequenceRow st row)
    have hcons : trackNotes T (row :: rows) = (acceptedNote T row).toList ++ trackNotes T rows := by
      simp only [trackNotes, List.filterMap_cons]
      cases acceptedNote T row <;> simp
    obtain ⟨a1, a2⟩ := sequenceFrom_append T (mapGet st.trackPositions T 0)
      ((acceptedNote T row).toList) (trackNotes T rows)
    simp only [List.foldl_cons]
    rw [i1, i2, h1, h2, hcons, a1, a2]
    exact ⟨by simp [List.append_assoc], rfl⟩

/-- The events of a track after the loop, as a run of notes from tick 0, and its cursor. -/
theorem sequenceRows_sequenceFrom (T : Int) (rows : List Row) :
    mapGet (sequenceRows rows).trackEvents T [] = sequenceFrom T 0 (trackNotes T rows) ∧
    mapGet (sequenceRows rows).trackPositions T 0 = cursorAfter 0 (trackNotes T rows) := by
  obtain ⟨h1, h2⟩ := foldl_sequenceRow_track T rows SeqState.init
  rw [sequenceRows, h1, h2]
  simp [SeqState.init, mapGet]

/-- As long as the cursor stays an `int`, that is every partial sum of the durations from
`start` lies between `INT_MIN` and `INT_MAX`, the loop emits the ticks of the integers and
the cursor ends at `start` plus the sum of the durations. -/
theorem sequenceFrom_fits (T : Int) (notes : List (Int × Int)) (start : Int)
    (h : ∀ k : Nat, k ≤ notes.length →
      INT_MIN ≤ start + ((durations notes).take k).sum ∧
      start + ((durations notes).take k).sum ≤ INT_MAX) :
    sequenceFrom T start notes = emitFrom T start notes ∧
    cursorAfter start notes = start + (durations notes).sum := by
  induction notes generalizing start with
  | nil => simp [sequenceFrom, emitFrom, cursorAfter, durations]
  | cons n rest ih =>
    obtain ⟨p, d⟩ := n
    have h1 := h 1 (by simp)
    simp only [durations, List.map_cons, List.take_succ_cons, List.take_zero, List.sum_cons,
      List.sum_nil, add_zero] at h1
    have hw : wrapInt (start + d) = start + d := wrapInt_of_fits _ h1.1 h1.2
    have hrest : ∀ k : Nat, k ≤ rest.length →
        INT_MIN ≤ start + d + ((durations rest).take k).sum ∧
        start + d + ((durations rest).take k).sum ≤ INT_MAX := by
      intro k hk
      have := h (k + 1) (by simp; omega)
      simp only [durations, List.map_cons, List.take_succ_cons, List.sum_cons] at this ⊢
      omega
    obtain ⟨i1, i2⟩ := ih (start + d) hrest
    simp only [sequenceFrom, emitFrom, cursorAfter, hw, i1, i2, durations, List.map_cons,
      List.sum_cons]
    exact ⟨trivial, by omega⟩

/-- Partial sums of durations that are not negative lie between 0 and the whole sum. -/
theorem take_sum_bounds (ds : List Int) (hd : ∀ d ∈ ds, 0 ≤ d) (k : Nat) :
    0 ≤ (ds.take k).sum ∧ (ds.take k).sum ≤ ds.sum := by
  induction ds generalizing k with
  | nil => simp
  | cons d rest ih =>
    have hd0 : 0 ≤ d := hd d (List.mem_cons_self _ _)
    have hr : ∀ x ∈ rest, 0 ≤ x := fun x hx => hd x (List.mem_cons_of_mem _ hx)
    cases k with
    | zero =>
      have := (ih hr 0).2
      simp only [List.take_zero, List.sum_nil] at this
      simp only [List.take_zero, List.sum_nil, List.sum_cons]
      omega
    | succ k =>
      have := ih hr k
      simp only [List.take_succ_cons, List.sum_cons]
      omega

/-- Durations that are not negative and sum to at most `INT_MAX` keep the cursor an `int`. -/
theorem nonneg_fits (notes : List (Int × Int)) (hd : ∀ n ∈ notes, 0 ≤ n.2)
    (hfit : (durations notes).sum ≤ INT_MAX) :
    ∀ k : Nat, k ≤ notes.length →
      INT_MIN ≤ 0 + ((durations notes).take k).sum ∧
      0 + ((durations notes).take k).sum ≤ INT_MAX := by
  intro k _
  have hds : ∀ d ∈ durations notes, 0 ≤ d := by
    intro d hmem
    simp only [durations, List.mem_map] at hmem
    obtain ⟨n, hn, rfl⟩ := hmem
    exact hd n hn
  have := take_sum_bounds (durations notes) hds k
  simp only [INT_MIN, INT_MAX] at hfit ⊢
  omega

/-- The recursive event list is the indexed one, shifted by the starting tick. -/
theorem emitFrom_eq_range (T start : Int) (notes : List (Int × Int)) :
    emitFrom T start notes
      = (List.range notes.length).flatMap (fun i =>
          [⟨T, (notes.getD i (0, 0)).1, start + ((durations notes).take i).sum,
             (notes.getD i (0, 0)).2, true⟩,
           ⟨T, (notes.getD i (0, 0)).1,
             start + ((durations notes).take i).sum + (notes.getD i (0, 0)).2, 0, false⟩]) := by
  induction notes generalizing start with
  | nil => simp [emitFrom]
  | cons x xs ih =>
    obtain ⟨p, d⟩ := x
    rw [emitFrom, ih, List.length_cons, List.range_succ_eq_map]
    simp [List.flatMap_cons, List.flatMap_map, durations, add_assoc, Function.comp]

/-- The whole loop, seen from track `T`, as long as the cursor of the track stays an `int`. -/
theorem sequenceRows_track (T : Int) (rows : List Row)
    (h : ∀ k : Nat, k ≤ (trackNotes T rows).length →
      INT_MIN ≤ 0 + ((durations (trackNotes T rows)).take k).sum ∧
      0 + ((durations (trackNotes T rows)).take k).sum ≤ INT_MAX) :
    mapGet (sequenceRows rows).trackEvents T [] = expectedEvents T (trackNotes T rows) ∧
    mapGet (sequenceRows rows).trackPositions T 0 = (durations (trackNotes T rows)).sum := by
  obtain ⟨h1, h2⟩ := sequenceRows_sequenceFrom T rows
  obtain ⟨f1, f2⟩ := sequenceFrom_fits T (trackNotes T rows) 0 h
  constructor
  · rw [h1, f1, emitFrom_eq_range]
    simp [expectedEvents]
  · rw [h2, f2]
    simp

/-- The notes of a track are those of its own rows. -/
theorem trackNotes_filter (T : Int) (rows : List Row) :
    trackNotes T rows = trackNotes T (rows.filter (fun r => r.track = T)) := by
  induction rows with
  | nil => rfl
  | cons row rows ih =>
    unfold trackNotes at ih ⊢
    by_cases ht : row.track = T
    · rw [List.filter_cons_of_pos (by simpa using ht), List.filterMap_cons, List.filterMap_cons,
        ih]
    · have hnone : acceptedNote T row = none := by simp [acceptedNote, ht]
      rw [List.filter_cons_of_neg (by simpa using ht), List.filterMap_cons, hnone]
      exact ih

/-! ## Sequencing -/

/-- C18 where it holds, and the input where it fails: as long as the cursor of the track
stays an `int` (every partial sum of its durations lies between `INT_MIN` and `INT_MAX`), the
events of a track are, for its valid notes in file order, a note-on at the sum of the earlier
durations followed by a note-off one duration later, and the final cursor of the track is the
sum of all its durations; three notes of durations 100, 50, 200 start at 0, 100, 150 and end
at 100, 150, 350. Two notes of duration 2000000000 take the cursor out of the range: the
second note-off and the final cursor are at -294967296, not at 4000000000. -/
theorem sequencing_ticks (T : Int) (rows : List Row)
    (h : ∀ k : Nat, k ≤ (trackNotes T rows).length →
      INT_MIN ≤ ((durations (trackNotes T rows)).take k).sum ∧
      ((durations (trackNotes T rows)).take k).sum ≤ INT_MAX) :
    mapGet (sequenceRows rows).trackEvents T [] = expectedEvents T (trackNotes T rows) ∧
    mapGet (sequenceRows rows).trackPositions T 0 = (durations (trackNotes T rows)).sum ∧
    sequenceRows [⟨1, "C4", 100⟩, ⟨1, "D4", 50⟩, ⟨1, "E4", 200⟩]
      = ⟨[(1, [⟨1, 60, 0, 100, true⟩, ⟨1, 60, 100, 0, false⟩,
               ⟨1, 62, 100, 50, true⟩, ⟨1, 62, 150, 0, false⟩,
               ⟨1, 64, 150, 200, true⟩, ⟨1, 64, 350, 0, false⟩])],
          [(1, 350)]⟩ ∧
    sequenceRows [⟨1, "C4", 2000000000⟩, ⟨1, "D4", 2000000000⟩]
      = ⟨[(1, [⟨1, 60, 0, 2000000000, true⟩, ⟨1, 60, 2000000000, 0, false⟩,
               ⟨1, 62, 2000000000, 2000000000, true⟩, ⟨1, 62, -294967296, 0, false⟩])],
          [(1, -294967296)]⟩ ∧
    expectedEvents 1 [(60, 2000000000), (62, 2000000000)]
      = [⟨1, 60, 0, 2000000000, true⟩, ⟨1, 60, 2000000000, 0, false⟩,
         ⟨1, 62, 2000000000, 2000000000, true⟩, ⟨1, 62, 4000000000, 0, false⟩] := by
  obtain ⟨h1, h2⟩ := sequenceRows_track T rows (fun k hk => by simpa using h k hk)
  exact ⟨h1, h2, by decide, by decide, by decide⟩

/-- Witness for C18: three notes of durations 100, 50, 200 on track 1. -/
theorem sequencing_ticks_witness :
    (∀ k : Nat, k ≤ (trackNotes 1 [⟨1, "C4", 100⟩, ⟨1, "D4", 50⟩, ⟨1, "E4", 200⟩]).length →
      INT_MIN ≤ ((durations
        (trackNotes 1 [⟨1, "C4", 100⟩, ⟨1, "D4", 50⟩, ⟨1, "E4", 200⟩])).take k).sum ∧
      ((durations
        (trackNotes 1 [⟨1, "C4", 100⟩, ⟨1, "D4", 50⟩, ⟨1, "E4", 200⟩])).take k).sum ≤ INT_MAX) ∧
    mapGet (sequenceRows [⟨1, "C4", 100⟩, ⟨1, "D4", 50⟩, ⟨1, "E4", 200⟩]).trackEvents 1 []
      = expectedEvents 1 (trackNotes 1 [⟨1, "C4", 100⟩, ⟨1, "D4", 50⟩, ⟨1, "E4", 200⟩]) ∧
    mapGet (sequenceRows [⟨1, "C4", 100⟩, ⟨1, "D4", 50⟩, ⟨1, "E4", 200⟩]).trackPositions 1 0
      = 350 :=
  ⟨by decide, (sequencing_ticks 1 _ (by decide)).1,
    ((sequencing_ticks 1 [⟨1, "C4", 100⟩, ⟨1, "D4", 50⟩, ⟨1, "E4", 200⟩] (by decide)).2.1).trans
      (by decide)⟩

/-- C19: the events and the final cursor of a track depend only on the rows of that track: two
inputs with the same rows for track `T`, in the same order, give `T` the same event list and
the same cursor, whatever rows of other tracks lie between them. -/
theorem track_independence (T : Int) (rows1 rows2 : List Row)
    (h : rows1.filter (fun r => r.track = T) = rows2.filter (fun r => r.track = T)) :
    mapGet (sequenceRows rows1).trackEvents T [] = mapGet (sequenceRows rows2).trackEvents T [] ∧
    mapGet (sequenceRows rows1).trackPositions T 0
      = mapGet (sequenceRows rows2).trackPositions T 0 := by
  obtain ⟨a1, a2⟩ := sequenceRows_sequenceFrom T rows1
  obtain ⟨b1, b2⟩ := sequenceRows_sequenceFrom T rows2
  have hn : trackNotes T rows1 = trackNotes T rows2 := by
    rw [trackNotes_filter T rows1, trackNotes_filter T rows2, h]
  rw [a1, a2, b1, b2, hn]
  exact ⟨rfl, rfl⟩

/-- Witness for C19: two inputs that interleave different rows of tracks 2 and 3 between the
same two rows of track 1. -/
theorem track_independence_witness :
    ([⟨1, "C4", 100⟩, ⟨2, "D4", 7⟩, ⟨1, "E4", 50⟩] : List Row).filter (fun r => r.track = 1)
      = ([⟨3, "F4", 9⟩, ⟨1, "C4", 100⟩, ⟨1, "E4", 50⟩, ⟨3, "G4", 9⟩] : List Row).filter
          (fun r => r.track = 1) ∧
    mapGet (sequenceRows [⟨1, "C4", 100⟩, ⟨2, "D4", 7⟩, ⟨1, "E4", 50⟩]).trackEvents 1 []
      = mapGet (sequenceRows [⟨3, "F4", 9⟩, ⟨1, "C4", 100⟩, ⟨1, "E4", 50⟩,
          ⟨3, "G4", 9⟩]).trackEvents 1 [] ∧
    mapGet (sequenceRows [⟨1, "C4", 100⟩, ⟨2, "D4", 7⟩, ⟨1, "E4", 50⟩]).trackPositions 1 0
      = mapGet (sequenceRows [⟨3, "F4", 9⟩, ⟨1, "C4", 100⟩, ⟨1, "E4", 50⟩,
          ⟨3, "G4", 9⟩]).trackPositions 1 0 :=
  ⟨by decide, track_independence 1 _ _ (by decide)⟩

/-! ## Shared lemmas: variable-length quantities -/

/-- Setting the top bit of a seven-bit group adds 128. -/
theorem or_top_bit : ∀ b : Fin 128, b.val ||| 0x80 = b.val + 128 := by
  decide

/-- Reading one more byte. -/
theorem vlqValue_concat (bytes : List Nat) (b : Nat) :
    vlqValue (bytes ++ [b]) = vlqValue bytes * 128 + b % 128 := by
  simp [vlqValue, List.foldl_append]

/-- The loop on a non-empty buffer appends continuation bytes only, and these, read most
significant group first, spell the remaining value. -/
theorem vlqLoop_cont (n : Nat) : ∀ acc : List Nat, acc ≠ [] →
    ∃ tail : List Nat, vlqLoop n acc = acc ++ tail ∧ (∀ b ∈ tail, 128 ≤ b ∧ b < 256) ∧
      vlqValue tail.reverse = n := by
  induction n using Nat.strong_induction_on with
  | _ n ih =>
    intro acc hacc
    rw [vlqLoop]
    by_cases hn : 0 < n
    · have hand : n &&& 0x7F = n % 128 := Nat.and_pow_two_sub_one_eq_mod n 7
      have hshift : n >>> 7 = n / 128 := Nat.shiftRight_eq_div_pow n 7
      have hor : (n % 128) ||| 0x80 = n % 128 + 128 :=
        or_top_bit ⟨n % 128, Nat.mod_lt _ (by norm_num)⟩
      obtain ⟨tail, h1, h2, h3⟩ := ih (n / 128) (Nat.div_lt_self hn (by norm_num))
        (acc ++ [n % 128 + 128]) (by simp)
      refine ⟨(n % 128 + 128) :: tail, ?_, ?_, ?_⟩
      · simp only [hn, hand, hshift, hacc, ne_eq, not_false_eq_true, if_true, hor]
        rw [h1]
        simp
      · intro b hb
        rcases List.mem_cons.mp hb with rfl | hb
        · omega
        · exact h2 b hb
      · rw [List.reverse_cons, vlqValue_concat, h3]
        omega
    · have h0 : n = 0 := by omega
      subst h0
      exact ⟨[], by simp, by simp, by simp [vlqValue]⟩

/-- Shape of the encoding of a positive delta: continuation bytes spelling `n / 128`, then the
low seven bits of `n` as the final byte. -/
theorem encodeVlq_pos (n : Nat) (hn : 0 < n) :
    ∃ front : List Nat, encodeVlq (n : Int) = front ++ [n % 128] ∧
      (∀ b ∈ front, 128 ≤ b ∧ b < 256) ∧ vlqValue front = n / 128 := by
  have hand : n &&& 0x7F = n % 128 := Nat.and_pow_two_sub_one_eq_mod n 7
  have hshift : n >>> 7 = n / 128 := Nat.shiftRight_eq_div_pow n 7
  obtain ⟨tail, h1, h2, h3⟩ := vlqLoop_cont (n / 128) [n % 128] (by simp)
  refine ⟨tail.reverse, ?_, ?_, h3⟩
  · have hne : (n : Int) ≠ 0 := by omega
    rw [encodeVlq, if_neg hne, Int.toNat_ofNat, vlqLoop]
    simp only [hn, hand, hshift, ne_eq, not_true_eq_false, if_true, if_false, List.nil_append]
    rw [h1]
    simp
  · intro b hb
    exact h2 b (List.mem_reverse.mp hb)

/-! ## Variable-length quantities -/

/-- C20: for every delta that is not negative, the encoder yields a non-empty byte list in
which every byte but the last has its top bit set, the last has it clear, and the low seven
bits of the bytes, most significant group first, give back the delta; 0 becomes the single
byte 0x00 and 480 becomes 0x83 0x60. -/
theorem vlq_wellformed (delta : Int) (h : 0 ≤ delta) :
    encodeVlq delta ≠ [] ∧
    (∀ b ∈ (encodeVlq delta).dropLast, 128 ≤ b ∧ b < 256) ∧
    (∀ b ∈ (encodeVlq delta).getLast?, b < 128) ∧
    (vlqValue (encodeVlq delta) : Int) = delta ∧
    encodeVlq 0 = [0x00] ∧ encodeVlq 480 = [0x83, 0x60] := by
  have h0 : encodeVlq 0 = [0x00] := by simp [encodeVlq]
  have h480 : encodeVlq 480 = [0x83, 0x60] := by
    simp [encodeVlq, vlqLoop]
    decide
  rcases eq_or_lt_of_le h with hz | hpos
  · subst hz
    refine ⟨?_, ?_, ?_, ?_, h0, h480⟩ <;> simp [h0, vlqValue]
  · obtain ⟨n, rfl⟩ := Int.eq_ofNat_of_zero_le h
    obtain ⟨front, hf, hb, hv⟩ := encodeVlq_pos n (by omega)
    refine ⟨?_, ?_, ?_, ?_, h0, h480⟩
    · rw [hf]
      simp
    · rw [hf, List.dropLast_concat]
      exact hb
    · rw [hf, List.getLast?_concat]
      intro b hb2
      have hb3 : n % 128 = b := by simpa using hb2
      omega
    · rw [hf, vlqValue_concat, hv]
      exact_mod_cast (by omega : n / 128 * 128 + n % 128 % 128 = n)

/-- Witness for C20 at delta 200000. -/
theorem vlq_wellformed_witness :
    (0 : Int) ≤ 200000 ∧ encodeVlq 200000 ≠ [] ∧
    (∀ b ∈ (encodeVlq 200000).dropLast, 128 ≤ b ∧ b < 256) ∧
    (∀ b ∈ (encodeVlq 200000).getLast?, b < 128) ∧
    (vlqValue (encodeVlq 200000) : Int) = 200000 :=
  ⟨by decide, (vlq_wellformed 200000 (by decide)).1, (vlq_wellformed 200000 (by decide)).2.1,
    (vlq_wellformed 200000 (by decide)).2.2.1, (vlq_wellformed 200000 (by decide)).2.2.2.1⟩

/-! ## Shared lemmas: the MIDI writer -/

/-- Writing in place keeps what lies before and after. -/
theorem overwrite_placeholder (pre mid post bytes : List Nat) (h : bytes.length = mid.length) :
    overwrite (pre ++ mid ++ post) pre.length bytes = pre ++ bytes ++ post := by
  simp [overwrite, h, List.take_append_eq_append_take, List.drop_append_eq_append_drop]

/-- The length array has four entries. -/
theorem trackLengthBytes_length (n : Nat) : (trackLengthBytes n).length = 4 := rfl

/-- One pass of the track loop appends the chunk of the track. -/
theorem writeTrack_eq (file : List Nat) (events : List MidiEvent) :
    writeTrack file events = file ++ trackChunk events := by
  have h := overwrite_placeholder (file ++ [0x4D, 0x54, 0x72, 0x6B]) [0, 0, 0, 0]
    (trackBody events) (trackLengthBytes (trackBody events).length) rfl
  simp only [writeTrack, trackChunk]
  simp only [trackBody, List.append_assoc, List.length_append, List.length_cons,
    List.length_nil, List.cons_append, List.nil_append] at h ⊢
  convert h using 3
  omega

/-- The track loop writes the chunks of the tracks one after the other. -/
theorem foldl_writeTrack (entries : List (Int × List MidiEvent)) (file : List Nat) :
    entries.foldl (fun file entry => writeTrack file entry.2) file
      = file ++ (entries.map (fun entry => trackChunk entry.2)).flatten := by
  induction entries generalizing file with
  | nil => simp
  | cons entry rest ih =>
    rw [List.foldl_cons, ih, writeTrack_eq]
    simp

/-- The output is the header followed by the chunks, in the order of the map. -/
theorem convertToMidi_eq (rows : List Row) :
    convertToMidi rows
      = midiHeader (sequenceRows rows).trackEvents.length
        ++ ((sequenceRows rows).trackEvents.map (fun entry => trackChunk entry.2)).flatten := by
  simp only [convertToMidi, foldl_writeTrack]

/-- The bytes of the events, delta time by delta time. -/
theorem writeEvents_eq (lastTime : Int) (events : List MidiEvent) :
    writeEvents lastTime events
      = ((deltaTimes lastTime events).zip events).flatMap
          (fun p => encodeVlq p.1 ++ noteBytes p.2) := by
  induction events generalizing lastTime with
  | nil => rfl
  | cons event rest ih =>
    simp only [writeEvents, deltaTimes, List.zip_cons_cons, List.flatMap_cons, ih,
      List.append_assoc]

/-- Note bytes are three. -/
theorem noteBytes_length (event : MidiEvent) : (noteBytes event).length = 3 := by
  unfold noteBytes
  split <;> rfl

/-- Byte count of the events. -/
theorem writeEvents_length (lastTime : Int) (events : List MidiEvent) :
    (writeEvents lastTime events).length
      = ((deltaTimes lastTime events).map (fun d => (encodeVlq d).length + 3)).sum := by
  induction events generalizing lastTime with
  | nil => rfl
  | cons event rest ih =>
    simp only [writeEvents, deltaTimes, List.length_append, ih, noteBytes_length, List.map_cons,
      List.sum_cons]

/-- The length array in terms of division: the base-256 digits of the low 32 bits. -/
theorem trackLengthBytes_eq (n : Nat) :
    trackLengthBytes n = [n / 16777216 % 256, n / 65536 % 256, n / 256 % 256, n % 256] := by
  have h (m : Nat) : m &&& 0xFF = m % 256 := Nat.and_pow_two_sub_one_eq_mod m 8
  simp only [trackLengthBytes, h, Nat.shiftRight_eq_div_pow]

/-- The two count bytes of the header in terms of division. -/
theorem midiHeader_eq (n : Nat) :
    midiHeader n
      = [0x4D, 0x54, 0x68, 0x64, 0, 0, 0, 6, 0, 1, n / 256 % 256, n % 256, 0x04, 0x00] := by
  have h (m : Nat) : m &&& 0xFF = m % 256 := Nat.and_pow_two_sub_one_eq_mod m 8
  simp only [midiHeader, h, Nat.shiftRight_eq_div_pow]

/-- Encoding of the delta 0. -/
theorem encodeVlq_zero : encodeVlq 0 = [0x00] := by
  simp [encodeVlq]

/-- A negative delta is written as no byte: the loop does not run. -/
theorem encodeVlq_neg (deltaTime : Int) (h : deltaTime < 0) : encodeVlq deltaTime = [] := by
  have h0 : deltaTime ≠ 0 := by omega
  have ht : deltaTime.toNat = 0 := Int.toNat_eq_zero.mpr (by omega)
  rw [encodeVlq, if_neg h0, ht, vlqLoop]
  simp

/-- Encoding of the delta 480. -/
theorem encodeVlq_480 : encodeVlq 480 = [0x83, 0x60] := by
  simp [encodeVlq, vlqLoop]
  decide

/-- The order used for sorting is total. -/
theorem eventLess_total (a b : MidiEvent) : eventLess b a = false ∨ eventLess a b = false := by
  simp only [eventLess, Bool.or_eq_false_iff, Bool.and_eq_false_iff, decide_eq_false_iff_not,
    Bool.not_eq_false', Bool.not_eq_true]
  by_cases h1 : a.startTime < b.startTime
  · left
    refine ⟨by omega, Or.inl (Or.inl (by omega))⟩
  · by_cases h2 : b.startTime < a.startTime
    · right
      refine ⟨by omega, Or.inl (Or.inl (by omega))⟩
    · cases ha : a.isNoteOn <;> cases hb : b.isNoteOn <;> simp [h1, h2]

/-- The order used for sorting is transitive. -/
theorem eventLess_trans (a b c : MidiEvent) (hab : eventLess b a = false)
    (hbc : eventLess c b = false) : eventLess c a = false := by
  simp only [eventLess, Bool.or_eq_false_iff, Bool.and_eq_false_iff, decide_eq_false_iff_not,
    Bool.not_eq_false', Bool.not_eq_true] at hab hbc ⊢
  obtain ⟨h1, h2⟩ := hab
  obtain ⟨h3, h4⟩ := hbc
  refine ⟨by omega, ?_⟩
  by_cases hca : c.startTime = a.startTime
  · have hba : b.startTime = a.startTime := by omega
    have hcb : c.startTime = b.startTime := by omega
    cases ha : a.isNoteOn <;> cases hb : b.isNoteOn <;> cases hc : c.isNoteOn <;>
      simp_all
  · exact Or.inl (Or.inl hca)

/-- The sorted events are the given events in an order in which no event is less than an
earlier one. -/
theorem sortEvents_spec (events : List MidiEvent) :
    (sortEvents events).Perm events ∧
    (sortEvents events).Pairwise (fun a b => eventLess b a = false) := by
  refine ⟨List.perm_insertionSort _ _, ?_⟩
  exact @List.sorted_insertionSort _ (fun a b => eventLess b a = false) _
    ⟨eventLess_total⟩ ⟨eventLess_trans⟩ events

/-- What "not less" says about two events. -/
theorem eventLess_false_iff (a b : MidiEvent) :
    eventLess b a = false ↔
      a.startTime ≤ b.startTime ∧
        (a.startTime = b.startTime → a.isNoteOn = true → b.isNoteOn = true) := by
  simp only [eventLess, Bool.or_eq_false_iff, Bool.and_eq_false_iff, decide_eq_false_iff_not,
    Bool.not_eq_false', Bool.not_eq_true]
  constructor
  · rintro ⟨h1, h2⟩
    refine ⟨by omega, fun he ha => ?_⟩
    rcases h2 with (h | h) | h
    · exact absurd he.symm h
    · exact h
    · rw [ha] at h
      cases h
  · rintro ⟨h1, h2⟩
    refine ⟨by omega, ?_⟩
    by_cases he : a.startTime = b.startTime
    · cases ha : a.isNoteOn
      · exact Or.inr rfl
      · exact Or.inl (Or.inr (h2 he ha))
    · exact Or.inl (Or.inl (fun h => he h.symm))

/-- Keys of a map after one assignment. -/
theorem mem_keys_mapSet {V : Type} (m : List (Int × V)) (key key2 : Int) (value : V) :
    key2 ∈ (mapSet m key value).map Prod.fst ↔ key2 = key ∨ key2 ∈ m.map Prod.fst := by
  induction m with
  | nil => simp [mapSet]
  | cons kv rest ih =>
    obtain ⟨k, v⟩ := kv
    simp only [mapSet]
    split_ifs with h1 h2
    · simp
    · subst h2
      simp
    · simp only [List.map_cons, List.mem_cons, ih]
      tauto

/-- An assignment keeps the keys in strictly ascending order. -/
theorem sorted_keys_mapSet {V : Type} (m : List (Int × V)) (key : Int) (value : V)
    (h : (m.map Prod.fst).Sorted (· < ·)) :
    ((mapSet m key value).map Prod.fst).Sorted (· < ·) := by
  induction m with
  | nil => simp [mapSet]
  | cons kv rest ih =>
    obtain ⟨k, v⟩ := kv
    simp only [List.map_cons, List.sorted_cons] at h
    obtain ⟨hk, hrest⟩ := h
    simp only [mapSet]
    split_ifs with h1 h2
    · simp only [List.map_cons, List.sorted_cons, List.mem_cons]
      refine ⟨?_, hk, hrest⟩
      rintro b (rfl | hb)
      · exact h1
      · exact lt_trans h1 (hk b hb)
    · subst h2
      simp only [List.map_cons, List.sorted_cons]
      exact ⟨hk, hrest⟩
    · simp only [List.map_cons, List.sorted_cons]
      refine ⟨fun b hb => ?_, ih hrest⟩
      rcases (mem_keys_mapSet rest key b value).mp hb with rfl | hb
      · omega
      · exact hk b hb

/-- The two outcomes of the loop body: the row is not accepted and nothing changes, or it is
accepted and both maps are assigned at the key of its track. -/
theorem sequenceRow_cases (st : SeqState) (row : Row) :
    (acceptedNote row.track row = none ∧ sequenceRow st row = st) ∨
    (∃ (p : Int) (events : List MidiEvent) (position : Int),
      acceptedNote row.track row = some (p, row.duration) ∧
      sequenceRow st row
        = ⟨mapSet st.trackEvents row.track events,
            mapSet st.trackPositions row.track position⟩) := by
  by_cases hh : row.noteName = "Note" ∨ row.noteName = "Track"
  · left
    simp [sequenceRow, acceptedNote, hh]
  · cases hg : getNoteNumber row.noteName with
    | error e =>
      left
      simp [sequenceRow, acceptedNote, hh, hg]
    | ok p =>
      right
      refine ⟨p,
        mapGet st.trackEvents row.track [] ++
          [⟨row.track, p, mapGet st.trackPositions row.track 0, row.duration, true⟩,
           ⟨row.track, p, wrapInt (mapGet st.trackPositions row.track 0 + row.duration), 0,
             false⟩],
        wrapInt (mapGet st.trackPositions row.track 0 + row.duration),
        by simp [acceptedNote, hh, hg], ?_⟩
      simp only [sequenceRow, hh, if_false, hg]

/-- The keys of `trackEvents` during the loop: ascending, and exactly the keys before plus the
tracks of the accepted rows. -/
theorem foldl_sequenceRow_keys (rows : List Row) (st : SeqState)
    (h : (st.trackEvents.map Prod.fst).Sorted (· < ·)) :
    (((rows.foldl sequenceRow st).trackEvents).map Prod.fst).Sorted (· < ·) ∧
    ∀ T : Int, T ∈ ((rows.foldl sequenceRow st).trackEvents).map Prod.fst
      ↔ T ∈ st.trackEvents.map Prod.fst ∨ T ∈ acceptedTracks rows := by
  induction rows generalizing st with
  | nil => simp [acceptedTracks, h]
  | cons row rows ih =>
    simp only [List.foldl_cons]
    rcases sequenceRow_cases st row with ⟨hn, hs⟩ | ⟨p, events, position, hsome, hs⟩
    · rw [hs]
      have hacc : acceptedTracks (row :: rows) = acceptedTracks rows := by
        simp [acceptedTracks, List.filterMap_cons, hn]
      rw [hacc]
      exact ih st h
    · rw [hs]
      have hacc : acceptedTracks (row :: rows) = row.track :: acceptedTracks rows := by
        simp [acceptedTracks, List.filterMap_cons, hsome]
      rw [hacc]
      obtain ⟨i1, i2⟩ := ih ⟨mapSet st.trackEvents row.track events,
        mapSet st.trackPositions row.track position⟩ (sorted_keys_mapSet _ _ _ h)
      refine ⟨i1, fun T => ?_⟩
      rw [i2 T, mem_keys_mapSet, List.mem_cons]
      tauto

/-- The keys of `trackEvents` after the loop. -/
theorem sequenceRows_keys (rows : List Row) :
    (((sequenceRows rows).trackEvents).map Prod.fst).Sorted (· < ·) ∧
    ∀ T : Int, T ∈ ((sequenceRows rows).trackEvents).map Prod.fst ↔ T ∈ acceptedTracks rows := by
  obtain ⟨h1, h2⟩ := foldl_sequenceRow_keys rows SeqState.init (by simp [SeqState.init])
  refine ⟨h1, fun T => ?_⟩
  rw [sequenceRows, h2 T]
  simp [SeqState.init]

/-- The number of entries of `trackEvents` is the number of distinct accepted tracks. -/
theorem sequenceRows_numTracks (rows : List Row) :
    (sequenceRows rows).trackEvents.length = (acceptedTracks rows).dedup.length := by
  obtain ⟨h1, h2⟩ := sequenceRows_keys rows
  have hp : (((sequenceRows rows).trackEvents).map Prod.fst).Perm (acceptedTracks rows).dedup :=
    (List.perm_ext_iff_of_nodup h1.nodup (List.nodup_dedup _)).mpr
      (fun T => by rw [h2 T, List.mem_dedup])
  rw [← hp.length_eq, List.length_map]

/-- The delta times are the differences of consecutive start times, each an `int`, the first
one taken against `lastTime`. -/
theorem deltaTimes_eq_zipWith (lastTime : Int) (events : List MidiEvent) :
    deltaTimes lastTime events
      = List.zipWith (fun event previous => wrapInt (event.startTime - previous)) events
          (lastTime :: events.map (fun e => e.startTime)) := by
  induction events generalizing lastTime with
  | nil => rfl
  | cons event rest ih => simp [deltaTimes, ih]

/-- Delta times of events in ascending order that all lie between `lastTime` and `M`, `M`
being reached and no more than `INT_MAX` after `lastTime`: they are the differences of
consecutive start times over the integers, none is negative and they sum to `M - lastTime`. -/
theorem deltaTimes_sorted (events : List MidiEvent) (lastTime M : Int)
    (hs : events.Pairwise (fun a b => a.startTime ≤ b.startTime))
    (hb : ∀ e ∈ events, lastTime ≤ e.startTime ∧ e.startTime ≤ M)
    (hM : events ≠ [] → ∃ e ∈ events, e.startTime = M)
    (h0 : events = [] → lastTime = M)
    (hfit : M - lastTime ≤ INT_MAX) :
    (deltaTimes lastTime events).sum = M - lastTime ∧
    (∀ d ∈ deltaTimes lastTime events, 0 ≤ d) ∧
    deltaTimes lastTime events
      = List.zipWith (fun event previous => event.startTime - previous) events
          (lastTime :: events.map (fun e => e.startTime)) := by
  induction events generalizing lastTime with
  | nil =>
    have := h0 rfl
    simp [deltaTimes, this]
  | cons event rest ih =>
    rw [List.pairwise_cons] at hs
    obtain ⟨hhead, hrest⟩ := hs
    have hev := hb event (List.mem_cons_self _ _)
    obtain ⟨x, hx, hxM⟩ := hM (by simp)
    have hb2 : ∀ e ∈ rest, event.startTime ≤ e.startTime ∧ e.startTime ≤ M :=
      fun e he => ⟨hhead e he, (hb e (List.mem_cons_of_mem _ he)).2⟩
    have hM2 : rest ≠ [] → ∃ e ∈ rest, e.startTime = M := by
      intro hne
      rcases List.mem_cons.mp hx with rfl | hxr
      · obtain ⟨y, hy⟩ := List.exists_mem_of_ne_nil rest hne
        exact ⟨y, hy, le_antisymm (hb2 y hy).2 (hxM ▸ (hb2 y hy).1)⟩
      · exact ⟨x, hxr, hxM⟩
    have h02 : rest = [] → event.startTime = M := by
      intro hnil
      subst hnil
      rcases List.mem_cons.mp hx with rfl | hxr
      · exact hxM
      · cases hxr
    have hfit2 : M - event.startTime ≤ INT_MAX := by
      simp only [INT_MAX] at hfit ⊢
      omega
    have hw : wrapInt (event.startTime - lastTime) = event.startTime - lastTime := by
      apply wrapInt_of_fits
      · simp only [INT_MIN]
        omega
      · simp only [INT_MAX] at hfit ⊢
        omega
    obtain ⟨i1, i2, i3⟩ := ih event.startTime hrest hb2 hM2 h02 hfit2
    refine ⟨?_, ?_, ?_⟩
    · simp only [deltaTimes, List.sum_cons, i1, hw]
      omega
    · intro d hd
      simp only [deltaTimes, List.mem_cons, hw] at hd
      rcases hd with rfl | hd
      · omega
      · exact i2 d hd
    · simp only [deltaTimes, hw, i3, List.map_cons, List.zipWith_cons_cons]

/-- Start times of a run of notes with non-negative durations: within the run, and the end of
the run is reached. -/
theorem emitFrom_ticks (T : Int) (notes : List (Int × Int)) (start : Int)
    (hd : ∀ n ∈ notes, 0 ≤ n.2) :
    0 ≤ (durations notes).sum ∧
    (∀ e ∈ emitFrom T start notes,
      start ≤ e.startTime ∧ e.startTime ≤ start + (durations notes).sum) ∧
    (notes ≠ [] → ∃ e ∈ emitFrom T start notes, e.startTime = start + (durations notes).sum) ∧
    (emitFrom T start notes = [] → notes = []) := by
  induction notes generalizing start with
  | nil => simp [emitFrom, durations]
  | cons n rest ih =>
    obtain ⟨p, d⟩ := n
    have hd0 : 0 ≤ d := hd (p, d) (List.mem_cons_self _ _)
    obtain ⟨i0, i1, i2, -⟩ := ih (start + d) (fun n hn => hd n (List.mem_cons_of_mem _ hn))
    have hsum : (durations ((p, d) :: rest)).sum = d + (durations rest).sum := by
      simp [durations]
    rw [hsum]
    refine ⟨by omega, ?_, ?_, ?_⟩
    · intro e he
      simp only [emitFrom, List.mem_cons] at he
      rcases he with rfl | rfl | he
      · simp only
        omega
      · simp only
        omega
      · have := i1 e he
        omega
    · intro _
      by_cases hr : rest = []
      · subst hr
        refine ⟨⟨T, p, start + d, 0, false⟩, by simp [emitFrom], ?_⟩
        simp [durations]
      · obtain ⟨e, he, het⟩ := i2 hr
        refine ⟨e, by simp [emitFrom, he], ?_⟩
        omega
    · intro h
      simp [emitFrom] at h

/-- A row of another track is no note of track `T`. -/
theorem acceptedNote_other (T : Int) (row : Row) (h : row.track ≠ T) :
    acceptedNote T row = none := by
  simp [acceptedNote, h]

/-- A track is among the accepted tracks exactly when it has a valid note. -/
theorem mem_acceptedTracks (T : Int) (rows : List Row) :
    T ∈ acceptedTracks rows ↔ trackNotes T rows ≠ [] := by
  induction rows with
  | nil => simp [acceptedTracks, trackNotes]
  | cons row rows ih =>
    simp only [acceptedTracks, trackNotes, List.filterMap_cons] at ih ⊢
    by_cases ht : row.track = T
    · subst ht
      cases hacc : acceptedNote row.track row with
      | none => simpa [hacc] using ih
      | some n => simp [hacc]
    · rw [acceptedNote_other T row ht]
      cases hacc : acceptedNote row.track row with
      | none => simpa [hacc] using ih
      | some n =>
        simp only [hacc, Option.map_some', List.mem_cons]
        rw [ih]
        constructor
        · rintro (h | h)
          · exact absurd h.symm ht
          · exact h
        · exact fun h => Or.inr h

/-- The events of a track after the loop and its cursor over the integers, as long as the
cursor stays an `int`. -/
theorem sequenceRows_emitFrom (T : Int) (rows : List Row)
    (h : ∀ k : Nat, k ≤ (trackNotes T rows).length →
      INT_MIN ≤ 0 + ((durations (trackNotes T rows)).take k).sum ∧
      0 + ((durations (trackNotes T rows)).take k).sum ≤ INT_MAX) :
    mapGet (sequenceRows rows).trackEvents T [] = emitFrom T 0 (trackNotes T rows) ∧
    mapGet (sequenceRows rows).trackPositions T 0 = (durations (trackNotes T rows)).sum := by
  obtain ⟨h1, h2⟩ := sequenceRows_sequenceFrom T rows
  obtain ⟨f1, f2⟩ := sequenceFrom_fits T (trackNotes T rows) 0 h
  rw [h1, h2, f1, f2]
  simp

/-- The loop has appended events for a run exactly when the run has notes. -/
theorem sequenceFrom_eq_nil (T start : Int) (notes : List (Int × Int)) :
    sequenceFrom T start notes = [] ↔ notes = [] := by
  cases notes with
  | nil => simp [sequenceFrom]
  | cons n rest =>
    obtain ⟨p, d⟩ := n
    simp [sequenceFrom]

/-- A run of notes has events exactly when it has notes. -/
theorem emitFrom_eq_nil (T start : Int) (notes : List (Int × Int)) :
    emitFrom T start notes = [] ↔ notes = [] := by
  cases notes with
  | nil => simp [emitFrom]
  | cons n rest =>
    obtain ⟨p, d⟩ := n
    simp [emitFrom]

/-! ## The MIDI file -/

/-- C21: every pass of the track loop appends the tag "MTrk", the four length bytes and the
body; the body is the program change 00 C0 00, the events and the end of track 00 FF 2F 00;
its byte count is 7 plus, for each event, the length of its variable-length quantity plus 3;
the four length bytes are the big-endian digits of that count (of its low 32 bits). The whole
output is the header followed by these chunks. -/
theorem track_chunk_layout (file : List Nat) (events : List MidiEvent) (rows : List Row) :
    writeTrack file events
      = file ++ [0x4D, 0x54, 0x72, 0x6B] ++ trackLengthBytes (trackBody events).length
          ++ trackBody events ∧
    trackBody events
      = [0x00, 0xC0, 0x00] ++ writeEvents 0 (sortEvents events) ++ [0x00, 0xFF, 0x2F, 0x00] ∧
    (trackBody events).length
      = 7 + ((deltaTimes 0 (sortEvents events)).map (fun d => (encodeVlq d).length + 3)).sum ∧
    trackLengthBytes (trackBody events).length
      = [(trackBody events).length / 16777216 % 256, (trackBody events).length / 65536 % 256,
         (trackBody events).length / 256 % 256, (trackBody events).length % 256] ∧
    (trackLengthBytes (trackBody events).length).foldl (fun acc b => acc * 256 + b) 0
      = (trackBody events).length % 4294967296 ∧
    convertToMidi rows
      = midiHeader (sequenceRows rows).trackEvents.length
        ++ ((sequenceRows rows).trackEvents.map (fun entry =>
              [0x4D, 0x54, 0x72, 0x6B] ++ trackLengthBytes (trackBody entry.2).length
                ++ trackBody entry.2)).flatten := by
  refine ⟨?_, rfl, ?_, trackLengthBytes_eq _, ?_, ?_⟩
  · rw [writeTrack_eq, trackChunk]
    simp only [List.append_assoc]
  · simp only [trackBody, List.length_append, writeEvents_length, List.length_cons,
      List.length_nil]
    omega
  · rw [trackLengthBytes_eq]
    simp only [List.foldl_cons, List.foldl_nil]
    omega
  · rw [convertToMidi_eq]
    rfl

/-- C22: a track holding one note of pitch 60 and duration 480 is written as the chunk
4D 54 72 6B, 00 00 00 10, 00 C0 00, 00 90 3C 64, 83 60 80 3C 00, 00 FF 2F 00; the length
field 16 counts the program change (3), the two events (4 and 5) and the end of track (4).
The row "C4" of duration 480 gives this chunk after the header. -/
theorem single_note_chunk :
    writeTrack [] [⟨1, 60, 0, 480, true⟩, ⟨1, 60, 480, 0, false⟩]
      = [0x4D, 0x54, 0x72, 0x6B, 0x00, 0x00, 0x00, 0x10, 0x00, 0xC0, 0x00,
         0x00, 0x90, 0x3C, 0x64, 0x83, 0x60, 0x80, 0x3C, 0x00, 0x00, 0xFF, 0x2F, 0x00] ∧
    (trackBody [⟨1, 60, 0, 480, true⟩, ⟨1, 60, 480, 0, false⟩]).length = 3 + 4 + 5 + 4 ∧
    (sequenceRows [⟨1, "C4", 480⟩]).trackEvents
      = [(1, [⟨1, 60, 0, 480, true⟩, ⟨1, 60, 480, 0, false⟩])] ∧
    convertToMidi [⟨1, "C4", 480⟩]
      = [0x4D, 0x54, 0x68, 0x64, 0, 0, 0, 6, 0, 1, 0, 1, 0x04, 0x00,
         0x4D, 0x54, 0x72, 0x6B, 0x00, 0x00, 0x00, 0x10, 0x00, 0xC0, 0x00,
         0x00, 0x90, 0x3C, 0x64, 0x83, 0x60, 0x80, 0x3C, 0x00, 0x00, 0xFF, 0x2F, 0x00] := by
  have hsort : sortEvents [⟨1, 60, 0, 480, true⟩, ⟨1, 60, 480, 0, false⟩]
      = [⟨1, 60, 0, 480, true⟩, ⟨1, 60, 480, 0, false⟩] := by decide
  have hbody : trackBody [⟨1, 60, 0, 480, true⟩, ⟨1, 60, 480, 0, false⟩]
      = [0x00, 0xC0, 0x00, 0x00, 0x90, 0x3C, 0x64, 0x83, 0x60, 0x80, 0x3C, 0x00,
         0x00, 0xFF, 0x2F, 0x00] := by
    have e1 : encodeVlq (wrapInt (0 - 0)) = [0x00] := encodeVlq_zero
    have e2 : encodeVlq (wrapInt (480 - 0)) = [0x83, 0x60] := encodeVlq_480
    have b1 : noteBytes ⟨1, 60, 0, 480, true⟩ = [0x90, 0x3C, 0x64] := by decide
    have b2 : noteBytes ⟨1, 60, 480, 0, false⟩ = [0x80, 0x3C, 0x00] := by decide
    simp only [trackBody, hsort, writeEvents, e1, e2, b1, b2]
    rfl
  have hchunk : trackChunk [⟨1, 60, 0, 480, true⟩, ⟨1, 60, 480, 0, false⟩]
      = [0x4D, 0x54, 0x72, 0x6B, 0x00, 0x00, 0x00, 0x10, 0x00, 0xC0, 0x00,
         0x00, 0x90, 0x3C, 0x64, 0x83, 0x60, 0x80, 0x3C, 0x00, 0x00, 0xFF, 0x2F, 0x00] := by
    rw [trackChunk, hbody]
    decide
  have hseq : (sequenceRows [⟨1, "C4", 480⟩]).trackEvents
      = [(1, [⟨1, 60, 0, 480, true⟩, ⟨1, 60, 480, 0, false⟩])] := by decide
  refine ⟨?_, ?_, hseq, ?_⟩
  · rw [writeTrack_eq, hchunk]
    rfl
  · rw [hbody]
    rfl
  · rw [convertToMidi_eq, hseq]
    simp only [List.map_cons, List.map_nil, hchunk]
    decide

/-- C23: the output starts with the 14 bytes 4D 54 68 64, 00 00 00 06, 00 01, two count
bytes, 04 00; the count bytes are the big-endian digits of the number of entries of
`trackEvents` (of its low 16 bits), and that number is the number of distinct tracks among the
accepted rows, each of which has events. -/
theorem header_bytes (rows : List Row) :
    (convertToMidi rows).take 14
      = [0x4D, 0x54, 0x68, 0x64, 0, 0, 0, 6, 0, 1,
         (acceptedTracks rows).dedup.length / 256 % 256,
         (acceptedTracks rows).dedup.length % 256, 0x04, 0x00] ∧
    ((acceptedTracks rows).dedup.length / 256 % 256) * 256
        + (acceptedTracks rows).dedup.length % 256
      = (acceptedTracks rows).dedup.length % 65536 ∧
    (sequenceRows rows).trackEvents.length = (acceptedTracks rows).dedup.length ∧
    (∀ T : Int, T ∈ (acceptedTracks rows).dedup
      ↔ T ∈ ((sequenceRows rows).trackEvents).map Prod.fst) ∧
    (∀ T : Int, T ∈ (acceptedTracks rows).dedup
      ↔ mapGet (sequenceRows rows).trackEvents T [] ≠ []) := by
  have hkeys := sequenceRows_keys rows
  refine ⟨?_, by omega, sequenceRows_numTracks rows, fun T => ?_, fun T => ?_⟩
  · rw [convertToMidi_eq, sequenceRows_numTracks, midiHeader_eq]
    rfl
  · rw [List.mem_dedup, hkeys.2 T]
  · rw [List.mem_dedup, (sequenceRows_sequenceFrom T rows).1, mem_acceptedTracks, ne_eq, ne_eq,
      sequenceFrom_eq_nil]

/-- C24: the events written in a track chunk are the events sequenced for the track, sorted:
a permutation of them in which start times never decrease and in which, at equal start
times, no note-on precedes a note-off. -/
theorem events_sorted (events : List MidiEvent) :
    (sortEvents events).Perm events ∧
    (sortEvents events).Pairwise (fun a b => a.startTime ≤ b.startTime) ∧
    (sortEvents events).Pairwise
      (fun a b => ¬ (a.startTime = b.startTime ∧ a.isNoteOn = true ∧ b.isNoteOn = false)) ∧
    trackBody events
      = [0x00, 0xC0, 0x00] ++ writeEvents 0 (sortEvents events) ++ [0x00, 0xFF, 0x2F, 0x00] ∧
    writeEvents 0 (sortEvents events)
      = ((deltaTimes 0 (sortEvents events)).zip (sortEvents events)).flatMap
          (fun p => encodeVlq p.1 ++ noteBytes p.2) := by
  obtain ⟨hp, hs⟩ := sortEvents_spec events
  refine ⟨hp, ?_, ?_, rfl, writeEvents_eq _ _⟩
  · exact hs.imp (fun {a b} h => ((eventLess_false_iff a b).mp h).1)
  · refine hs.imp (fun {a b} h => ?_)
    rintro ⟨he, ha, hb⟩
    have := ((eventLess_false_iff a b).mp h).2 he ha
    rw [hb] at this
    cases this

/-- C25 where it holds, and the input where it fails: for a track whose rows all have a
non-negative duration and whose durations sum to at most `INT_MAX`, the delta times written
are the differences of consecutive start times of the sorted events (the first against 0),
none is negative, and their sum is the final cursor of the track, the sum of its durations.
Two notes of duration 2000000000 take the cursor out of the range of `int`: the second
note-off is sequenced at -294967296 and sorted first, the delta times are -294967296,
294967296, 2000000000, 0, the first is negative and written as no byte at all, and their sum
is neither the cursor nor the sum of the durations. -/
theorem delta_times (T : Int) (rows : List Row)
    (h : ∀ row ∈ rows, row.track = T → 0 ≤ row.duration)
    (hfit : (durations (trackNotes T rows)).sum ≤ INT_MAX) :
    deltaTimes 0 (sortEvents (mapGet (sequenceRows rows).trackEvents T []))
      = List.zipWith (fun event previous => event.startTime - previous)
          (sortEvents (mapGet (sequenceRows rows).trackEvents T []))
          (0 :: (sortEvents (mapGet (sequenceRows rows).trackEvents T [])).map
            (fun e => e.startTime)) ∧
    (∀ d ∈ deltaTimes 0 (sortEvents (mapGet (sequenceRows rows).trackEvents T [])), 0 ≤ d) ∧
    (deltaTimes 0 (sortEvents (mapGet (sequenceRows rows).trackEvents T []))).sum
      = mapGet (sequenceRows rows).trackPositions T 0 ∧
    mapGet (sequenceRows rows).trackPositions T 0 = (durations (trackNotes T rows)).sum ∧
    deltaTimes 0 (sortEvents (mapGet
        (sequenceRows [⟨1, "C4", 2000000000⟩, ⟨1, "D4", 2000000000⟩]).trackEvents 1 []))
      = [-294967296, 294967296, 2000000000, 0] ∧
    mapGet (sequenceRows [⟨1, "C4", 2000000000⟩, ⟨1, "D4", 2000000000⟩]).trackPositions 1 0
      = -294967296 ∧
    encodeVlq (-294967296) = [] := by
  have hd : ∀ n ∈ trackNotes T rows, 0 ≤ n.2 := by
    intro n hn
    simp only [trackNotes, List.mem_filterMap] at hn
    obtain ⟨row, hrow, hacc⟩ := hn
    by_cases ht : row.track = T
    · simp only [acceptedNote] at hacc
      split at hacc
      · split at hacc
        · cases hacc
          exact h row hrow ht
        · cases hacc
      · cases hacc
    · rw [acceptedNote_other T row ht] at hacc
      cases hacc
  obtain ⟨hev, hpos⟩ := sequenceRows_emitFrom T rows (nonneg_fits (trackNotes T rows) hd hfit)
  obtain ⟨t0, t1, t2, t3⟩ := emitFrom_ticks T (trackNotes T rows) 0 hd
  obtain ⟨hp, hs⟩ := sortEvents_spec (emitFrom T 0 (trackNotes T rows))
  have hs2 : (sortEvents (emitFrom T 0 (trackNotes T rows))).Pairwise
      (fun a b => a.startTime ≤ b.startTime) :=
    hs.imp (fun {a b} h => ((eventLess_false_iff a b).mp h).1)
  have hmain := deltaTimes_sorted (sortEvents (emitFrom T 0 (trackNotes T rows))) 0
    ((durations (trackNotes T rows)).sum) hs2
    (fun e he => by
      have := t1 e (hp.mem_iff.mp he)
      omega)
    (fun hne => by
      have hne2 : trackNotes T rows ≠ [] := by
        intro hnil
        apply hne
        rw [hnil]
        rfl
      obtain ⟨e, he, het⟩ := t2 hne2
      exact ⟨e, hp.mem_iff.mpr he, by omega⟩)
    (fun hnil => by
      have hemp : emitFrom T 0 (trackNotes T rows) = [] := by
        have := hp.length_eq
        rw [hnil] at this
        exact List.length_eq_zero.mp this.symm
      rw [t3 hemp]
      rfl)
    (by simpa using hfit)
  rw [hev, hpos]
  refine ⟨hmain.2.2, hmain.2.1, ?_, rfl, by decide, by decide,
    encodeVlq_neg _ (by decide)⟩
  rw [hmain.1]
  omega

/-- Witness for C25: two notes on track 1 around a row of track 2. -/
theorem delta_times_witness :
    (∀ row ∈ ([⟨1, "C4", 100⟩, ⟨2, "D4", 7⟩, ⟨1, "E4", 50⟩] : List Row),
      row.track = 1 → 0 ≤ row.duration) ∧
    (durations (trackNotes 1 [⟨1, "C4", 100⟩, ⟨2, "D4", 7⟩, ⟨1, "E4", 50⟩])).sum ≤ INT_MAX ∧
    (deltaTimes 0 (sortEvents (mapGet
      (sequenceRows [⟨1, "C4", 100⟩, ⟨2, "D4", 7⟩, ⟨1, "E4", 50⟩]).trackEvents 1 []))).sum
      = mapGet (sequenceRows [⟨1, "C4", 100⟩, ⟨2, "D4", 7⟩, ⟨1, "E4", 50⟩]).trackPositions 1 0 :=
  ⟨by decide, by decide, (delta_times 1 _ (by decide) (by decide)).2.2.1⟩

/-- C26: each event is written as its delta time, the `int` difference of its start time and
the start time before, followed by exactly three bytes: 90, the pitch byte, 64 for a note-on
and 80, the pitch byte, 00 for a note-off; the low four bits of the status byte, the channel,
are 0. -/
theorem note_event_bytes (lastTime : Int) (event : MidiEvent) (rest : List MidiEvent)
    (track noteNumber startTime duration : Int) :
    writeEvents lastTime (event :: rest)
      = encodeVlq (wrapInt (event.startTime - lastTime)) ++ noteBytes event
          ++ writeEvents event.startTime rest ∧
    (INT_MIN ≤ event.startTime - lastTime → event.startTime - lastTime ≤ INT_MAX →
      wrapInt (event.startTime - lastTime) = event.startTime - lastTime) ∧
    (noteBytes event).length = 3 ∧
    noteBytes event
      = [if event.isNoteOn then 0x90 else 0x80, toByte event.noteNumber,
         if event.isNoteOn then 0x64 else 0x00] ∧
    noteBytes ⟨track, noteNumber, startTime, duration, true⟩ = [0x90, toByte noteNumber, 0x64] ∧
    noteBytes ⟨track, noteNumber, startTime, duration, false⟩ = [0x80, toByte noteNumber, 0x00] ∧
    (0x90 % 16 = 0 ∧ 0x80 % 16 = 0) := by
  refine ⟨rfl, wrapInt_of_fits _, noteBytes_length event, ?_, rfl, rfl, by decide⟩
  unfold noteBytes
  split <;> rfl

/-- C27: the chunks are written in the order of the entries of `trackEvents`, whose keys are
strictly ascending (so each track has one chunk) and are exactly the tracks of the accepted
rows; rearranging the rows changes neither the keys nor their order. -/
theorem tracks_ascending (rows rows2 : List Row) (h : rows.Perm rows2) :
    (((sequenceRows rows).trackEvents).map Prod.fst).Sorted (· < ·) ∧
    (((sequenceRows rows).trackEvents).map Prod.fst).Nodup ∧
    (∀ T : Int, T ∈ ((sequenceRows rows).trackEvents).map Prod.fst ↔ T ∈ acceptedTracks rows) ∧
    ((sequenceRows rows2).trackEvents).map Prod.fst
      = ((sequenceRows rows).trackEvents).map Prod.fst ∧
    convertToMidi rows
      = midiHeader (sequenceRows rows).trackEvents.length
        ++ ((sequenceRows rows).trackEvents.map (fun entry => trackChunk entry.2)).flatten := by
  obtain ⟨h1, h2⟩ := sequenceRows_keys rows
  obtain ⟨k1, k2⟩ := sequenceRows_keys rows2
  refine ⟨h1, h1.nodup, h2, ?_, convertToMidi_eq rows⟩
  have hacc : (acceptedTracks rows).Perm (acceptedTracks rows2) := by
    unfold acceptedTracks
    exact h.filterMap _
  have hperm : (((sequenceRows rows2).trackEvents).map Prod.fst).Perm
      (((sequenceRows rows).trackEvents).map Prod.fst) :=
    (List.perm_ext_iff_of_nodup k1.nodup h1.nodup).mpr
      (fun T => by rw [k2 T, h2 T, hacc.mem_iff])
  exact List.eq_of_perm_of_sorted hperm k1 h1

/-- Witness for C27: tracks 3, 1, 2 in file order, and the same rows in another order. -/
theorem tracks_ascending_witness :
    ([⟨3, "C4", 100⟩, ⟨1, "D4", 7⟩, ⟨2, "E4", 50⟩] : List Row).Perm
      [⟨2, "E4", 50⟩, ⟨3, "C4", 100⟩, ⟨1, "D4", 7⟩] ∧
    ((sequenceRows [⟨3, "C4", 100⟩, ⟨1, "D4", 7⟩, ⟨2, "E4", 50⟩]).trackEvents).map Prod.fst
      = [1, 2, 3] ∧
    ((sequenceRows [⟨2, "E4", 50⟩, ⟨3, "C4", 100⟩, ⟨1, "D4", 7⟩]).trackEvents).map Prod.fst
      = ((sequenceRows [⟨3, "C4", 100⟩, ⟨1, "D4", 7⟩, ⟨2, "E4", 50⟩]).trackEvents).map
          Prod.fst :=
  ⟨by decide, by decide, (tracks_ascending _ _ (by decide)).2.2.2.1⟩

/-- C28: the pitch byte of an event is its note number modulo 256, whatever the number is;
the note number 128, which `getNoteNumber` returns for "G#9", is written as the byte 80. -/
theorem pitch_byte_truncated (event : MidiEvent) :
    (noteBytes event)[1]? = some ((event.noteNumber % 256).toNat) ∧
    toByte event.noteNumber < 256 ∧
    getNoteNumber "G#9" = .ok 128 ∧ toByte 128 = 0x80 ∧
    toByte 300 = 44 ∧ toByte (-1) = 255 ∧
    (sequenceRows [⟨1, "G#9", 480⟩]).trackEvents
      = [(1, [⟨1, 128, 0, 480, true⟩, ⟨1, 128, 480, 0, false⟩])] ∧
    noteBytes ⟨1, 128, 0, 480, true⟩ = [0x90, 0x80, 0x64] ∧
    noteBytes ⟨1, 128, 480, 0, false⟩ = [0x80, 0x80, 0x00] := by
  refine ⟨?_, ?_, by decide, by decide, by decide, by decide, by decide, by decide, by decide⟩
  · unfold noteBytes
    split <;> rfl
  · unfold toByte
    omega

/-! ## Failures -/

/-- C29, evaluated: when the transformation of an eligible, selected note fails, `processFile`
appends the failure to the status message and writes no row at all for the note: for the
name "Db4" (rejected by `getNoteNumber`), for the duration 0 and for an unknown variant the
report receives nothing, whereas the same line, when not selected, is written unchanged with
the mark ORIGINAL. -/
theorem failed_note_not_written :
    processLine 1 "Db4" 480 "SAN" true "STTM2m"
      = ⟨[], [TransformError.note (NoteError.invalidNoteName "Db4")]⟩ ∧
    processLine 1 "C4" 0 "SAN" true "STTM2m"
      = ⟨[], [TransformError.slide SlideError.invalidDuration]⟩ ∧
    processLine 1 "C4" 480 "SAN" true "no such variant"
      = ⟨[], [TransformError.slide (SlideError.unknownVariant "no such variant")]⟩ ∧
    processLine 1 "Db4" 480 "SAN" false "STTM2m"
      = ⟨[⟨1, "Db4", 480, "SAN", "ORIGINAL"⟩], []⟩ ∧
    processLine 1 "Db4" 480 "other" true "STTM2m"
      = ⟨[⟨1, "Db4", 480, "other", ""⟩], []⟩ ∧
    processLine 1 "C4" 480 "SAN" true "STTM2m"
      = ⟨[⟨1, "A3", 120, "SAN", "STTM2m"⟩, ⟨1, "B3", 120, "SAN", "STTM2m"⟩,
          ⟨1, "C4", 240, "SAN", "STTM2m"⟩], []⟩ := by
  refine ⟨?_, ?_, ?_, ?_, ?_, ?_⟩
  · decide
  · decide
  · decide
  · decide
  · decide
  · decide

/-- C30: a row whose note name `getNoteNumber` rejects leaves both maps of the sequencing loop
as they are, so the input with the row and the input without it end in the same maps and in
the same output bytes. -/
theorem rejected_row_skipped (row : Row) (e : NoteError)
    (h : getNoteNumber row.noteName = .error e) :
    (∀ st : SeqState, sequenceRow st row = st) ∧
    (∀ before after : List Row,
      sequenceRows (before ++ row :: after) = sequenceRows (before ++ after) ∧
      convertToMidi (before ++ row :: after) = convertToMidi (before ++ after)) := by
  have hstep : ∀ st : SeqState, sequenceRow st row = st := by
    intro st
    unfold sequenceRow
    split
    · rfl
    · rw [h]
  have hrows : ∀ before after : List Row,
      sequenceRows (before ++ row :: after) = sequenceRows (before ++ after) := by
    intro before after
    simp only [sequenceRows, List.foldl_append, List.foldl_cons, hstep]
  refine ⟨hstep, fun before after => ⟨hrows before after, ?_⟩⟩
  simp only [convertToMidi, hrows]

/-- Witness for C30: the flat spelling "Db4" between two valid rows. -/
theorem rejected_row_skipped_witness :
    getNoteNumber "Db4" = .error (NoteError.invalidNoteName "Db4") ∧
    sequenceRows ([⟨1, "C4", 100⟩] ++ ⟨1, "Db4", 50⟩ :: [⟨1, "E4", 200⟩])
      = sequenceRows ([⟨1, "C4", 100⟩] ++ [⟨1, "E4", 200⟩]) ∧
    convertToMidi ([⟨1, "C4", 100⟩] ++ ⟨1, "Db4", 50⟩ :: [⟨1, "E4", 200⟩])
      = convertToMidi ([⟨1, "C4", 100⟩] ++ [⟨1, "E4", 200⟩]) :=
  ⟨by decide,
    (rejected_row_skipped ⟨1, "Db4", 50⟩ (NoteError.invalidNoteName "Db4") (by decide)).2
      [⟨1, "C4", 100⟩] [⟨1, "E4", 200⟩]⟩

/-! ## Shared lemmas: the pool of variants -/

set_option maxRecDepth 1000000 in
/-- The names of the pool catalog are the names the branch chain tests, in the same order. -/
theorem allVariants_names : allVariants.map (fun v => v.name) = catalogNames := by
  decide

set_option maxRecDepth 1000000 in
set_option maxHeartbeats 4000000 in
/-- Entry by entry, the offsets stated by the description are the offsets of the branch with
the same name. -/
theorem described_table :
    allVariants.map (fun v => (v.name, describedOffsets v.description))
      = branchTable.map (fun b => (b.name, some b.offsets)) := by
  decide

/-- The tested names are 74 and pairwise distinct. -/
theorem catalogNames_nodup : catalogNames.length = 74 ∧ catalogNames.Nodup := by
  decide

/-- Every offset of the table lies between -6 and 6. -/
theorem branch_offsets_bound : ∀ b ∈ branchTable, ∀ o ∈ b.offsets, -6 ≤ o ∧ o ≤ 6 := by
  decide

/-- The name of a pool entry is a tested name. -/
theorem allVariants_name_mem (v : SlideVariant) (hv : v ∈ allVariants) :
    v.name ∈ catalogNames := by
  rw [← allVariants_names]
  exact List.mem_map_of_mem _ hv

/-- A successful call: the duration is positive and the name is a tested name. -/
theorem applySlideVariants_ok (pi durPi : Int) (meter : TimeMeter) (variant : String)
    (notes : List (Int × Int)) (h : applySlideVariants pi durPi meter variant = .ok notes) :
    0 < durPi ∧ variant ∈ catalogNames := by
  have hD : 0 < durPi := by
    by_contra hn
    have hle : durPi ≤ 0 := by omega
    unfold applySlideVariants at h
    rw [if_pos hle] at h
    cases h
  refine ⟨hD, ?_⟩
  by_contra hv
  rw [applySlideVariants_unknown pi durPi meter variant hD hv] at h
  cases h

/-! ## The pool of variants -/

/-- C31: with the shuffled vector any permutation of the catalog,
`generateRandomSlideVariantPool` returns `min(n, 74)` variants for `n ≥ 0` and none for
`n < 0`; their names are pairwise distinct and each is an entry of the 74-entry catalog. -/
theorem pool_size_distinct (shuffledVariants : List SlideVariant) (poolSize : Int)
    (h : shuffledVariants.Perm allVariants) :
    ((generateRandomSlideVariantPool shuffledVariants poolSize).length : Int)
      = max 0 (min poolSize 74) ∧
    (0 ≤ poolSize →
      ((generateRandomSlideVariantPool shuffledVariants poolSize).length : Int)
        = min poolSize 74) ∧
    (poolSize < 0 → generateRandomSlideVariantPool shuffledVariants poolSize = []) ∧
    ((generateRandomSlideVariantPool shuffledVariants poolSize).map (fun v => v.name)).Nodup ∧
    (∀ v ∈ generateRandomSlideVariantPool shuffledVariants poolSize, v ∈ allVariants) ∧
    allVariants.length = 74 := by
  have hall : allVariants.length = 74 := by decide
  have hlen : shuffledVariants.length = 74 := by rw [h.length_eq, hall]
  have hpl : (generateRandomSlideVariantPool shuffledVariants poolSize).length
      = min (min poolSize 74).toNat 74 := by
    simp [generateRandomSlideVariantPool, hlen]
  refine ⟨?_, ?_, ?_, ?_, ?_, hall⟩
  · rw [hpl]
    omega
  · intro h0
    rw [hpl]
    omega
  · intro hneg
    apply List.eq_nil_of_length_eq_zero
    rw [hpl]
    omega
  · have hnd : (shuffledVariants.map (fun v => v.name)).Nodup := by
      have hp : (shuffledVariants.map (fun v => v.name)).Perm catalogNames := by
        rw [← allVariants_names]
        exact h.map _
      exact hp.nodup_iff.mpr catalogNames_nodup.2
    exact hnd.sublist ((List.take_sublist _ _).map _)
  · intro v hv
    exact h.mem_iff.mp (List.mem_of_mem_take hv)

/-- Witness for C31: the catalog reversed as the shuffled vector, pool size 10. -/
theorem pool_size_distinct_witness :
    allVariants.reverse.Perm allVariants ∧
    ((generateRandomSlideVariantPool allVariants.reverse 10).length : Int) = max 0 (min 10 74) ∧
    ((generateRandomSlideVariantPool allVariants.reverse 10).map (fun v => v.name)).Nodup :=
  ⟨List.reverse_perm _, (pool_size_distinct allVariants.reverse 10 (List.reverse_perm _)).1,
    (pool_size_distinct allVariants.reverse 10 (List.reverse_perm _)).2.2.2.1⟩

/-- C33: the names of the pool catalog and the names tested by `applySlideVariants` are the
same 74 pairwise distinct names: for a positive duration every pool entry is accepted, a
variant of a pool is never answered with the unknown-variant error, and every accepted name
is the name of a pool entry. -/
theorem pool_catalog_is_chain_catalog (pi durPi : Int) (meter : TimeMeter) (hD : 0 < durPi) :
    allVariants.map (fun v => v.name) = catalogNames ∧
    catalogNames.length = 74 ∧ catalogNames.Nodup ∧
    (∀ v ∈ allVariants, ∃ notes, applySlideVariants pi durPi meter v.name = .ok notes) ∧
    (∀ (shuffledVariants : List SlideVariant) (poolSize : Int),
      shuffledVariants.Perm allVariants →
      ∀ v ∈ generateRandomSlideVariantPool shuffledVariants poolSize,
        applySlideVariants pi durPi meter v.name ≠ .error (SlideError.unknownVariant v.name)) ∧
    (∀ (variant : String) (notes : List (Int × Int)),
      applySlideVariants pi durPi meter variant = .ok notes →
      ∃ v ∈ allVariants, v.name = variant) := by
  have hacc : ∀ v ∈ allVariants, ∃ notes, applySlideVariants pi durPi meter v.name = .ok notes := by
    intro v hv
    obtain ⟨b, hb, hname⟩ := catalog_row v.name (allVariants_name_mem v hv)
    obtain ⟨ds, -, -, -, hok⟩ := run_form b hb durPi meter hD
    obtain ⟨notes, hn, -⟩ := hok pi
    exact ⟨notes, by rw [← hname]; exact hn⟩
  refine ⟨allVariants_names, catalogNames_nodup.1, catalogNames_nodup.2, hacc, ?_, ?_⟩
  · intro shuffledVariants poolSize hp v hv herr
    obtain ⟨notes, hn⟩ := hacc v (hp.mem_iff.mp (List.mem_of_mem_take hv))
    rw [hn] at herr
    cases herr
  · intro variant notes hok
    have hmem := (applySlideVariants_ok pi durPi meter variant notes hok).2
    rw [← allVariants_names, List.mem_map] at hmem
    exact hmem

/-- Witness for C33 at pitch 60, duration 480, duple meter. -/
theorem pool_catalog_is_chain_catalog_witness :
    (0 : Int) < 480 ∧
    ∀ v ∈ allVariants, ∃ notes, applySlideVariants 60 480 TimeMeter.DUPLE v.name = .ok notes :=
  ⟨by decide, (pool_catalog_is_chain_catalog 60 480 TimeMeter.DUPLE (by decide)).2.2.2.1⟩

/-- C39: for every entry of the pool catalog the description states the offsets that
`applySlideVariants` uses: reading "starts X below (above) principal" as minus (plus) the
semitones of X and each "then up (down) a Y" as plus (minus) the semitones of Y from the
ornament before, the pitches returned are the principal pitch plus the offsets read, then the
principal pitch. For STTM2m the offsets read are -3, -1. -/
theorem descriptions_match_offsets (pi durPi : Int) (meter : TimeMeter) (hD : 0 < durPi) :
    (∀ v ∈ allVariants, ∃ (offsets : List Int) (notes : List (Int × Int)),
      describedOffsets v.description = some offsets ∧
      applySlideVariants pi durPi meter v.name = .ok notes ∧
      pitches notes = offsets.map (fun o => pi + o) ++ [pi]) ∧
    describedOffsets
        "Slide note start m3 below principal note, then up a M2, and then resolve"
      = some [-3, -1] ∧
    (∃ notes, applySlideVariants pi durPi meter "STTM2m" = .ok notes ∧
      pitches notes = [pi + -3, pi + -1, pi]) ∧
    intervalSemitones "m2" = some 1 ∧ intervalSemitones "M2" = some 2 ∧
    intervalSemitones "m3" = some 3 ∧ intervalSemitones "M3" = some 4 ∧
    intervalSemitones "P4" = some 5 ∧ intervalSemitones "A4" = some 6 := by
  have key : ∀ v ∈ allVariants, ∃ (offsets : List Int) (notes : List (Int × Int)),
      describedOffsets v.description = some offsets ∧
      applySlideVariants pi durPi meter v.name = .ok notes ∧
      pitches notes = offsets.map (fun o => pi + o) ++ [pi] := by
    intro v hv
    have hm : (v.name, describedOffsets v.description)
        ∈ branchTable.map (fun b => (b.name, some b.offsets)) := by
      rw [← described_table]
      exact List.mem_map_of_mem (fun v => (v.name, describedOffsets v.description)) hv
    obtain ⟨b, hb, hbv⟩ := List.mem_map.mp hm
    obtain ⟨hname, hoff⟩ := Prod.mk.inj hbv
    obtain ⟨ds, -, -, -, hok⟩ := run_form b hb durPi meter hD
    obtain ⟨notes, hn, -, hp, -, -⟩ := hok pi
    exact ⟨b.offsets, notes, hoff.symm, by rw [← hname]; exact hn, hp⟩
  refine ⟨key, by decide, ?_, by decide, by decide, by decide, by decide, by decide, by decide⟩
  obtain ⟨offsets, notes, ho, hn, hp⟩ := key ⟨"STTM2m",
    "Slide note start m3 below principal note, then up a M2, and then resolve"⟩ (by decide)
  have ho2 : describedOffsets
      "Slide note start m3 below principal note, then up a M2, and then resolve"
      = some [-3, -1] := by decide
  simp only at ho hn
  rw [ho2] at ho
  obtain rfl := Option.some.inj ho
  exact ⟨notes, hn, hp⟩

/-- Witness for C39 at pitch 60, duration 480, triple meter. -/
theorem descriptions_match_offsets_witness :
    (0 : Int) < 480 ∧
    ∀ v ∈ allVariants, ∃ (offsets : List Int) (notes : List (Int × Int)),
      describedOffsets v.description = some offsets ∧
      applySlideVariants 60 480 TimeMeter.TRIPLE v.name = .ok notes ∧
      pitches notes = offsets.map (fun o => 60 + o) ++ [60] :=
  ⟨by decide, (descriptions_match_offsets 60 480 TimeMeter.TRIPLE (by decide)).1⟩

/-! ## Bounds on the result -/

/-- C34: over the integers, that is whenever the product `durPi * 3` that the dotted names
form in duple meter is an `int`, for every tested name, either meter and every positive
duration, the durations returned by `applySlideVariants` sum to at most `durPi` and to at
least `durPi - 3`. -/
theorem durations_sum_bounds (pi durPi : Int) (meter : TimeMeter) (hD : 0 < durPi) :
    ∀ v ∈ catalogNames,
      (v ∈ dottedVariants → meter = TimeMeter.DUPLE → durPi * 3 ≤ INT_MAX) →
      ∃ notes : List (Int × Int),
        applySlideVariants pi durPi meter v = .ok notes ∧
        (durations notes).sum ≤ durPi ∧ durPi - 3 ≤ (durations notes).sum := by
  intro v hv hfit
  obtain ⟨b, hb, rfl⟩ := catalog_row v hv
  obtain ⟨ds, -, hdur, -, hok⟩ := run_form b hb durPi meter hD
  obtain ⟨notes, hn, -, -, hd, -⟩ := hok pi
  obtain ⟨-, -, hlow, hhigh⟩ := hdur (fun hr => hfit (dotted_routine_rows b hb hr))
  exact ⟨notes, hn, by rw [hd]; exact hhigh, by rw [hd]; exact hlow⟩

/-- Witness for C34 at pitch 60, duration 7, duple meter. -/
theorem durations_sum_bounds_witness :
    (0 : Int) < 7 ∧ (7 : Int) * 3 ≤ INT_MAX ∧
    ∀ v ∈ catalogNames, ∃ notes : List (Int × Int),
      applySlideVariants 60 7 TimeMeter.DUPLE v = .ok notes ∧
      (durations notes).sum ≤ 7 ∧ 7 - 3 ≤ (durations notes).sum :=
  ⟨by decide, by decide, fun v hv =>
    durations_sum_bounds 60 7 TimeMeter.DUPLE (by decide) v hv (fun _ _ => by decide)⟩

/-- C37 at the input where it fails, and where it holds: in duple meter the dotted variant
DSTTM2m with the duration 1000000000, which is at least 12, returns a first duration of
-161870912, because the product 3000000000 does not fit an `int`. For every tested name,
either meter and every duration from 12 on, every returned duration is strictly positive as
long as the product is an `int`, which only the dotted names in duple meter require; with
duration 11 the variant TTSd3M2m2M, whose routine divides by 12 in triple meter, returns
ornaments of duration 0. -/
theorem durations_positive (pi durPi : Int) (meter : TimeMeter) (hD : 12 ≤ durPi) :
    applySlideVariants 60 1000000000 TimeMeter.DUPLE "DSTTM2m"
      = .ok [(57, -161870912), (59, 125000000), (60, 500000000)] ∧
    (∀ v ∈ catalogNames,
      (v ∈ dottedVariants → meter = TimeMeter.DUPLE → durPi * 3 ≤ INT_MAX) →
      ∃ notes : List (Int × Int),
        applySlideVariants pi durPi meter v = .ok notes ∧ ∀ d ∈ durations notes, 0 < d) ∧
    applySlideVariants 60 11 TimeMeter.TRIPLE "TTSd3M2m2M"
      = .ok [(55, 0), (57, 0), (58, 0), (60, 11)] := by
  refine ⟨by decide, fun v hv hfit => ?_, by decide⟩
  obtain ⟨b, hb, rfl⟩ := catalog_row v hv
  obtain ⟨ds, -, hdur, -, hok⟩ := run_form b hb durPi meter (by omega)
  obtain ⟨notes, hn, -, -, hd, -⟩ := hok pi
  have hpos := (hdur (fun hr => hfit (dotted_routine_rows b hb hr))).2.1
  exact ⟨notes, hn, by rw [hd]; exact hpos hD⟩

/-- Witness for C37 at pitch 60, duration 13, duple meter. -/
theorem durations_positive_witness :
    (12 : Int) ≤ 13 ∧ (13 : Int) * 3 ≤ INT_MAX ∧
    ∀ v ∈ catalogNames, ∃ notes : List (Int × Int),
      applySlideVariants 60 13 TimeMeter.DUPLE v = .ok notes ∧ ∀ d ∈ durations notes, 0 < d :=
  ⟨by decide, by decide, fun v hv =>
    (durations_positive 60 13 TimeMeter.DUPLE (by decide)).2.1 v hv (fun _ _ => by decide)⟩

/-- C40: for every tested name, either meter, every principal pitch and every positive
duration, each pitch returned by `applySlideVariants` is at most 6 semitones away from the
principal pitch; every ornament offset of the table lies between -6 and 6. -/
theorem pitches_within_six (pi durPi : Int) (meter : TimeMeter) (hD : 0 < durPi) :
    (∀ v ∈ catalogNames, ∃ notes : List (Int × Int),
      applySlideVariants pi durPi meter v = .ok notes ∧
      ∀ q ∈ pitches notes, pi - 6 ≤ q ∧ q ≤ pi + 6) ∧
    (∀ b ∈ branchTable, ∀ o ∈ b.offsets, -6 ≤ o ∧ o ≤ 6) := by
  refine ⟨fun v hv => ?_, branch_offsets_bound⟩
  obtain ⟨b, hb, rfl⟩ := catalog_row v hv
  obtain ⟨ds, -, -, -, hok⟩ := run_form b hb durPi meter hD
  obtain ⟨notes, hn, -, hp, -, -⟩ := hok pi
  refine ⟨notes, hn, fun q hq => ?_⟩
  rw [hp, List.mem_append, List.mem_map, List.mem_singleton] at hq
  rcases hq with ⟨o, ho, rfl⟩ | rfl
  · have := branch_offsets_bound b hb o ho
    omega
  · omega

/-- Witness for C40 at pitch 60, duration 480, duple meter. -/
theorem pitches_within_six_witness :
    (0 : Int) < 480 ∧
    ∀ v ∈ catalogNames, ∃ notes : List (Int × Int),
      applySlideVariants 60 480 TimeMeter.DUPLE v = .ok notes ∧
      ∀ q ∈ pitches notes, 60 - 6 ≤ q ∧ q ≤ 60 + 6 :=
  ⟨by decide, (pitches_within_six 60 480 TimeMeter.DUPLE (by decide)).1⟩

/-- Rendering succeeds on every note number from 0 on. -/
theorem getNoteName_isSome (q : Int) (hq : 0 ≤ q) : (getNoteName q).isSome = true := by
  have hmod : q.tmod 12 = q % 12 := Int.tmod_eq_emod hq (by norm_num)
  have hlt : (q % 12).toNat < noteNames.length := by
    have : noteNames.length = 12 := by decide
    omega
  have hnn : ¬ q % 12 < 0 := by omega
  simp only [getNoteName, hmod, hnn, if_false, List.getElem?_eq_getElem hlt, Option.map_some',
    Option.isSome_some]

/-- Mapping a function that never throws over a list does not throw. -/
theorem mapM_ok {α β ε : Type} (f : α → Except ε β) (l : List α)
    (h : ∀ x ∈ l, ∃ r, f x = .ok r) : ∃ rs, l.mapM f = .ok rs := by
  induction l with
  | nil => exact ⟨[], rfl⟩
  | cons x xs ih =>
    obtain ⟨r, hr⟩ := h x (List.mem_cons_self _ _)
    obtain ⟨rs, hrs⟩ := ih (fun y hy => h y (List.mem_cons_of_mem _ hy))
    refine ⟨r :: rs, ?_⟩
    rw [List.mapM_cons, hr, hrs]
    rfl

/-- C36: every note name that `getNoteNumber` accepts maps to a pitch from 12 to 131 and every
ornament offset lies between -6 and 6, so every pitch that `processFile` hands to
`getNoteName` lies between 6 and 137: its table index is between 0 and 11, the name is
defined, and the transformation step never ends in an index outside the table. -/
theorem getNoteName_argument_range (noteName : String) (n : Int)
    (h : getNoteNumber noteName = .ok n) :
    (12 ≤ n ∧ n ≤ 131) ∧
    (∀ (duration : Int) (variant : String) (notes : List (Int × Int)),
      applySlideVariants n duration TimeMeter.DUPLE variant = .ok notes →
      ∀ q ∈ pitches notes, 6 ≤ q ∧ q ≤ 137 ∧ 0 ≤ q.tmod 12 ∧ q.tmod 12 < 12 ∧
        (getNoteName q).isSome = true) ∧
    (∀ (track duration : Int) (variant : String),
      transformNote track noteName duration variant ≠ .error TransformError.tableIndex) := by
  have hn : 12 ≤ n ∧ n ≤ 131 := by
    obtain ⟨i, d, entry, -, -, rfl⟩ := getNoteNumber_ok noteName n h
    have hi := i.isLt
    have hd := d.isLt
    omega
  have hpit : ∀ (duration : Int) (variant : String) (notes : List (Int × Int)),
      applySlideVariants n duration TimeMeter.DUPLE variant = .ok notes →
      ∀ q ∈ pitches notes, 6 ≤ q ∧ q ≤ 137 ∧ 0 ≤ q.tmod 12 ∧ q.tmod 12 < 12 ∧
        (getNoteName q).isSome = true := by
    intro duration variant notes hok q hq
    obtain ⟨hD, hv⟩ := applySlideVariants_ok n duration TimeMeter.DUPLE variant notes hok
    obtain ⟨b, hb, rfl⟩ := catalog_row variant hv
    obtain ⟨ds, -, -, -, hform⟩ := run_form b hb duration TimeMeter.DUPLE hD
    obtain ⟨notes2, hn2, -, hp, -, -⟩ := hform n
    rw [hok] at hn2
    obtain rfl := Except.ok.inj hn2
    have hq6 : 6 ≤ q ∧ q ≤ 137 := by
      rw [hp, List.mem_append, List.mem_map, List.mem_singleton] at hq
      rcases hq with ⟨o, ho, rfl⟩ | rfl
      · have := branch_offsets_bound b hb o ho
        omega
      · omega
    have hmod : q.tmod 12 = q % 12 := Int.tmod_eq_emod (by omega) (by norm_num)
    refine ⟨hq6.1, hq6.2, by omega, by omega, getNoteName_isSome q (by omega)⟩
  refine ⟨hn, hpit, fun track duration variant => ?_⟩
  unfold transformNote
  rw [h]
  simp only
  cases hok : applySlideVariants n duration TimeMeter.DUPLE variant with
  | error e =>
    simp only
    intro hcontra
    cases hcontra
  | ok notes =>
    simp only
    have hall : ∀ note ∈ notes, ∃ r,
        (match getNoteName note.1 with
          | some transNote => Except.ok (Row.mk track transNote note.2)
          | none => Except.error TransformError.tableIndex) = Except.ok r := by
      intro note hnote
      have hq := hpit duration variant notes hok note.1 (List.mem_map_of_mem Prod.fst hnote)
      obtain ⟨s, hs⟩ := Option.isSome_iff_exists.mp hq.2.2.2.2
      exact ⟨_, by rw [hs]⟩
    obtain ⟨rs, hrs⟩ := mapM_ok _ notes hall
    rw [hrs]
    intro hcontra
    cases hcontra

/-- Witness for C36 at the name "C0", the lowest pitch that is accepted. -/
theorem getNoteName_argument_range_witness :
    getNoteNumber "C0" = .ok 12 ∧ ((12 : Int) ≤ 12 ∧ (12 : Int) ≤ 131) ∧
    (∀ (track duration : Int) (variant : String),
      transformNote track "C0" duration variant ≠ .error TransformError.tableIndex) :=
  ⟨by decide, (getNoteName_argument_range "C0" 12 (by decide)).1,
    (getNoteName_argument_range "C0" 12 (by decide)).2.2⟩

/-! ## Shared lemmas: the order of the sequenced events -/

/-- Every note of a run has its note-on and its note-off among the events that the loop
appends, the note-off its duration after the note-on, and the note-on at a tick that is an
`int` when the starting cursor is one. -/
theorem sequenceFrom_mem (T : Int) (notes : List (Int × Int)) (start p d : Int)
    (hs : INT_MIN ≤ start ∧ start ≤ INT_MAX) (h : (p, d) ∈ notes) :
    ∃ t : Int, (INT_MIN ≤ t ∧ t ≤ INT_MAX) ∧
      (⟨T, p, t, d, true⟩ : MidiEvent) ∈ sequenceFrom T start notes ∧
      (⟨T, p, wrapInt (t + d), 0, false⟩ : MidiEvent) ∈ sequenceFrom T start notes := by
  induction notes generalizing start with
  | nil => cases h
  | cons n rest ih =>
    obtain ⟨p0, d0⟩ := n
    rcases List.mem_cons.mp h with heq | hrest
    · cases heq
      exact ⟨start, hs, by simp [sequenceFrom], by simp [sequenceFrom]⟩
    · obtain ⟨t, ht, h1, h2⟩ := ih (wrapInt (start + d0)) (wrapInt_fits _) hrest
      exact ⟨t, ht, by simp [sequenceFrom, h1], by simp [sequenceFrom, h2]⟩

/-- In a list ordered by a relation, of two members of which the second may not come first,
the first comes first. -/
theorem pairwise_order {α : Type} (R : α → α → Prop) (l : List α) (a b : α)
    (hl : l.Pairwise R) (ha : a ∈ l) (hb : b ∈ l) (hne : a ≠ b) (hR : ¬ R b a) :
    ∃ l1 l2 l3 : List α, l = l1 ++ a :: l2 ++ b :: l3 := by
  obtain ⟨s, t, rfl⟩ := List.append_of_mem hb
  rw [List.pairwise_append] at hl
  obtain ⟨-, hbt, -⟩ := hl
  rw [List.pairwise_cons] at hbt
  rcases List.mem_append.mp ha with has | hat
  · obtain ⟨s1, s2, rfl⟩ := List.append_of_mem has
    exact ⟨s1, s2, t, by simp⟩
  · rcases List.mem_cons.mp hat with heq | hat2
    · exact absurd heq hne
    · exact absurd (hbt.1 a hat2) hR

/-- A name that `getNoteNumber` accepts is none of the two header words. -/
theorem not_header (noteName : String) (p : Int) (hn : getNoteNumber noteName = .ok p) :
    ¬ (noteName = "Note" ∨ noteName = "Track") := by
  have h1 : getNoteNumber "Note" = .error NoteError.stoiInvalidArgument := by decide
  have h2 : getNoteNumber "Track" = .error NoteError.stoiInvalidArgument := by decide
  rintro (rfl | rfl)
  · rw [h1] at hn
    cases hn
  · rw [h2] at hn
    cases hn

/-- The value that the sequencing loop takes from a valid row of track `T`. -/
theorem acceptedNote_ok (row : Row) (p : Int) (hn : getNoteNumber row.noteName = .ok p) :
    acceptedNote row.track row = some (p, row.duration) := by
  have hh := not_header row.noteName p hn
  simp only [acceptedNote, true_and, hh, not_false_eq_true, if_true, hn]

/-- With positive durations every event of a run comes after the start, or at the start as
a note-on. -/
theorem emitFrom_after (T : Int) (notes : List (Int × Int)) (start : Int)
    (hd : ∀ n ∈ notes, 0 < n.2) :
    ∀ e ∈ emitFrom T start notes,
      start < e.startTime ∨ (e.startTime = start ∧ e.isNoteOn = true) := by
  induction notes generalizing start with
  | nil => simp [emitFrom]
  | cons n rest ih =>
    obtain ⟨p, d⟩ := n
    have hd0 : 0 < d := hd (p, d) (List.mem_cons_self _ _)
    have hrest := ih (start + d) (fun n hn => hd n (List.mem_cons_of_mem _ hn))
    intro e he
    simp only [emitFrom, List.mem_cons] at he
    rcases he with rfl | rfl | he
    · exact Or.inr ⟨rfl, rfl⟩
    · exact Or.inl (by simp only; omega)
    · rcases hrest e he with h | ⟨h, -⟩
      · exact Or.inl (by omega)
      · exact Or.inl (by omega)

/-- With positive durations each event of a run is less, by the comparator of the sort,
than every event after it. -/
theorem emitFrom_strict (T : Int) (notes : List (Int × Int)) (start : Int)
    (hd : ∀ n ∈ notes, 0 < n.2) :
    (emitFrom T start notes).Pairwise (fun a b => eventLess a b = true) := by
  induction notes generalizing start with
  | nil => simp [emitFrom]
  | cons n rest ih =>
    obtain ⟨p, d⟩ := n
    have hd0 : 0 < d := hd (p, d) (List.mem_cons_self _ _)
    have hdr : ∀ n ∈ rest, 0 < n.2 := fun n hn => hd n (List.mem_cons_of_mem _ hn)
    have hafter := emitFrom_after T rest (start + d) hdr
    simp only [emitFrom, List.pairwise_cons, List.mem_cons]
    refine ⟨?_, ?_, ih (start + d) hdr⟩
    · rintro e (rfl | he)
      · simp only [eventLess, Bool.or_eq_true, decide_eq_true_eq]
        exact Or.inl (by omega)
      · simp only [eventLess, Bool.or_eq_true, decide_eq_true_eq]
        rcases hafter e he with h | ⟨h, -⟩
        · exact Or.inl (by omega)
        · exact Or.inl (by omega)
    · intro e he
      simp only [eventLess, Bool.or_eq_true, decide_eq_true_eq, Bool.and_eq_true,
        Bool.not_eq_true', decide_eq_true_eq]
      rcases hafter e he with h | ⟨h, hon⟩
      · exact Or.inl h
      · exact Or.inr ⟨⟨h.symm, trivial⟩, hon⟩

/-- The comparator of the sort is asymmetric. -/
theorem eventLess_asymm (a b : MidiEvent) (h : eventLess a b = true) :
    eventLess b a = false := by
  rw [eventLess_false_iff]
  simp only [eventLess, Bool.or_eq_true, decide_eq_true_eq, Bool.and_eq_true,
    Bool.not_eq_true', decide_eq_true_eq] at h
  rcases h with h | ⟨⟨h1, h2⟩, h3⟩
  · exact ⟨by omega, fun he => by omega⟩
  · exact ⟨by omega, fun _ _ => h3⟩

/-- The bytes of the events of a run whose durations are `int`s, when written in the order
of the run: per note a note-on at delta 0 and a note-off at the delta of its duration. -/
theorem writeEvents_emitFrom (T : Int) (notes : List (Int × Int)) (start : Int)
    (hd : ∀ n ∈ notes, INT_MIN ≤ n.2 ∧ n.2 ≤ INT_MAX) :
    writeEvents start (emitFrom T start notes)
      = notes.flatMap (fun n =>
          [0x00, 0x90, toByte n.1, 0x64] ++ encodeVlq n.2 ++ [0x80, toByte n.1, 0x00]) := by
  induction notes generalizing start with
  | nil => rfl
  | cons n rest ih =>
    obtain ⟨p, d⟩ := n
    have hd0 := hd (p, d) (List.mem_cons_self _ _)
    have h0 : wrapInt (start - start) = 0 := by
      rw [sub_self]
      decide
    have h1 : wrapInt (start + d - start) = d := by
      rw [add_sub_cancel_left]
      exact wrapInt_of_fits d hd0.1 hd0.2
    simp only [emitFrom, writeEvents, ih (start + d) (fun n hn => hd n (List.mem_cons_of_mem _ hn)),
      List.flatMap_cons, h0, h1, encodeVlq_zero, noteBytes,
      if_true, Bool.false_eq_true, if_false, List.append_assoc, List.cons_append,
      List.nil_append, List.singleton_append]

/-- Among durations that are not negative each is at most their sum. -/
theorem duration_le_sum (notes : List (Int × Int)) (hd : ∀ n ∈ notes, 0 ≤ n.2) :
    ∀ n ∈ notes, n.2 ≤ (durations notes).sum := by
  induction notes with
  | nil => simp
  | cons x rest ih =>
    have hx : 0 ≤ x.2 := hd x (List.mem_cons_self _ _)
    have hr : ∀ n ∈ rest, 0 ≤ n.2 := fun n hn => hd n (List.mem_cons_of_mem _ hn)
    have hsum : 0 ≤ (durations rest).sum := by
      apply List.sum_nonneg
      intro d hmem
      simp only [durations, List.mem_map] at hmem
      obtain ⟨n, hn, rfl⟩ := hmem
      exact hr n hn
    intro n hn
    simp only [durations, List.map_cons, List.sum_cons] at hsum ⊢
    rcases List.mem_cons.mp hn with rfl | hn
    · omega
    · have := ih hr n hn
      simp only [durations] at this
      omega

/-- The notes of a track come from its valid rows. -/
theorem mem_trackNotes (T : Int) (rows : List Row) (n : Int × Int)
    (h : n ∈ trackNotes T rows) :
    ∃ row ∈ rows, row.track = T ∧ getNoteNumber row.noteName = .ok n.1 ∧ row.duration = n.2 := by
  simp only [trackNotes, List.mem_filterMap] at h
  obtain ⟨row, hrow, hacc⟩ := h
  refine ⟨row, hrow, ?_⟩
  simp only [acceptedNote] at hacc
  split at hacc
  · rename_i hc
    split at hacc
    · rename_i noteNumber hnum
      cases hacc
      exact ⟨hc.1, hnum, rfl⟩
    · cases hacc
  · cases hacc

/-! ## Rows of duration 0 and rows of positive duration -/

/-- C32: a row of duration 0 whose name `getNoteNumber` accepts puts a note-on and a note-off
of the same tick on its track; after the sort of the encoder the note-off stands before the
note-on, because at equal ticks the comparator puts a note-off first. A track with this row
alone is sequenced note-on first and written with the bytes 00 80 p 00 before the bytes
00 90 p 64. -/
theorem zero_duration_off_first (rows : List Row) (row : Row) (p : Int) (hrow : row ∈ rows)
    (hn : getNoteNumber row.noteName = .ok p) (hd : row.duration = 0) :
    (∃ t : Int,
      (⟨row.track, p, t, 0, true⟩ : MidiEvent)
        ∈ mapGet (sequenceRows rows).trackEvents row.track [] ∧
      (⟨row.track, p, t, 0, false⟩ : MidiEvent)
        ∈ mapGet (sequenceRows rows).trackEvents row.track [] ∧
      eventLess ⟨row.track, p, t, 0, false⟩ ⟨row.track, p, t, 0, true⟩ = true ∧
      ∃ l1 l2 l3 : List MidiEvent,
        sortEvents (mapGet (sequenceRows rows).trackEvents row.track [])
          = l1 ++ ⟨row.track, p, t, 0, false⟩ :: l2 ++ ⟨row.track, p, t, 0, true⟩ :: l3) ∧
    (sequenceRows [row]).trackEvents
      = [(row.track, [⟨row.track, p, 0, 0, true⟩, ⟨row.track, p, 0, 0, false⟩])] ∧
    sortEvents [⟨row.track, p, 0, 0, true⟩, ⟨row.track, p, 0, 0, false⟩]
      = [⟨row.track, p, 0, 0, false⟩, ⟨row.track, p, 0, 0, true⟩] ∧
    trackBody [⟨row.track, p, 0, 0, true⟩, ⟨row.track, p, 0, 0, false⟩]
      = [0x00, 0xC0, 0x00, 0x00, 0x80, toByte p, 0x00, 0x00, 0x90, toByte p, 0x64,
         0x00, 0xFF, 0x2F, 0x00] := by
  have hsort : sortEvents [⟨row.track, p, 0, 0, true⟩, ⟨row.track, p, 0, 0, false⟩]
      = [⟨row.track, p, 0, 0, false⟩, ⟨row.track, p, 0, 0, true⟩] := by
    simp [sortEvents, List.insertionSort, List.orderedInsert, eventLess]
  have hh := not_header row.noteName p hn
  refine ⟨?_, ?_, hsort, ?_⟩
  · have hmem : (p, 0) ∈ trackNotes row.track rows := by
      simp only [trackNotes, List.mem_filterMap]
      exact ⟨row, hrow, by rw [acceptedNote_ok row p hn, hd]⟩
    obtain ⟨t, ht, hon, hoff⟩ := sequenceFrom_mem row.track (trackNotes row.track rows) 0 p 0
      (by decide) hmem
    rw [add_zero, wrapInt_of_fits t ht.1 ht.2] at hoff
    rw [← (sequenceRows_sequenceFrom row.track rows).1] at hon hoff
    have hless : eventLess ⟨row.track, p, t, 0, false⟩ ⟨row.track, p, t, 0, true⟩ = true := by
      simp [eventLess]
    obtain ⟨hperm, hsorted⟩ :=
      sortEvents_spec (mapGet (sequenceRows rows).trackEvents row.track [])
    refine ⟨t, hon, hoff, hless, ?_⟩
    refine pairwise_order (fun a b => eventLess b a = false) _ _ _ hsorted
      (hperm.mem_iff.mpr hoff) (hperm.mem_iff.mpr hon) ?_ ?_
    · intro heq
      cases heq
    · intro hcontra
      exact Bool.noConfusion (hless.symm.trans hcontra)
  · have hw : wrapInt 0 = 0 := by decide
    simp only [sequenceRows, List.foldl_cons, List.foldl_nil, sequenceRow, hh, if_false, hn,
      SeqState.init, mapGet, mapSet, hd, List.nil_append, add_zero, hw]
  · have e1 : encodeVlq (wrapInt (0 - 0)) = [0x00] := encodeVlq_zero
    simp only [trackBody, hsort, writeEvents, e1, noteBytes, if_true, Bool.false_eq_true,
      if_false, List.append_assoc, List.cons_append, List.nil_append]

/-- Witness for C32: the single row "C4" of duration 0 on track 1. -/
theorem zero_duration_off_first_witness :
    (⟨1, "C4", 0⟩ : Row) ∈ [(⟨1, "C4", 0⟩ : Row)] ∧
    getNoteNumber "C4" = .ok 60 ∧
    sortEvents [⟨1, 60, 0, 0, true⟩, ⟨1, 60, 0, 0, false⟩]
      = [⟨1, 60, 0, 0, false⟩, ⟨1, 60, 0, 0, true⟩] ∧
    trackBody [⟨1, 60, 0, 0, true⟩, ⟨1, 60, 0, 0, false⟩]
      = [0x00, 0xC0, 0x00, 0x00, 0x80, toByte 60, 0x00, 0x00, 0x90, toByte 60, 0x64,
         0x00, 0xFF, 0x2F, 0x00] :=
  ⟨by decide, by decide,
    (zero_duration_off_first [⟨1, "C4", 0⟩] ⟨1, "C4", 0⟩ 60 (by decide) (by decide) rfl).2.2.1,
    (zero_duration_off_first [⟨1, "C4", 0⟩] ⟨1, "C4", 0⟩ 60 (by decide) (by decide) rfl).2.2.2⟩

/-- C35 where it holds, and the input where it fails: for a track whose rows all have a
strictly positive duration and whose durations sum to at most `INT_MAX`, the sequenced events
on_1, off_1, on_2, off_2, ... are such that each is less than every later one under the
comparator of the encoder, the sort returns them unchanged, and the track body is 00 C0 00,
then for each valid note in input order the bytes 00 90 p 64, the variable-length quantity of
its duration and 80 p 00, then 00 FF 2F 00; the pitch byte p is the note number itself. Two
notes of duration 2000000000 take the cursor out of the range of `int`: the second note-off
is sequenced at -294967296 and the sort moves it to the front, so the sorted list is not
the sequenced one. -/
theorem positive_durations_body (rows : List Row) (T : Int)
    (hpos : ∀ row ∈ rows, row.track = T → 0 < row.duration)
    (hfit : (durations (trackNotes T rows)).sum ≤ INT_MAX) :
    mapGet (sequenceRows rows).trackEvents T [] = emitFrom T 0 (trackNotes T rows) ∧
    (mapGet (sequenceRows rows).trackEvents T []).Pairwise (fun a b => eventLess a b = true) ∧
    sortEvents (mapGet (sequenceRows rows).trackEvents T [])
      = mapGet (sequenceRows rows).trackEvents T [] ∧
    trackBody (mapGet (sequenceRows rows).trackEvents T [])
      = [0x00, 0xC0, 0x00]
        ++ (trackNotes T rows).flatMap (fun n =>
            [0x00, 0x90, toByte n.1, 0x64] ++ encodeVlq n.2 ++ [0x80, toByte n.1, 0x00])
        ++ [0x00, 0xFF, 0x2F, 0x00] ∧
    (∀ n ∈ trackNotes T rows, 0 < n.2 ∧ toByte n.1 = n.1.toNat) ∧
    mapGet (sequenceRows [⟨1, "C4", 2000000000⟩, ⟨1, "D4", 2000000000⟩]).trackEvents 1 []
      = [⟨1, 60, 0, 2000000000, true⟩, ⟨1, 60, 2000000000, 0, false⟩,
         ⟨1, 62, 2000000000, 2000000000, true⟩, ⟨1, 62, -294967296, 0, false⟩] ∧
    sortEvents [⟨1, 60, 0, 2000000000, true⟩, ⟨1, 60, 2000000000, 0, false⟩,
        ⟨1, 62, 2000000000, 2000000000, true⟩, ⟨1, 62, -294967296, 0, false⟩]
      = [⟨1, 62, -294967296, 0, false⟩, ⟨1, 60, 0, 2000000000, true⟩,
         ⟨1, 60, 2000000000, 0, false⟩, ⟨1, 62, 2000000000, 2000000000, true⟩] ∧
    sortEvents (mapGet
        (sequenceRows [⟨1, "C4", 2000000000⟩, ⟨1, "D4", 2000000000⟩]).trackEvents 1 [])
      ≠ mapGet (sequenceRows [⟨1, "C4", 2000000000⟩, ⟨1, "D4", 2000000000⟩]).trackEvents 1 [] := by
  have hnotes : ∀ n ∈ trackNotes T rows, 0 < n.2 ∧ toByte n.1 = n.1.toNat := by
    intro n hn
    obtain ⟨row, hrow, ht, hnum, hdur⟩ := mem_trackNotes T rows n hn
    refine ⟨by rw [← hdur]; exact hpos row hrow ht, ?_⟩
    obtain ⟨i, d, entry, -, -, hval⟩ := getNoteNumber_ok row.noteName n.1 hnum
    have hi := i.isLt
    have hd := d.isLt
    have hmod : n.1 % 256 = n.1 := Int.emod_eq_of_lt (by omega) (by omega)
    rw [toByte, hmod]
  have hnn : ∀ n ∈ trackNotes T rows, 0 ≤ n.2 := fun n hn => (hnotes n hn).1.le
  have hrange : ∀ n ∈ trackNotes T rows, INT_MIN ≤ n.2 ∧ n.2 ≤ INT_MAX := by
    intro n hn
    have h1 := (hnotes n hn).1
    have h2 := duration_le_sum (trackNotes T rows) hnn n hn
    simp only [INT_MIN, INT_MAX] at hfit ⊢
    omega
  have hstrict := emitFrom_strict T (trackNotes T rows) 0 (fun n hn => (hnotes n hn).1)
  have hev := (sequenceRows_emitFrom T rows (nonneg_fits (trackNotes T rows) hnn hfit)).1
  have hsort : sortEvents (emitFrom T 0 (trackNotes T rows))
      = emitFrom T 0 (trackNotes T rows) :=
    List.Sorted.insertionSort_eq (hstrict.imp (fun {a b} h => eventLess_asymm a b h))
  have hbad : sortEvents [⟨1, 60, 0, 2000000000, true⟩, ⟨1, 60, 2000000000, 0, false⟩,
      ⟨1, 62, 2000000000, 2000000000, true⟩, ⟨1, 62, -294967296, 0, false⟩]
      = [⟨1, 62, -294967296, 0, false⟩, ⟨1, 60, 0, 2000000000, true⟩,
         ⟨1, 60, 2000000000, 0, false⟩, ⟨1, 62, 2000000000, 2000000000, true⟩] := by
    decide
  rw [hev]
  refine ⟨rfl, hstrict, hsort, ?_, hnotes, by decide, hbad, by decide⟩
  rw [trackBody, hsort, writeEvents_emitFrom T _ 0 hrange]

/-- Witness for C35: two notes on track 1 around a row of track 2. -/
theorem positive_durations_body_witness :
    (∀ row ∈ ([⟨1, "C4", 100⟩, ⟨2, "D4", 0⟩, ⟨1, "E4", 50⟩] : List Row),
      row.track = 1 → 0 < row.duration) ∧
    (durations (trackNotes 1 [⟨1, "C4", 100⟩, ⟨2, "D4", 0⟩, ⟨1, "E4", 50⟩])).sum ≤ INT_MAX ∧
    sortEvents (mapGet
        (sequenceRows [⟨1, "C4", 100⟩, ⟨2, "D4", 0⟩, ⟨1, "E4", 50⟩]).trackEvents 1 [])
      = mapGet (sequenceRows [⟨1, "C4", 100⟩, ⟨2, "D4", 0⟩, ⟨1, "E4", 50⟩]).trackEvents 1 [] ∧
    trackBody (mapGet
        (sequenceRows [⟨1, "C4", 100⟩, ⟨2, "D4", 0⟩, ⟨1, "E4", 50⟩]).trackEvents 1 [])
      = [0x00, 0xC0, 0x00]
        ++ (trackNotes 1 [⟨1, "C4", 100⟩, ⟨2, "D4", 0⟩, ⟨1, "E4", 50⟩]).flatMap (fun n =>
            [0x00, 0x90, toByte n.1, 0x64] ++ encodeVlq n.2 ++ [0x80, toByte n.1, 0x00])
        ++ [0x00, 0xFF, 0x2F, 0x00] :=
  ⟨by decide, by decide, (positive_durations_body _ 1 (by decide) (by decide)).2.2.1,
    (positive_durations_body _ 1 (by decide) (by decide)).2.2.2.1⟩

/-! ## Shared lemmas: the groups of a variable-length quantity -/

/-- The loop on a non-empty buffer appends the base-128 digits of the value, least
significant first, each with the continuation bit. -/
theorem vlqLoop_digits (n : Nat) : ∀ acc : List Nat, acc ≠ [] →
    vlqLoop n acc = acc ++ (Nat.digits 128 n).map (fun g => g + 128) := by
  induction n using Nat.strong_induction_on with
  | _ n ih =>
    intro acc hacc
    rw [vlqLoop]
    by_cases hn : 0 < n
    · have hand : n &&& 0x7F = n % 128 := Nat.and_pow_two_sub_one_eq_mod n 7
      have hshift : n >>> 7 = n / 128 := Nat.shiftRight_eq_div_pow n 7
      have hor : (n % 128) ||| 0x80 = n % 128 + 128 :=
        or_top_bit ⟨n % 128, Nat.mod_lt _ (by norm_num)⟩
      have hrec := ih (n / 128) (Nat.div_lt_self hn (by norm_num))
        (acc ++ [n % 128 + 128]) (by simp)
      simp only [hn, if_true, hand, hshift, hacc, ne_eq, not_false_eq_true, hor]
      rw [hrec, Nat.digits_def' (by norm_num) hn]
      simp
    · have h0 : n = 0 := by omega
      subst h0
      simp

/-- The bytes of a positive delta: the digits of the higher groups, most significant first
and with the continuation bit, then the lowest group. -/
theorem encodeVlq_digits (n : Nat) (hn : 0 < n) :
    encodeVlq (n : Int)
      = ((Nat.digits 128 (n / 128)).map (fun g => g + 128)).reverse ++ [n % 128] := by
  have hand : n &&& 0x7F = n % 128 := Nat.and_pow_two_sub_one_eq_mod n 7
  have hshift : n >>> 7 = n / 128 := Nat.shiftRight_eq_div_pow n 7
  have hne : (n : Int) ≠ 0 := by omega
  rw [encodeVlq, if_neg hne, Int.toNat_ofNat, vlqLoop]
  simp only [hn, hand, hshift, ne_eq, not_true_eq_false, if_true, if_false, List.nil_append]
  rw [vlqLoop_digits (n / 128) [n % 128] (by simp)]
  simp

/-- The number of bytes of a positive delta. -/
theorem encodeVlq_length (n : Nat) (hn : 0 < n) :
    (encodeVlq (n : Int)).length = Nat.log 128 n + 1 := by
  rw [encodeVlq_digits n hn, ← Nat.digits_len 128 n (by norm_num) (by omega),
    Nat.digits_def' (by norm_num) hn]
  simp

/-- The first byte of a positive delta carries a payload that is not 0. -/
theorem encodeVlq_first (n : Nat) (hn : 0 < n) :
    ∃ (first : Nat) (rest : List Nat),
      encodeVlq (n : Int) = first :: rest ∧ first % 128 ≠ 0 := by
  rw [encodeVlq_digits n hn]
  by_cases hq : n / 128 = 0
  · rw [hq]
    refine ⟨n % 128, [], by simp, ?_⟩
    have : n < 128 := by omega
    omega
  · have hnil : Nat.digits 128 (n / 128) ≠ [] := Nat.digits_ne_nil_iff_ne_zero.mpr hq
    have hlast := Nat.getLast_digit_ne_zero 128 hq
    have hlt : (Nat.digits 128 (n / 128)).getLast hnil < 128 :=
      Nat.digits_lt_base (by norm_num) (List.getLast_mem hnil)
    refine ⟨(Nat.digits 128 (n / 128)).getLast hnil + 128,
      (((Nat.digits 128 (n / 128)).dropLast).map (fun g => g + 128)).reverse ++ [n % 128],
      ?_, by omega⟩
    conv_lhs => rw [← List.dropLast_append_getLast hnil]
    simp

/-- A sequence of bytes read as a variable-length quantity stays below 128 to the power of
its length. -/
theorem vlqValue_lt (bytes : List Nat) : vlqValue bytes < 128 ^ bytes.length := by
  induction bytes using List.reverseRecOn with
  | nil => simp [vlqValue]
  | append_singleton bs b ih =>
    rw [vlqValue_concat, List.length_append, List.length_singleton, pow_succ]
    have : b % 128 < 128 := Nat.mod_lt _ (by norm_num)
    omega

/-! ## Minimal variable-length quantities -/

/-- C38: for every delta above 0 the first byte written carries a 7-bit payload that is not
0, and the number of bytes is the number of 7-bit groups of the delta: it is at most `k`
exactly when the delta is below 2^(7k), so it is 1 below 2^7, 2 from there below 2^14, 3 from
there below 2^21, 4 from there below 2^28, at most 4 up to 0x0FFFFFFF, and no sequence of
bytes that reads as the same value is shorter. -/
theorem vlq_minimal (delta : Int) (h : 0 < delta) :
    (∃ (first : Nat) (rest : List Nat), encodeVlq delta = first :: rest ∧ first % 128 ≠ 0) ∧
    (encodeVlq delta).length = Nat.log 128 delta.toNat + 1 ∧
    (∀ k : Nat, (encodeVlq delta).length ≤ k ↔ delta < 2 ^ (7 * k)) ∧
    (delta < 2 ^ 7 → (encodeVlq delta).length = 1) ∧
    (2 ^ 7 ≤ delta → delta < 2 ^ 14 → (encodeVlq delta).length = 2) ∧
    (2 ^ 14 ≤ delta → delta < 2 ^ 21 → (encodeVlq delta).length = 3) ∧
    (2 ^ 21 ≤ delta → delta < 2 ^ 28 → (encodeVlq delta).length = 4) ∧
    (delta ≤ 0x0FFFFFFF → (encodeVlq delta).length ≤ 4) ∧
    (∀ bytes : List Nat, (vlqValue bytes : Int) = delta →
      (encodeVlq delta).length ≤ bytes.length) := by
  lift delta to ℕ using h.le
  have hn : 0 < delta := by omega
  have hlen := encodeVlq_length delta hn
  have hk : ∀ k : Nat, (encodeVlq (delta : Int)).length ≤ k ↔ delta < 128 ^ k := by
    intro k
    rw [hlen, Nat.lt_pow_iff_log_lt (by norm_num) (by omega)]
    omega
  have h1 := hk 1
  have h2 := hk 2
  have h3 := hk 3
  have h4 := hk 4
  have h0 := hk 0
  norm_num at h0 h1 h2 h3 h4
  refine ⟨encodeVlq_first delta hn, by rw [hlen, Int.toNat_ofNat], ?_, ?_, ?_, ?_, ?_, ?_, ?_⟩
  · intro k
    rw [hk k, pow_mul]
    norm_num
    exact_mod_cast Iff.rfl
  · intro hlt
    have : delta < 128 := by omega
    omega
  · intro hge hlt
    have : ¬ delta < 128 := by omega
    have : delta < 16384 := by omega
    omega
  · intro hge hlt
    have : ¬ delta < 16384 := by omega
    have : delta < 2097152 := by omega
    omega
  · intro hge hlt
    have : ¬ delta < 2097152 := by omega
    have : delta < 268435456 := by omega
    omega
  · intro hle
    have : delta < 268435456 := by omega
    omega
  · intro bytes hv
    have hv2 : vlqValue bytes = delta := by exact_mod_cast hv
    rw [hk, ← hv2]
    exact vlqValue_lt bytes

/-- Witness for C38 at the delta 480, written in the two bytes 83 60. -/
theorem vlq_minimal_witness :
    (0 : Int) < 480 ∧ (encodeVlq 480).length = 2 ∧ ((encodeVlq 480).length ≤ 4) :=
  ⟨by decide, (vlq_minimal 480 (by decide)).2.2.2.2.1 (by decide) (by decide),
    (vlq_minimal 480 (by decide)).2.2.2.2.2.2.2.1 (by decide)⟩

end SlidesTransformation
